import Mathlib

/-
  A verification development for the jsonapi marshalling library.

  The Go source is shallowly embedded: reflection-driven traversal of an
  annotated struct becomes structural recursion over an inductive `Model`
  whose fields carry their `jsonapi:"..."` tag string and a value.  Go maps
  become association lists with insert-or-replace semantics, Go's
  `interface{}` attribute payload becomes the inductive `JVal`, fallible
  code returns `Except MErr`.  `model_visitor.go` is embedded definition by
  definition under its source names; parts of the repository that the
  sources do not include (the wire `Node` JSON tags, `jsonapiTypeOfModel`,
  the unmarshal visitor) are modelled from the spec and marked as such in
  their doc comments.
-/

namespace Jsonapi

/-! ## Field-configuration tokens

Modelled from the spec (section 6, "Field configuration syntax"): the token
constants live in a constants file that is not among the sources, but their
values are pinned by the tag strings used throughout the in-source tests. -/

def annotationPrimary : String := "primary"
def annotationClientID : String := "client-id"
def annotationAttribute : String := "attr"
def annotationRelation : String := "relation"
def annotationPolyRelation : String := "polyrelation"
def annotationLinks : String := "links"
def annotationOmitEmpty : String := "omitempty"
def annotationISO8601 : String := "iso8601"
def annotationRFC3339 : String := "rfc3339"
def annotationSeparator : String := ","

/-- The error values surfaced by the marshal visitor (`errors.go` constants
referenced from `model_visitor.go`), plus `goPanic` standing for a Go
runtime panic (e.g. `reflect.Value.IsNil` on a non-pointer), which aborts
the program rather than returning an error value, and `fuelExhausted`,
which belongs to the embedding alone: it bounds the recursion that the
source leaves unbounded. -/
inductive MErr where
  | badJSONAPIStructTag
  | badJSONAPIID
  | unexpectedNil
  | unexpectedType
  | invalidLinks
  | goPanic
  | fuelExhausted
  deriving DecidableEq, Repr

/-! ## Go primitive values -/

/-- Signed integer kinds accepted for a primary field
(`reflect.Int .. reflect.Int64`). -/
inductive SKind where
  | i | i8 | i16 | i32 | i64
  deriving DecidableEq, Repr

/-- Unsigned integer kinds accepted for a primary field
(`reflect.Uint .. reflect.Uint64`). -/
inductive UKind where
  | u | u8 | u16 | u32 | u64
  deriving DecidableEq, Repr

/-- A primitive Go value: string, signed integer of some width, unsigned
integer of some width, or bool.  Width overflow is immaterial to the code
under study (values are only formatted), so integers are unbounded with the
kind kept as a tag for the reflection `switch`. -/
inductive PrimVal where
  | str (s : String)
  | intv (k : SKind) (v : Int)
  | uintv (k : UKind) (v : Nat)
  | boolean (b : Bool)
  deriving DecidableEq, Repr

/-- `strconv.FormatInt` / `strconv.FormatUint` base 10: canonical decimal. -/
def formatInt (v : Int) : String := toString v

def formatUint (v : Nat) : String := toString v

/-- Modelled from the spec: strconv's base-10 digit accumulation, at the
character level (the same level as the tag splitter). -/
def strDigitsToNat (cs : List Char) : Nat :=
  cs.foldl (fun a c => a * 10 + (c.toNat - 48)) 0

/-- Modelled from the spec: `strconv.ParseUint` base 10 — a non-empty
all-digit string, folded into a number. -/
def parseUintChars (cs : List Char) : Option Nat :=
  if !cs.isEmpty && cs.all Char.isDigit then some (strDigitsToNat cs) else none

/-- Modelled from the spec: `strconv.ParseInt` base 10 — an optional leading
minus sign before the digits. -/
def parseIntChars : List Char → Option Int
  | [] => none
  | c :: rest =>
      if c = '-' then (parseUintChars rest).map (fun v => -(v : Int))
      else (parseUintChars (c :: rest)).map Int.ofNat

/-- The base-10 digit list of a natural number, by value recursion; a proof
device shown equal to the rendering the formatters produce. -/
def decDigits (n : Nat) : List Char :=
  if n < 10 then [Nat.digitChar n]
  else decDigits (n / 10) ++ [Nat.digitChar (n % 10)]
decreasing_by exact Nat.div_lt_self (by omega) (by omega)

/-- The zero value of a primitive's type (`reflect.Zero`). -/
def zeroPrim : PrimVal → PrimVal
  | .str _ => .str ""
  | .intv k _ => .intv k 0
  | .uintv k _ => .uintv k 0
  | .boolean _ => .boolean false

/-! ## Go times

`time.Time` restricted to whole seconds and identified with its Unix
instant; the zero `time.Time` sits at Unix second -62135596800 and is the
unique instant with `IsZero() == true`. -/

def goTimeZeroUnix : Int := -62135596800

structure GoTime where
  unix : Int
  deriving DecidableEq, Repr

/-- `time.Time.IsZero`. -/
def GoTime.isZero (t : GoTime) : Bool := t.unix == goTimeZeroUnix

def goTimeZero : GoTime := ⟨goTimeZeroUnix⟩

/-! ## Links and Meta payloads -/

/-- One entry of a `Links` map: a plain string, an `{href, meta}` pair, or
anything else (which fails validation). -/
inductive LinkVal where
  | strVal (s : String)
  | obj (href : String) (meta : List (String × String))
  | bad
  deriving DecidableEq, Repr

def LinksVal := List (String × LinkVal)
  deriving DecidableEq, Repr

def MetaVal := List (String × String)
  deriving DecidableEq, Repr

/-- Modelled from the spec (section 4.2): `Links.validate` (in the wire-model
file absent from the sources) accepts a links map whose every entry is a
plain string or an `{href, meta}` pair, and rejects anything else. -/
def linksValidate (l : LinksVal) : Bool :=
  match l with
  | [] => true
  | (_, .bad) :: _ => false
  | (_, .strVal _) :: rest => linksValidate rest
  | (_, .obj _ _) :: rest => linksValidate rest

/-- The optional capabilities a model may satisfy (probed dynamically by the
visitor).  `some` means the model implements the interface and its method
returns the stored table; for the per-relation interfaces a missing table
entry is the Go method returning a nil pointer. -/
structure Caps where
  links : Option LinksVal
  meta : Option MetaVal
  relLinks : Option (List (String × LinksVal))
  relMeta : Option (List (String × MetaVal))
  deriving DecidableEq, Repr

/-- A model with no capabilities. -/
def noCaps : Caps := ⟨none, none, none, none⟩

/-! ## The domain model

A `Model` stands for a (dereferenced) pointer-to-struct handed to the
visitor.  Each `Field` carries the raw `jsonapi` tag string (empty string =
no tag, as in Go) and the field's value.  Value kinds mirror the reflection
kinds the visitor inspects: primitives, pointers to primitives, times,
pointers to times, pointers to structs (both ordinary relation targets and
polyrelation choice structs — in Go the distinction is made by the tag, not
the type), slices of pointers to structs, and `Links`-typed fields. -/

mutual
inductive FVal where
  | prim (p : PrimVal)
  | primPtr (p : Option PrimVal)
  | timeVal (t : GoTime)
  | timePtr (t : Option GoTime)
  | ptr (m : Option Model)
  | slice (ms : List (Option Model))
  | linksField

inductive Field where
  | mk (tag : String) (v : FVal)

inductive Model where
  | mk (fields : List Field) (caps : Caps)
end

def Field.tag : Field → String
  | .mk t _ => t

def Field.v : Field → FVal
  | .mk _ v => v

def Model.fields : Model → List Field
  | .mk fs _ => fs

def Model.caps : Model → Caps
  | .mk _ c => c

/-! ## The cursor's tag handling (`modelFieldCursor`) -/

/-- `strings.Split` for the one-character separator ",": split at every
occurrence, no merging of adjacent separators. -/
def splitCommaAux : List Char → List Char → List String
  | [], acc => [String.mk acc.reverse]
  | c :: rest, acc =>
      if c = ',' then String.mk acc.reverse :: splitCommaAux rest []
      else splitCommaAux rest (c :: acc)

def splitComma (s : String) : List String := splitCommaAux s.toList []

/-- `modelFieldCursor.Next`: the tag string is split on "," unless empty. -/
def parseTag (tag : String) : List String :=
  if tag = "" then [] else splitComma tag

/-- `modelFieldCursor.HasTag`. -/
def hasTag (parts : List String) : Bool := parts.length != 0

/-- `modelFieldCursor.TagType`. -/
def tagType (parts : List String) : String :=
  match parts with
  | [] => ""
  | t :: _ => t

/-- `modelFieldCursor.ValidTag`. -/
def validTag (parts : List String) : Bool :=
  if !hasTag parts then false
  else if (tagType parts == annotationClientID && parts.length != 1)
       || (tagType parts != annotationClientID && parts.length < 2) then false
  else true

/-- `cursor.currentTag[1]`, the resource-level name; guarded by `validTag`
wherever the visitor reads it, so the default is never observed there. -/
def tagAt (parts : List String) (i : Nat) : String := (parts.get? i).getD ""

/-! ## The document node

`Node` mirrors the wire-level node type populated by the visitor: maps are
association lists with insert-or-replace assignment, `interface{}` attribute
payloads are `JVal`.  The two external time formatters are kept abstract as
injective constructors carrying the instant they render. -/

/-- A dynamic value stored into `node.Attributes`. -/
inductive JVal where
  | raw (v : FVal)
  | epoch (sec : Int)
  | fmtISO8601 (sec : Int)
  | fmtRFC3339 (sec : Int)
  | null

mutual
inductive Node where
  | mk (ty : String) (id : String) (clientID : String)
       (attributes : Option (List (String × JVal)))
       (relationships : Option (List (String × RelData)))
       (links : Option LinksVal)
       (meta : Option MetaVal)

inductive RelData where
  | one (data : Option Node) (links : Option LinksVal) (meta : Option MetaVal)
  | many (data : List Node) (links : Option LinksVal) (meta : Option MetaVal)
end

def Node.ty : Node → String
  | .mk t _ _ _ _ _ _ => t

def Node.id : Node → String
  | .mk _ i _ _ _ _ _ => i

def Node.clientID : Node → String
  | .mk _ _ c _ _ _ _ => c

def Node.attributes : Node → Option (List (String × JVal))
  | .mk _ _ _ a _ _ _ => a

def Node.relationships : Node → Option (List (String × RelData))
  | .mk _ _ _ _ r _ _ => r

def Node.links : Node → Option LinksVal
  | .mk _ _ _ _ _ l _ => l

def Node.meta : Node → Option MetaVal
  | .mk _ _ _ _ _ _ m => m

def emptyNode : Node := .mk "" "" "" none none none none

/-- Go map assignment `m[k] = v`: replace in place, else append. -/
def mapSet {α : Type} (m : List (String × α)) (k : String) (v : α) :
    List (String × α) :=
  match m with
  | [] => [(k, v)]
  | (k', v') :: rest => if k' == k then (k, v) :: rest else (k', v') :: mapSet rest k v

def Node.withID (n : Node) (i : String) : Node :=
  match n with
  | .mk t _ c a r l m => .mk t i c a r l m

def Node.withTy (n : Node) (t : String) : Node :=
  match n with
  | .mk _ i c a r l m => .mk t i c a r l m

def Node.withClientID (n : Node) (c : String) : Node :=
  match n with
  | .mk t i _ a r l m => .mk t i c a r l m

def Node.withLinks (n : Node) (l : Option LinksVal) : Node :=
  match n with
  | .mk t i c a r _ m => .mk t i c a r l m

def Node.withMeta (n : Node) (m : Option MetaVal) : Node :=
  match n with
  | .mk t i c a r l _ => .mk t i c a r l m

/-- `if node.Attributes == nil { node.Attributes = make(...) }` -/
def Node.ensureAttrs (n : Node) : Node :=
  match n with
  | .mk t i c none r l m => .mk t i c (some []) r l m
  | n => n

/-- `node.Attributes[name] = v` (the map is ensured beforehand by the
attribute handler, mirroring the source). -/
def Node.setAttr (n : Node) (name : String) (v : JVal) : Node :=
  match n with
  | .mk t i c a r l m => .mk t i c (some (mapSet (a.getD []) name v)) r l m

/-- `if node.Relationships == nil { make }` followed by
`node.Relationships[name] = rel`; every success path of the source that
creates the map also assigns into it. -/
def Node.setRel (n : Node) (name : String) (rel : RelData) : Node :=
  match n with
  | .mk t i c a r l m => .mk t i c a (some (mapSet (r.getD []) name rel)) l m

/-- `toShallowNode`. -/
def toShallowNode (node : Node) : Node :=
  if node.id == "" then .mk node.ty "" "" node.attributes none none none
  else .mk node.ty node.id "" none none none none

/-- The Included Set key: `fmt.Sprintf("%s,%s", n.Type, n.ID)`. -/
def nodeKey (n : Node) : String := n.ty ++ "," ++ n.id

/-- `modelVisitor.appendIncluded` for one node: first insertion wins. -/
def appendIncluded (inc : List (String × Node)) (n : Node) : List (String × Node) :=
  if (inc.lookup (nodeKey n)).isSome then inc else inc ++ [(nodeKey n, n)]

/-! ## Wire form of a node

Modelled from the spec (sections 3 and 6): the JSON rendering of a node
lives in a wire-model file absent from the sources.  There `id` is a string
member rendered with omit-when-empty JSON semantics (corroborated in-source
by `toShallowNode`, which treats `node.ID == ""` as "unassigned", and by the
empty-string-id omission test), while `type` is a required member, always
rendered. -/

def Node.wireHasID (n : Node) : Bool := n.id != ""

def Node.wireHasType (_ : Node) : Bool := true

/-! ## Polymorphic choice selection -/

/-- Modelled from the spec (section 4.1): `jsonapiTypeOfModel` (not among the
sources) resolves a struct type's resource type name from its `primary`
field configuration: the first field whose configuration names the `primary`
role with a type-name token yields that name; otherwise an error (here
`none`). -/
def jsonapiTypeOfFields : List Field → Option String
  | [] => none
  | f :: rest =>
      let parts := parseTag f.tag
      if tagType parts == annotationPrimary && decide (2 ≤ parts.length) then
        some (tagAt parts 1)
      else jsonapiTypeOfFields rest

def jsonapiTypeOfModel (m : Model) : Option String :=
  jsonapiTypeOfFields m.fields

/-- `selectChoiceTypeStructField`: first field of the choice struct that is a
non-nil pointer whose pointed-to type resolves to a jsonapi type.  Pointer
fields to non-model types (`primPtr`, `timePtr`) fail the type resolution
and are skipped, as are nil pointers and non-pointer fields. -/
def selectChoiceTypeStructField : List Field → Option Model
  | [] => none
  | f :: rest =>
      match f.v with
      | .ptr (some m) =>
          if (jsonapiTypeOfModel m).isSome then some m
          else selectChoiceTypeStructField rest
      | _ => selectChoiceTypeStructField rest

/-! ## The non-recursive field handlers -/

def Node.withPrimary (node : Node) (parts : List String) (id : String) : Node :=
  (node.withID id).withTy (tagAt parts 1)

/-- `modelVisitor.visitFieldTypePrimary`.  A nil pointer makes
`reflect.Indirect` produce the invalid `reflect.Value`, whose `Interface()`
panics; non-integer, non-string kinds fall to the default case
(`ErrBadJSONAPIID`). -/
def visitFieldTypePrimary (node : Node) (parts : List String) (v : FVal) :
    Except MErr Node :=
  match v with
  | .prim (.str s) => .ok (node.withPrimary parts s)
  | .prim (.intv _ n) => .ok (node.withPrimary parts (formatInt n))
  | .prim (.uintv _ n) => .ok (node.withPrimary parts (formatUint n))
  | .prim (.boolean _) => .error .badJSONAPIID
  | .primPtr (some (.str s)) => .ok (node.withPrimary parts s)
  | .primPtr (some (.intv _ n)) => .ok (node.withPrimary parts (formatInt n))
  | .primPtr (some (.uintv _ n)) => .ok (node.withPrimary parts (formatUint n))
  | .primPtr (some (.boolean _)) => .error .badJSONAPIID
  | .primPtr none => .error .goPanic
  | .timePtr none => .error .goPanic
  | .ptr none => .error .goPanic
  | .timeVal _ => .error .badJSONAPIID
  | .timePtr (some _) => .error .badJSONAPIID
  | .ptr (some _) => .error .badJSONAPIID
  | .slice _ => .error .badJSONAPIID
  | .linksField => .error .badJSONAPIID

/-- `reflect.Value.String()` on a non-string kind returns a placeholder of
the shape "<T Value>" rather than panicking. -/
def goNonStringValueString : String := "<Value>"

def fieldValueString : FVal → String
  | .prim (.str s) => s
  | _ => goNonStringValueString

/-- `modelVisitor.visitFieldTypeClientID`. -/
def visitFieldTypeClientID (node : Node) (v : FVal) : Node :=
  let clientID := fieldValueString v
  if clientID != "" then node.withClientID clientID else node

structure AttrMods where
  omitEmpty : Bool
  iso8601 : Bool
  rfc3339 : Bool

/-- The modifier scan over `cursor.currentTag[2:]`. -/
def parseAttrMods (parts : List String) : AttrMods :=
  (parts.drop 2).foldl
    (fun a arg =>
      if arg == annotationOmitEmpty then { a with omitEmpty := true }
      else if arg == annotationISO8601 then { a with iso8601 := true }
      else if arg == annotationRFC3339 then { a with rfc3339 := true }
      else a)
    ⟨false, false, false⟩

/-- The `iso8601` / `rfc3339` / epoch-seconds rendering of a time attribute,
in the if/else-if order of the source (`iso8601` wins when both are set). -/
def timeJVal (mods : AttrMods) (t : GoTime) : JVal :=
  if mods.iso8601 then .fmtISO8601 t.unix
  else if mods.rfc3339 then .fmtRFC3339 t.unix
  else .epoch t.unix

/-- `reflect.DeepEqual(fieldValue.Interface(), reflect.Zero(type).Interface())`
for the value kinds a generic (non-time) attribute can hold.  The embedding
conflates a nil slice with an empty one (Go distinguishes them; no claim
depends on the difference). -/
def isZeroFVal : FVal → Bool
  | .prim p => p == zeroPrim p
  | .primPtr p => p.isNone
  | .ptr m => m.isNone
  | .slice ms => ms.isEmpty
  | .timeVal _ => false
  | .timePtr t => t.isNone
  | .linksField => false

/-- `modelVisitor.visitFieldTypeAttribute`.  The string special-case of the
generic branch stores the same value as the fall-through and is collapsed
into `.raw`. -/
def visitFieldTypeAttribute (node : Node) (parts : List String) (v : FVal) : Node :=
  let mods := parseAttrMods parts
  let name := tagAt parts 1
  let node := node.ensureAttrs
  match v with
  | .timeVal t =>
      if t.isZero then node
      else node.setAttr name (timeJVal mods t)
  | .timePtr none =>
      if mods.omitEmpty then node else node.setAttr name .null
  | .timePtr (some t) =>
      if t.isZero && mods.omitEmpty then node
      else node.setAttr name (timeJVal mods t)
  | other =>
      if mods.omitEmpty && isZeroFVal other then node
      else node.setAttr name (.raw other)

/-- `reflect.Value.IsNil()`, which panics on kinds that cannot be nil. -/
def fvalIsNil : FVal → Except MErr Bool
  | .ptr m => .ok m.isNone
  | .primPtr p => .ok p.isNone
  | .timePtr t => .ok t.isNone
  | .slice ms => .ok ms.isEmpty
  | _ => .error .goPanic

def sliceLen : FVal → Nat
  | .slice ms => ms.length
  | _ => 0

/-- The snooping loop of the slice `polyrelation` branch: a nil element
fails with `UnexpectedNil`; an element whose choice struct resolves to no
slot is skipped.  (A non-pointer element would fail with `UnexpectedType`;
slice elements are pointers by construction here.) -/
def snoopPolyElems : List (Option Model) → Except MErr (List Model)
  | [] => .ok []
  | none :: _ => .error .unexpectedNil
  | some choice :: rest =>
      match selectChoiceTypeStructField choice.fields with
      | some found =>
          match snoopPolyElems rest with
          | .ok ms => .ok (found :: ms)
          | .error e => .error e
      | none => snoopPolyElems rest

/-! ## The visitor state and capability probes -/

/-- `modelVisitor`: the Included map, side-load flag and the root model
tracked across recursive visits. -/
structure VState where
  included : List (String × Node)
  sideload : Bool
  root : Option Model

/-- `m.rootModel.(RelationshipLinkable)` probe followed by
`JSONAPIRelationshipLinks(name)`; a model without the capability, or a nil
root, contributes nothing, and a name missing from the table is the method
returning a nil pointer. -/
def relCapLinks (root : Option Model) (name : String) : Option LinksVal :=
  match root with
  | some r =>
      match r.caps.relLinks with
      | some tbl => tbl.lookup name
      | none => none
  | none => none

/-- `m.rootModel.(RelationshipMetable)` probe, as for the links. -/
def relCapMeta (root : Option Model) (name : String) : Option MetaVal :=
  match root with
  | some r =>
      match r.caps.relMeta with
      | some tbl => tbl.lookup name
      | none => none
  | none => none

/-- The `Metable` probe at the end of `Visit`: attached unconditionally when
the model implements it. -/
def applyMetaCap (m : Model) (n : Node) : Node :=
  match m.caps.meta with
  | some mv => n.withMeta (some mv)
  | none => n

/-- The side-load/embed packaging of a to-many relationship: in side-load
mode each full node is registered into the Included Set and the relationship
carries shallow nodes. -/
def emitToMany (st : VState) (node : Node) (name : String) (nodes : List Node)
    (relLinks : Option LinksVal) (relMeta : Option MetaVal) : Node × VState :=
  if st.sideload then
    (node.setRel name (.many (nodes.map toShallowNode) relLinks relMeta),
     { st with included := nodes.foldl appendIncluded st.included })
  else
    (node.setRel name (.many nodes relLinks relMeta), st)

/-- The side-load/embed packaging of a present to-one relationship. -/
def emitToOne (st : VState) (node : Node) (name : String) (child : Node)
    (relLinks : Option LinksVal) (relMeta : Option MetaVal) : Node × VState :=
  if st.sideload then
    (node.setRel name (.one (some (toShallowNode child)) relLinks relMeta),
     { st with included := appendIncluded st.included child })
  else
    (node.setRel name (.one (some child) relLinks relMeta), st)

/-! ## The recursive visitor

The `fuel` argument exists only to bound the embedding's recursion: the
source recurses unboundedly (a cyclic object graph does not terminate, per
the spec's design notes), so every theorem about a successful run is stated
for a fuel at which the run completes. -/

mutual
/-- `modelVisitor.Visit`: iterate the cursor over the model's fields, then
attach the `Linkable` (validated) and `Metable` capability results.  The
first call records the root model and its completion resets it (the
deferred reset in the source). -/
def visit : Nat → VState → Model → Except MErr (Node × VState)
  | 0, _, _ => .error .fuelExhausted
  | fuel+1, st, m =>
      let wasRoot := st.root.isNone
      let stIn := if wasRoot then { st with root := some m } else st
      match visitFields fuel stIn emptyNode m.fields with
      | .error e => .error e
      | .ok (node, st2) =>
          let st3 := if wasRoot then { st2 with root := none } else st2
          match m.caps.links with
          | some jl =>
              if linksValidate jl then
                .ok (applyMetaCap m (node.withLinks (some jl)), st3)
              else .error .invalidLinks
          | none => .ok (applyMetaCap m node, st3)

/-- The cursor loop of `Visit`: untagged fields are skipped, malformed tags
abort, tagged fields are dispatched. -/
def visitFields : Nat → VState → Node → List Field → Except MErr (Node × VState)
  | 0, _, _, _ => .error .fuelExhausted
  | _+1, st, node, [] => .ok (node, st)
  | fuel+1, st, node, f :: rest =>
      let parts := parseTag f.tag
      if !hasTag parts then visitFields fuel st node rest
      else if !validTag parts then .error .badJSONAPIStructTag
      else
        match visitField fuel st node parts f.v with
        | .error e => .error e
        | .ok (node2, st2) => visitFields fuel st2 node2 rest

/-- `modelVisitor.visitField`: dispatch on the tag type; `links` fields are
ignored, unknown tag types fail with `ErrBadJSONAPIStructTag`. -/
def visitField : Nat → VState → Node → List String → FVal →
    Except MErr (Node × VState)
  | 0, _, _, _, _ => .error .fuelExhausted
  | fuel+1, st, node, parts, v =>
      if tagType parts == annotationPrimary then
        match visitFieldTypePrimary node parts v with
        | .ok n => .ok (n, st)
        | .error e => .error e
      else if tagType parts == annotationClientID then
        .ok (visitFieldTypeClientID node v, st)
      else if tagType parts == annotationAttribute then
        .ok (visitFieldTypeAttribute node parts v, st)
      else if tagType parts == annotationRelation
           || tagType parts == annotationPolyRelation then
        visitFieldTypeRelation fuel st node parts v
      else if tagType parts == annotationLinks then
        .ok (node, st)
      else .error .badJSONAPIStructTag

/-- `modelVisitor.visitFieldTypeRelation`.  For `polyrelation` the field
value is first overwritten by snooping the choice struct; a nil choice
pointer short-circuits (the field is omitted).  A `*time.Time` slot or
relation target is a pointer to a struct without jsonapi tags, whose visit
yields the empty node, represented by visiting the empty model. -/
def visitFieldTypeRelation : Nat → VState → Node → List String → FVal →
    Except MErr (Node × VState)
  | 0, _, _, _, _ => .error .fuelExhausted
  | fuel+1, st, node, parts, v =>
      let omitEmpty := decide (2 < parts.length) && (tagAt parts 2 == annotationOmitEmpty)
      let isSlice := match v with | .slice _ => true | _ => false
      match (if omitEmpty then
               (if isSlice then Except.ok (decide (sliceLen v < 1)) else fvalIsNil v)
             else Except.ok false) with
      | .error e => .error e
      | .ok skip =>
      if skip then .ok (node, st)
      else
        match (if tagType parts == annotationPolyRelation then
                 (if !isSlice then
                    match v with
                    | .ptr none => Except.ok none
                    | .primPtr none => Except.ok none
                    | .timePtr none => Except.ok none
                    | .ptr (some choice) =>
                        match selectChoiceTypeStructField choice.fields with
                        | some found => Except.ok (some (FVal.ptr (some found)))
                        | none => Except.ok (some v)
                    | .timePtr (some _) =>
                        Except.ok (some (FVal.ptr (some (Model.mk [] noCaps))))
                    | .primPtr (some _) => Except.error MErr.goPanic
                    | _ => Except.error MErr.unexpectedType
                  else
                    match v with
                    | .slice cs =>
                        match snoopPolyElems cs with
                        | .ok collection =>
                            Except.ok (some (FVal.slice (collection.map some)))
                        | .error e => Except.error e
                    | _ => Except.error MErr.unexpectedType)
               else Except.ok (some v)) with
        | .error e => .error e
        | .ok none => .ok (node, st)
        | .ok (some v2) =>
            let name := tagAt parts 1
            let relLinks := relCapLinks st.root name
            let relMeta := relCapMeta st.root name
            if isSlice then
              match v2 with
              | .slice ms =>
                  match visitModelNodeRelationships fuel st ms with
                  | .error e => .error e
                  | .ok (nodes, st2) =>
                      .ok (emitToMany st2 node name nodes relLinks relMeta)
              | _ => .error .unexpectedType
            else
              match v2 with
              | .ptr none => .ok (node.setRel name (.one none none none), st)
              | .primPtr none => .ok (node.setRel name (.one none none none), st)
              | .timePtr none => .ok (node.setRel name (.one none none none), st)
              | .ptr (some m) =>
                  match visit fuel st m with
                  | .error e => .error e
                  | .ok (child, st2) =>
                      .ok (emitToOne st2 node name child relLinks relMeta)
              | .timePtr (some _) =>
                  match visit fuel st (Model.mk [] noCaps) with
                  | .error e => .error e
                  | .ok (child, st2) =>
                      .ok (emitToOne st2 node name child relLinks relMeta)
              | .primPtr (some _) => .error .goPanic
              | _ => .error .goPanic

/-- `modelVisitor.visitModelNodeRelationships`: a nil element fails the
whole call with `UnexpectedNil`, otherwise every element is visited and
collected in order. -/
def visitModelNodeRelationships : Nat → VState → List (Option Model) →
    Except MErr (List Node × VState)
  | 0, _, _ => .error .fuelExhausted
  | _+1, st, [] => .ok ([], st)
  | _+1, _, none :: _ => .error .unexpectedNil
  | fuel+1, st, some m :: rest =>
      match visit fuel st m with
      | .error e => .error e
      | .ok (n, st2) =>
          match visitModelNodeRelationships fuel st2 rest with
          | .error e => .error e
          | .ok (ns, st3) => .ok (n :: ns, st3)
end

/-- Modelled from the spec (section 6, entry points; the entry code is not
among the sources): marshal-one hands the model to a fresh visitor with an
empty Included Set — side-load mode by default, embed mode for the
without-included variant — and returns the resource node together with the
Included Set. -/
def marshalOne (fuel : Nat) (sideload : Bool) (m : Model) :
    Except MErr (Node × List (String × Node)) :=
  match visit fuel ⟨[], sideload, none⟩ m with
  | .ok (n, st) => .ok (n, st.included)
  | .error e => .error e

/-! ## Observations on nodes -/

/-- The attribute rendered under `name`, `none` when omitted. -/
def attrOf (n : Node) (name : String) : Option JVal :=
  (n.attributes.getD []).lookup name

/-- The relationship rendered under `name`, `none` when omitted. -/
def relOf (n : Node) (name : String) : Option RelData :=
  (n.relationships.getD []).lookup name

/-- The node used for C10's colliding pair: type "a,b", id "c". -/
def collisionNodeA : Node := .mk "a,b" "c" "" none none none none

/-- The node used for C10's colliding pair: type "a", id "b,c" — a distinct
(type, id) pair with the same concatenated key "a,b,c". -/
def collisionNodeB : Node := .mk "a" "b,c" "" none none none none

/-- Sample models used by concrete witnesses: a resource of type "images"
with id "2", a choice struct with that resource in its first slot, and a
choice struct whose every slot is empty. -/
def sampleImage : Model := .mk [.mk "primary,images" (.prim (.str "2"))] noCaps

def sampleChoice : Model := .mk
  [.mk "" (.ptr (some sampleImage)), .mk "" (.ptr none)] noCaps

def sampleEmptyChoice : Model := .mk [.mk "" (.ptr none)] noCaps

/-- The initial visitor state of a side-load marshal call. -/
def initialState : VState := ⟨[], true, none⟩

/-- The test `selectChoiceTypeStructField` applies to one choice-struct
field: a non-nil struct pointer whose pointed-to type resolves to a jsonapi
type (the "non-empty slot"); everything else is not a populated slot. -/
def slotOf (f : Field) : Option Model :=
  match f.v with
  | .ptr (some m) => if (jsonapiTypeOfModel m).isSome then some m else none
  | _ => none

/-- Concrete models for C9: the root and the nested child both implement the
per-relationship Links/Meta capabilities, with tables that disagree about
the nested relation name "comments". -/
def c9RootLinks : LinksVal := [("related", .strVal "from-root")]

def c9ChildLinks : LinksVal := [("related", .strVal "from-child")]

def c9RootMeta : MetaVal := [("src", "root")]

def c9ChildMeta : MetaVal := [("src", "child")]

def c9Grandchild : Model := .mk [.mk "primary,comments" (.prim (.str "9"))] noCaps

def c9Child : Model := .mk
  [ .mk "primary,posts" (.prim (.str "5")),
    .mk "relation,comments" (.ptr (some c9Grandchild)) ]
  ⟨none, none, some [("comments", c9ChildLinks)], some [("comments", c9ChildMeta)]⟩

def c9Root : Model := .mk
  [ .mk "primary,blogs" (.prim (.str "1")),
    .mk "relation,post" (.ptr (some c9Child)) ]
  ⟨none, none, some [("comments", c9RootLinks)], some [("comments", c9RootMeta)]⟩

/-! ## The tri-state nullable wrapper (`nullable.go`)

`NullableAttr[T]` and `NullableRelationship[T]` are `map[bool]T`; a Go map
over `bool` is exactly its optional `true` entry and optional `false`
entry.  Go's `var empty T` zero value is `Inhabited.default`.  The
`SetInterface` helpers (mere type-asserting wrappers over `Set`) are not
modelled.  The mutating pointer receivers replace the whole map, so each is
a function of its argument alone. -/

structure NullableAttr (T : Type) where
  tVal : Option T
  fVal : Option T

/-- The nil (or zero) map: `var n NullableAttr[T]`. -/
def nilMapAttr {T : Type} : NullableAttr T := ⟨none, none⟩

/-- `IsNull`: whether the `false` key is present. -/
def NullableAttr.IsNull {T : Type} (t : NullableAttr T) : Bool :=
  t.fVal.isSome

/-- `IsSpecified`: `len(t) != 0`. -/
def NullableAttr.IsSpecified {T : Type} (t : NullableAttr T) : Bool :=
  t.tVal.isSome || t.fVal.isSome

/-- `Get`: the `true` entry, read with the map's zero-value default. -/
def NullableAttr.Get {T : Type} [Inhabited T] (t : NullableAttr T) :
    Except String T :=
  if t.IsNull then .error "value is null"
  else if !t.IsSpecified then .error "value is not specified"
  else .ok (t.tVal.getD default)

/-- `Set`: `*t = map[bool]T{true: value}`. -/
def NullableAttr.Set {T : Type} (_t : NullableAttr T) (value : T) :
    NullableAttr T :=
  ⟨some value, none⟩

/-- `SetNull`: `*t = map[bool]T{false: empty}`. -/
def NullableAttr.SetNull {T : Type} [Inhabited T] (_t : NullableAttr T) :
    NullableAttr T :=
  ⟨none, some default⟩

/-- `SetUnspecified`: `*t = map[bool]T{}`. -/
def NullableAttr.SetUnspecified {T : Type} (_t : NullableAttr T) :
    NullableAttr T :=
  ⟨none, none⟩

/-- `NewNullableAttrWithValue`. -/
def NewNullableAttrWithValue {T : Type} (t : T) : NullableAttr T :=
  nilMapAttr.Set t

/-- `NewNullNullableAttr`. -/
def NewNullNullableAttr (T : Type) [Inhabited T] : NullableAttr T :=
  nilMapAttr.SetNull

/-- The values produced by the provided constructors and the three setters
(each setter's result is independent of its receiver, so reachability under
arbitrary mutation sequences collapses to these forms; the zero map is the
declared-but-never-set field). -/
def NullableAttr.Reachable {T : Type} [Inhabited T] (n : NullableAttr T) : Prop :=
  n = nilMapAttr ∨ (∃ t0 v, n = NullableAttr.Set t0 v)
    ∨ (∃ t0 : NullableAttr T, n = t0.SetNull)
    ∨ (∃ t0 : NullableAttr T, n = t0.SetUnspecified)

structure NullableRelationship (T : Type) where
  tVal : Option T
  fVal : Option T

def nilMapRel {T : Type} : NullableRelationship T := ⟨none, none⟩

def NullableRelationship.IsNull {T : Type} (t : NullableRelationship T) : Bool :=
  t.fVal.isSome

def NullableRelationship.IsSpecified {T : Type} (t : NullableRelationship T) : Bool :=
  t.tVal.isSome || t.fVal.isSome

def NullableRelationship.Get {T : Type} [Inhabited T] (t : NullableRelationship T) :
    Except String T :=
  if t.IsNull then .error "value is null"
  else if !t.IsSpecified then .error "value is not specified"
  else .ok (t.tVal.getD default)

def NullableRelationship.Set {T : Type} (_t : NullableRelationship T) (value : T) :
    NullableRelationship T :=
  ⟨some value, none⟩

def NullableRelationship.SetNull {T : Type} [Inhabited T] (_t : NullableRelationship T) :
    NullableRelationship T :=
  ⟨none, some default⟩

def NullableRelationship.SetUnspecified {T : Type} (_t : NullableRelationship T) :
    NullableRelationship T :=
  ⟨none, none⟩

def NewNullableRelationshipWithValue {T : Type} (t : T) : NullableRelationship T :=
  nilMapRel.Set t

def NewNullNullableRelationship (T : Type) [Inhabited T] : NullableRelationship T :=
  nilMapRel.SetNull

def NullableRelationship.Reachable {T : Type} [Inhabited T]
    (n : NullableRelationship T) : Prop :=
  n = nilMapRel ∨ (∃ t0 v, n = NullableRelationship.Set t0 v)
    ∨ (∃ t0 : NullableRelationship T, n = t0.SetNull)
    ∨ (∃ t0 : NullableRelationship T, n = t0.SetUnspecified)

/-- The Unspecified state. -/
def NullableAttr.stUnspecified {T : Type} (a : NullableAttr T) : Prop :=
  a.IsSpecified = false

/-- The ExplicitNull state. -/
def NullableAttr.stNull {T : Type} (a : NullableAttr T) : Prop :=
  a.IsNull = true

/-- The Present(v) state. -/
def NullableAttr.stPresent {T : Type} (a : NullableAttr T) (v : T) : Prop :=
  a.tVal = some v ∧ a.fVal = none

/-- Exactly one of the three states holds, with the observable behaviour of
`Get`, `IsNull` and `IsSpecified` in each state. -/
def NullableTriState {T : Type} [Inhabited T] (a : NullableAttr T) : Prop :=
  (a.stUnspecified ∨ a.stNull ∨ ∃ v, a.stPresent v)
  ∧ ¬(a.stUnspecified ∧ a.stNull)
  ∧ ¬(a.stUnspecified ∧ ∃ v, a.stPresent v)
  ∧ ¬(a.stNull ∧ ∃ v, a.stPresent v)
  ∧ (∀ v, a.stPresent v →
      a.Get = .ok v ∧ a.IsNull = false ∧ a.IsSpecified = true)
  ∧ (a.stNull → a.Get = .error "value is null" ∧ a.IsNull = true)
  ∧ (a.stUnspecified →
      a.Get = .error "value is not specified" ∧ a.IsSpecified = false)

def NullableRelationship.stUnspecified {T : Type} (a : NullableRelationship T) : Prop :=
  a.IsSpecified = false

def NullableRelationship.stNull {T : Type} (a : NullableRelationship T) : Prop :=
  a.IsNull = true

def NullableRelationship.stPresent {T : Type} (a : NullableRelationship T) (v : T) : Prop :=
  a.tVal = some v ∧ a.fVal = none

/-! ## The Unmarshal Visitor, modelled from the spec

The inbound visitor (request.go) is not among the sources; everything in
this section is modelled from the spec, section 4.3.  The source walks the
target's `reflect.Type`; the embedding, which has no types, walks a
value-level *template* instead and reads from it only what the type would
carry: field tags, value kinds, nested templates, and the capability
methods.  Field values are reconstructed from the document alone, starting
from each kind's zero value.  Combinations the spec assigns no behaviour
(polymorphic and links fields, pointer-valued attributes, a populated
relationship against a nil pointer template whose pointee type the
embedding cannot recover) return dedicated errors and are outside the
round-trip scope. -/

inductive UErr where
  | badPrimaryID
  | invalidType
  | missingTemplate
  | unmodeled
  | fuelExhausted
  deriving DecidableEq, Repr

/-- Modelled from the spec: the zero value a freshly allocated target object
holds in a field of the given kind. -/
def zeroFVal : FVal → FVal
  | .prim p => .prim (zeroPrim p)
  | .primPtr _ => .primPtr none
  | .timeVal _ => .timeVal goTimeZero
  | .timePtr _ => .timePtr none
  | .ptr _ => .ptr none
  | .slice _ => .slice []
  | .linksField => .linksField

/-- Modelled from the spec: "id string parsed into the field's numeric or
string type; parse failure ... fails with BadPrimaryID". -/
def parsePrimaryID (tmpl : PrimVal) (id : String) : Except UErr PrimVal :=
  match tmpl with
  | .str _ => .ok (.str id)
  | .intv k _ =>
      match parseIntChars id.data with
      | some n => .ok (.intv k n)
      | none => .error .badPrimaryID
  | .uintv k _ =>
      match parseUintChars id.data with
      | some n => .ok (.uintv k n)
      | none => .error .badPrimaryID
  | .boolean _ => .error .badPrimaryID

/-- Modelled from the spec: coercion of a document attribute value into a
primitive destination kind (string to string, any numeric to any numeric
width, bool to bool; anything else fails with InvalidType). -/
def coercePrim (tmpl : PrimVal) (jv : JVal) : Except UErr PrimVal :=
  match tmpl, jv with
  | .str _, .raw (.prim (.str s)) => .ok (.str s)
  | .intv k _, .raw (.prim (.intv _ n)) => .ok (.intv k n)
  | .intv k _, .raw (.prim (.uintv _ n)) => .ok (.intv k (n : Int))
  | .uintv k _, .raw (.prim (.uintv _ n)) => .ok (.uintv k n)
  | .uintv k _, .raw (.prim (.intv _ n)) =>
      if n < 0 then .error .invalidType else .ok (.uintv k n.toNat)
  | .boolean _, .raw (.prim (.boolean b)) => .ok (.boolean b)
  | _, _ => .error .invalidType

/-- Modelled from the spec: a destination time field accepts a numeric
epoch value by default, or the formatted string matching the field's
modifier; parse failure fails. -/
def coerceTime (mods : AttrMods) (jv : JVal) : Except UErr GoTime :=
  if mods.iso8601 then
    match jv with
    | .fmtISO8601 s => .ok ⟨s⟩
    | _ => .error .invalidType
  else if mods.rfc3339 then
    match jv with
    | .fmtRFC3339 s => .ok ⟨s⟩
    | _ => .error .invalidType
  else
    match jv with
    | .epoch s => .ok ⟨s⟩
    | _ => .error .invalidType

/-- Modelled from the spec: an identifier reference absent from the
Included Set "still yields a reference populated with only the id". -/
def stripNode (sh : Node) : Node := .mk sh.ty sh.id "" none none none none

mutual
/-- Modelled from the spec (section 4.3): populate a fresh object of the
template's type from a resource node, resolving identifier-only
relationship references against the Included Set.  Capability methods
belong to the type and are taken from the template.  The `fuel` argument
only bounds the embedding's recursion, exactly as for the visitor. -/
def unmarshalModel : Nat → List (String × Node) → Model → Node →
    Except UErr Model
  | 0, _, _, _ => .error .fuelExhausted
  | fuel+1, inc, .mk fs caps, node =>
      match unmarshalFields fuel inc fs node with
      | .ok fs2 => .ok (.mk fs2 caps)
      | .error e => .error e

def unmarshalFields : Nat → List (String × Node) →
    List Field → Node → Except UErr (List Field)
  | 0, _, _, _ => .error .fuelExhausted
  | _+1, _, [], _ => .ok []
  | fuel+1, inc, f :: rest, node =>
      match unmarshalField fuel inc f node with
      | .error e => .error e
      | .ok f2 =>
          match unmarshalFields fuel inc rest node with
          | .error e => .error e
          | .ok fs2 => .ok (f2 :: fs2)

/-- One field: a primary (by value or behind a pointer) parses the node id
into the destination's kind; client-id copies the correlation id; an
attribute is coerced from the attribute map — numerics and strings by kind,
times by the field's encoding, pointer destinations allocating from the
value or set nil from an explicit null, nested object and array payloads
decoded recursively (the embedding's attribute values carry the nested
value directly, so the recursive decode is the identity on the payload) —
or left at the kind's zero value when its key is absent; a relationship
follows the null / identifier-only / nested-attributes rules.  The
identifier-resolution block is repeated inline (rather than shared) to keep
the recursion visibly structural. -/
def unmarshalField : Nat → List (String × Node) → Field → Node →
    Except UErr Field
  | 0, _, _, _ => .error .fuelExhausted
  | fuel+1, inc, .mk tag v, node =>
      let parts := parseTag tag
      if !hasTag parts then .ok (.mk tag (zeroFVal v))
      else if tagType parts == annotationPrimary then
        match v with
        | .prim p =>
            match parsePrimaryID p node.id with
            | .ok p2 => .ok (.mk tag (.prim p2))
            | .error e => .error e
        | .primPtr (some z) =>
            match parsePrimaryID z node.id with
            | .ok p2 => .ok (.mk tag (.primPtr (some p2)))
            | .error e => .error e
        | .primPtr none => .error .missingTemplate
        | _ => .error .unmodeled
      else if tagType parts == annotationClientID then
        match v with
        | .prim (.str _) => .ok (.mk tag (.prim (.str node.clientID)))
        | _ => .error .unmodeled
      else if tagType parts == annotationAttribute then
        match (node.attributes.getD []).lookup (tagAt parts 1) with
        | none => .ok (.mk tag (zeroFVal v))
        | some jv =>
            match v with
            | .prim p =>
                match coercePrim p jv with
                | .ok p2 => .ok (.mk tag (.prim p2))
                | .error e => .error e
            | .timeVal _ =>
                match coerceTime (parseAttrMods parts) jv with
                | .ok t => .ok (.mk tag (.timeVal t))
                | .error e => .error e
            | .primPtr tp =>
                (match jv with
                 | .raw (.primPtr none) => .ok (.mk tag (.primPtr none))
                 | .raw (.primPtr (some q)) =>
                     (match tp with
                      | some z =>
                          (match coercePrim z (.raw (.prim q)) with
                           | .ok p2 => .ok (.mk tag (.primPtr (some p2)))
                           | .error e => .error e)
                      | none => .error .missingTemplate)
                 | .raw (.prim q) =>
                     (match tp with
                      | some z =>
                          (match coercePrim z (.raw (.prim q)) with
                           | .ok p2 => .ok (.mk tag (.primPtr (some p2)))
                           | .error e => .error e)
                      | none => .error .missingTemplate)
                 | .null => .ok (.mk tag (.primPtr none))
                 | _ => .error .invalidType)
            | .timePtr _ =>
                (match jv with
                 | .null => .ok (.mk tag (.timePtr none))
                 | _ =>
                     match coerceTime (parseAttrMods parts) jv with
                     | .ok t => .ok (.mk tag (.timePtr (some t)))
                     | .error e => .error e)
            | .ptr _ =>
                (match jv with
                 | .raw (.ptr m2) => .ok (.mk tag (.ptr m2))
                 | .null => .ok (.mk tag (.ptr none))
                 | _ => .error .invalidType)
            | .slice _ =>
                (match jv with
                 | .raw (.slice ms2) => .ok (.mk tag (.slice ms2))
                 | _ => .error .invalidType)
            | .linksField => .error .unmodeled
      else if tagType parts == annotationRelation then
        match (node.relationships.getD []).lookup (tagAt parts 1) with
        | none => .ok (.mk tag (zeroFVal v))
        | some (.one d _ _) =>
            match v with
            | .ptr tm =>
                match d with
                | none => .ok (.mk tag (.ptr none))
                | some sh =>
                    match tm with
                    | none => .error .missingTemplate
                    | some ct =>
                        match (if sh.attributes.isSome then
                                 unmarshalModel fuel inc ct sh
                               else match inc.lookup (nodeKey sh) with
                                    | some full => unmarshalModel fuel inc ct full
                                    | none =>
                                        unmarshalModel fuel inc ct (stripNode sh)) with
                        | .ok c2 => .ok (.mk tag (.ptr (some c2)))
                        | .error e => .error e
            | _ => .error .unmodeled
        | some (.many ds _ _) =>
            match v with
            | .slice tms =>
                (match tms with
                 | some ct :: _ =>
                     (match unmarshalMany fuel inc ct ds with
                      | .ok cs => .ok (.mk tag (.slice cs))
                      | .error e => .error e)
                 | [] =>
                     (match ds with
                      | [] => .ok (.mk tag (.slice []))
                      | _ :: _ => .error .missingTemplate)
                 | none :: _ => .error .missingTemplate)
            | _ => .error .unmodeled
      else .error .unmodeled

/-- Element-wise decoding of a to-many relationship: every document
element is decoded against the slice's static element type (carried as one
element template), so any document list length decodes.  A document list
for a relation whose value-level template holds no element exemplar is
outside the embedding (the source reads the element type from reflection;
a value-level template of an empty slice cannot carry it). -/
def unmarshalMany : Nat → List (String × Node) →
    Model → List Node → Except UErr (List (Option Model))
  | 0, _, _, _ => .error .fuelExhausted
  | _+1, _, _, [] => .ok []
  | fuel+1, inc, ct, sh :: ds =>
      match (if sh.attributes.isSome then unmarshalModel fuel inc ct sh
             else match inc.lookup (nodeKey sh) with
                  | some full => unmarshalModel fuel inc ct full
                  | none => unmarshalModel fuel inc ct (stripNode sh)) with
      | .error e => .error e
      | .ok c2 =>
          match unmarshalMany fuel inc ct ds with
          | .error e => .error e
          | .ok cs => .ok (some c2 :: cs)
end

/-! ## The template of a model: its type

`templateOf` zeroes every field value while keeping tags, value kinds,
nested templates and capabilities — exactly the information the source
reads from the target's `reflect.Type`. -/

mutual
def templateOf : Model → Model
  | .mk fs caps => .mk (templateFields fs) caps

def templateFields : List Field → List Field
  | [] => []
  | f :: rest => templateField f :: templateFields rest

def templateField : Field → Field
  | .mk tag v => .mk tag (templateFVal v)

def templateFVal : FVal → FVal
  | .prim p => .prim (zeroPrim p)
  | .primPtr p => .primPtr (p.map zeroPrim)
  | .timeVal _ => .timeVal goTimeZero
  | .timePtr _ => .timePtr none
  | .ptr none => .ptr none
  | .ptr (some c) => .ptr (some (templateOf c))
  | .slice ms => .slice (templateElems ms)
  | .linksField => .linksField

def templateElems : List (Option Model) → List (Option Model)
  | [] => []
  | none :: r => none :: templateElems r
  | some c :: r => some (templateOf c) :: templateElems r
end

/-! ## Structural equality of models

A Boolean structural equality on the nested model type (the derive handler
does not cover mutual inductives), used to state that the elements of a
to-many relation share one static type: their templates coincide. -/

/-! Structural sizes, for fuel bounds over the nested model tree. -/
mutual
def sizeM : Model → Nat
  | .mk fs _ => sizeFs fs + 1

def sizeFs : List Field → Nat
  | [] => 0
  | f :: rest => sizeF f + sizeFs rest + 1

def sizeF : Field → Nat
  | .mk _ v => sizeV v + 1

def sizeV : FVal → Nat
  | .ptr (some c) => sizeM c + 1
  | .slice ms => sizeElems ms + 1
  | _ => 1

def sizeElems : List (Option Model) → Nat
  | [] => 0
  | none :: rest => sizeElems rest + 1
  | some c :: rest => sizeM c + sizeElems rest + 1
end

mutual
def beqM : Nat → Model → Model → Bool
  | 0, _, _ => false
  | fuel+1, .mk fs1 c1, .mk fs2 c2 => beqFs fuel fs1 fs2 && (c1 == c2)

def beqFs : Nat → List Field → List Field → Bool
  | 0, _, _ => false
  | _+1, [], [] => true
  | fuel+1, f :: r, g :: t => beqF fuel f g && beqFs fuel r t
  | _+1, _, _ => false

def beqF : Nat → Field → Field → Bool
  | 0, _, _ => false
  | fuel+1, .mk t1 v1, .mk t2 v2 => (t1 == t2) && beqV fuel v1 v2

def beqV : Nat → FVal → FVal → Bool
  | 0, _, _ => false
  | _+1, .prim p, .prim q => p == q
  | _+1, .primPtr p, .primPtr q => p == q
  | _+1, .timeVal a, .timeVal b => a == b
  | _+1, .timePtr a, .timePtr b => a == b
  | _+1, .ptr none, .ptr none => true
  | fuel+1, .ptr (some a), .ptr (some b) => beqM fuel a b
  | fuel+1, .slice as1, .slice bs => beqElems fuel as1 bs
  | _+1, .linksField, .linksField => true
  | _+1, _, _ => false

def beqElems : Nat → List (Option Model) → List (Option Model) → Bool
  | 0, _, _ => false
  | _+1, [], [] => true
  | fuel+1, none :: r, none :: t => beqElems fuel r t
  | fuel+1, some a :: r, some b :: t => beqM fuel a b && beqElems fuel r t
  | _+1, _, _ => false
end

/-- Structural equality of two models: `beqM` run with enough fuel to
traverse the first argument completely. -/
def modelEq (a b : Model) : Bool := beqM (sizeM a + 1) a b

/-- Every present element's template equals `t`. -/
def tmplsEq (t : Model) : List (Option Model) → Bool
  | [] => true
  | none :: rest => tmplsEq t rest
  | some d :: rest => modelEq (templateOf d) t && tmplsEq t rest

/-- The elements of a slice share one static type: all their templates
equal the first element's (Go slices are homogeneous; the value-level
embedding states it explicitly). -/
def homogElems : List (Option Model) → Bool
  | [] => true
  | none :: rest => homogElems rest
  | some c :: rest => tmplsEq (templateOf c) rest

/-! ## Round-trippable models

The decidable class of models for which the amended round-trip holds: every
field tagged and well-formed; exactly one primary field of string or
integer kind, by value or behind a non-nil pointer, rendering a non-empty
id; at most one client-id field, string-valued; attributes of any rendered
kind with distinct names — the only exclusions are a `links`-kind value and
a pointed-to zero time under omit-empty, which the marshaller drops; plain
(non-poly) relations of pointer or slice kind with distinct names, no nil
slice elements and one static slice element type; valid capability links;
no polymorphic, links-tagged or untagged fields (all dropped or rewritten
under marshal). -/

def distinctStrs : List String → Bool
  | [] => true
  | s :: rest => (!rest.contains s) && distinctStrs rest

def isPrimaryField (f : Field) : Bool :=
  tagType (parseTag f.tag) == annotationPrimary

def isClientIDField (f : Field) : Bool :=
  tagType (parseTag f.tag) == annotationClientID

def attrNames (fs : List Field) : List String :=
  fs.filterMap fun f =>
    let parts := parseTag f.tag
    if tagType parts == annotationAttribute then some (tagAt parts 1) else none

def relNames (fs : List Field) : List String :=
  fs.filterMap fun f =>
    let parts := parseTag f.tag
    if tagType parts == annotationRelation then some (tagAt parts 1) else none

def rtCaps (caps : Caps) : Bool :=
  match caps.links with
  | some jl => linksValidate jl
  | none => true

def localFieldsOK (fs : List Field) : Bool :=
  (fs.countP (fun f => isPrimaryField f = true) == 1)
  && decide (fs.countP (fun f => isClientIDField f = true) ≤ 1)
  && distinctStrs (attrNames fs)
  && distinctStrs (relNames fs)

def rtPrimaryVal : FVal → Bool
  | .prim (.str s) => s != ""
  | .prim (.intv _ _) => true
  | .prim (.uintv _ _) => true
  | .primPtr (some (.str s)) => s != ""
  | .primPtr (some (.intv _ _)) => true
  | .primPtr (some (.uintv _ _)) => true
  | _ => false

/-- The attribute kinds that round-trip: everything the handler renders
losslessly — the only exclusions are a `links`-kind value and a pointed-to
zero time under omit-empty (which the handler drops). -/
def rtAttrVal (parts : List String) : FVal → Bool
  | .timePtr (some t) => !(t.isZero && (parseAttrMods parts).omitEmpty)
  | .linksField => false
  | _ => true

mutual
def rtModel : Model → Bool
  | .mk fs caps => rtCaps caps && localFieldsOK fs && rtFields fs

def rtFields : List Field → Bool
  | [] => true
  | f :: rest => rtField f && rtFields rest

def rtField : Field → Bool
  | .mk tag v =>
      let parts := parseTag tag
      hasTag parts && validTag parts &&
      (if tagType parts == annotationPrimary then rtPrimaryVal v
       else if tagType parts == annotationClientID then
         (match v with | .prim (.str _) => true | _ => false)
       else if tagType parts == annotationAttribute then rtAttrVal parts v
       else if tagType parts == annotationRelation then rtRelVal v
       else false)

def rtRelVal : FVal → Bool
  | .ptr none => true
  | .ptr (some c) => rtModel c
  | .slice ms => rtElems ms && homogElems ms
  | _ => false

def rtElems : List (Option Model) → Bool
  | [] => true
  | none :: _ => false
  | some c :: rest => rtModel c && rtElems rest
end

/-- The id string the primary handler renders for a round-trippable
primary value. -/
def primIdStr : FVal → String
  | .prim (.str s) => s
  | .prim (.intv _ n) => formatInt n
  | .prim (.uintv _ n) => formatUint n
  | .primPtr (some (.str s)) => s
  | .primPtr (some (.intv _ n)) => formatInt n
  | .primPtr (some (.uintv _ n)) => formatUint n
  | _ => ""

/-- The (type name, id string) of the model's primary field. -/
def primaryOfFields : List Field → Option (String × String)
  | [] => none
  | f :: rest =>
      let parts := parseTag f.tag
      if tagType parts == annotationPrimary then
        (if rtPrimaryVal f.v then some (tagAt parts 1, primIdStr f.v)
         else none)
      else primaryOfFields rest

/-- The Included Set key the model's resource will carry. -/
def keyOf (m : Model) : String :=
  match primaryOfFields m.fields with
  | some (ty, id) => ty ++ "," ++ id
  | none => ","

/-! The relation targets of a model, recursively, in the order the visitor
registers them into the Included Set: for a to-one target, the target's own
descendants then the target; for a to-many list, all elements' descendants
then the elements in order. -/
mutual
def descM : Model → List Model
  | .mk fs _ => descFields fs

def descFields : List Field → List Model
  | [] => []
  | f :: rest => descField f ++ descFields rest

def descField : Field → List Model
  | .mk tag v =>
      if tagType (parseTag tag) == annotationRelation then descVal v else []

def descVal : FVal → List Model
  | .ptr (some c) => descM c ++ [c]
  | .slice ms => descElems ms ++ topElems ms
  | _ => []

def descElems : List (Option Model) → List Model
  | [] => []
  | none :: rest => descElems rest
  | some c :: rest => descM c ++ descElems rest

def topElems : List (Option Model) → List Model
  | [] => []
  | none :: rest => topElems rest
  | some c :: rest => c :: topElems rest
end

/-! ## Closed forms of a successful side-load visit

`specNode` and `specIncNodes` give, by structural recursion, the node a
successful `visit` returns and the nodes it hands to `appendIncluded`, in
order.  They are characterization devices proven against the visitor (they
are not a second authority): the characterization lemma shows a successful
`visit` of a round-trippable model returns exactly these. -/

def omitEmptyOf (parts : List String) : Bool :=
  decide (2 < parts.length) && (tagAt parts 2 == annotationOmitEmpty)

mutual
def specNode (root : Option Model) (sideload : Bool) : Model → Node
  | .mk fs caps =>
      let node := specFields root sideload emptyNode fs
      let node := match caps.links with
                  | some jl => node.withLinks (some jl)
                  | none => node
      match caps.meta with
      | some mv => node.withMeta (some mv)
      | none => node

def specFields (root : Option Model) (sideload : Bool) (node : Node) :
    List Field → Node
  | [] => node
  | f :: rest => specFields root sideload (specField root sideload node f) rest

def specField (root : Option Model) (sideload : Bool) (node : Node) : Field → Node
  | .mk tag v =>
      let parts := parseTag tag
      if !hasTag parts then node
      else if tagType parts == annotationPrimary then
        (match visitFieldTypePrimary node parts v with
         | .ok n => n
         | .error _ => node)
      else if tagType parts == annotationClientID then
        visitFieldTypeClientID node v
      else if tagType parts == annotationAttribute then
        visitFieldTypeAttribute node parts v
      else if tagType parts == annotationRelation then
        specRelField root sideload node parts v
      else node

def specRelField (root : Option Model) (sideload : Bool) (node : Node)
    (parts : List String) : FVal → Node
  | .ptr none =>
      if omitEmptyOf parts then node
      else node.setRel (tagAt parts 1) (.one none none none)
  | .ptr (some c) =>
      let child := specNode root sideload c
      if sideload then
        node.setRel (tagAt parts 1) (.one (some (toShallowNode child))
          (relCapLinks root (tagAt parts 1)) (relCapMeta root (tagAt parts 1)))
      else
        node.setRel (tagAt parts 1) (.one (some child)
          (relCapLinks root (tagAt parts 1)) (relCapMeta root (tagAt parts 1)))
  | .slice ms =>
      if omitEmptyOf parts && decide (ms.length < 1) then node
      else
        let nodes := specElems root sideload ms
        if sideload then
          node.setRel (tagAt parts 1) (.many (nodes.map toShallowNode)
            (relCapLinks root (tagAt parts 1)) (relCapMeta root (tagAt parts 1)))
        else
          node.setRel (tagAt parts 1) (.many nodes
            (relCapLinks root (tagAt parts 1)) (relCapMeta root (tagAt parts 1)))
  | _ => node

def specElems (root : Option Model) (sideload : Bool) :
    List (Option Model) → List Node
  | [] => []
  | none :: rest => specElems root sideload rest
  | some c :: rest => specNode root sideload c :: specElems root sideload rest
end

/-! The nodes handed to `appendIncluded` during a side-load visit, in
order (duplicates included; `appendIncluded` performs the dedup). -/
mutual
def specIncNodes (root : Option Model) : Model → List Node
  | .mk fs _ => specIncFields root fs

def specIncFields (root : Option Model) : List Field → List Node
  | [] => []
  | f :: rest => specIncField root f ++ specIncFields root rest

def specIncField (root : Option Model) : Field → List Node
  | .mk tag v =>
      if tagType (parseTag tag) == annotationRelation then specIncVal root v
      else []

def specIncVal (root : Option Model) : FVal → List Node
  | .ptr (some c) => specIncNodes root c ++ [specNode root true c]
  | .slice ms => specIncElems root ms ++ specIncTops root ms
  | _ => []

def specIncElems (root : Option Model) : List (Option Model) → List Node
  | [] => []
  | none :: rest => specIncElems root rest
  | some c :: rest => specIncNodes root c ++ specIncElems root rest

def specIncTops (root : Option Model) : List (Option Model) → List Node
  | [] => []
  | none :: rest => specIncTops root rest
  | some c :: rest => specNode root true c :: specIncTops root rest
end

/-- The root model a visit effectively runs under: the state's recorded
root, or the visited model itself when the call is the top one. -/
def effRoot (st : VState) (m : Model) : Option Model :=
  match st.root with
  | some r => some r
  | none => some m

/-- The included list after a visit: in side-load mode the visited nodes
folded through `appendIncluded`, in embed mode unchanged. -/
def incAfter (st : VState) (root : Option Model) (m : Model) :
    List (String × Node) :=
  if st.sideload then (specIncNodes root m).foldl appendIncluded st.included
  else st.included

/-! ## Reading the wire node back

Characterization devices for the round-trip: per-field wire expectations
(`readOK1`), the stored attribute and relationship entries of a successful
side-load visit (`specAttrVal`, `specRelOpt`), structural sizes for bounded
induction, and the resolution environment (`resolves`). -/

/-- Attribute-map lookup on a node (empty when the map was never made). -/
def aLook (n : Node) (a : String) : Option JVal :=
  (n.attributes.getD []).lookup a

/-- Relationship-map lookup on a node. -/
def rLook (n : Node) (a : String) : Option RelData :=
  (n.relationships.getD []).lookup a

/-- The attribute value `visitFieldTypeAttribute` stores for a primitive or
by-value-time field (`none` when the attribute is omitted). -/
def specAttrVal (parts : List String) (v : FVal) : Option JVal :=
  match v with
  | .timeVal t =>
      if t.isZero then none
      else some (timeJVal (parseAttrMods parts) t)
  | .timePtr none =>
      if (parseAttrMods parts).omitEmpty then none else some .null
  | .timePtr (some t) =>
      if t.isZero && (parseAttrMods parts).omitEmpty then none
      else some (timeJVal (parseAttrMods parts) t)
  | other =>
      if (parseAttrMods parts).omitEmpty && isZeroFVal other then none
      else some (.raw other)

/-- The relationship entry the side-load visitor stores for a plain
relation field (`none` when the relationship is omitted). -/
def specRelOpt (root : Option Model) (parts : List String) : FVal → Option RelData
  | .ptr none =>
      if omitEmptyOf parts then none
      else some (.one none none none)
  | .ptr (some c) =>
      some (.one (some (toShallowNode (specNode root true c)))
        (relCapLinks root (tagAt parts 1)) (relCapMeta root (tagAt parts 1)))
  | .slice ms =>
      if omitEmptyOf parts && decide (ms.length < 1) then none
      else some (.many ((specElems root true ms).map toShallowNode)
        (relCapLinks root (tagAt parts 1)) (relCapMeta root (tagAt parts 1)))
  | _ => none

/-- What a round-trippable field requires of the finished wire node for the
unmarshaller to restore it. -/
def readOK1 (root : Option Model) (node : Node) (f : Field) : Prop :=
  let parts := parseTag f.tag
  if tagType parts == annotationPrimary then
    rtPrimaryVal f.v = true → node.id = primIdStr f.v
  else if tagType parts == annotationClientID then
    match f.v with
    | .prim (.str s) => node.clientID = s
    | _ => True
  else if tagType parts == annotationAttribute then
    aLook node (tagAt parts 1) = specAttrVal parts f.v
  else if tagType parts == annotationRelation then
    rLook node (tagAt parts 1) = specRelOpt root parts f.v
  else True

def readsOK (root : Option Model) (node : Node) : List Field → Prop
  | [] => True
  | f :: rest => readOK1 root node f ∧ readsOK root node rest

/-- Every model in `L` resolves in the Included Set `inc` to its own full
node. -/
def resolves (inc : List (String × Node)) (root : Option Model)
    (L : List Model) : Prop :=
  ∀ c ∈ L, inc.lookup (keyOf c) = some (specNode root true c)

/-! ## Concrete models for the round-trip theorems -/

/-- A nested-attribute payload (no primary key needed: attribute payloads
are carried verbatim, not visited). -/
def wEmployee : Model := .mk
  [ .mk "attr,name" (.prim (.str "E")),
    .mk "attr,age" (.prim (.intv .i64 41)) ] noCaps

/-- Two same-typed comments with integer primary keys. -/
def wChild : Model := .mk
  [ .mk "primary,comments" (.prim (.intv .i64 9)),
    .mk "attr,body" (.prim (.str "hi")) ] noCaps

def wChild2 : Model := .mk
  [ .mk "primary,comments" (.prim (.intv .i64 10)),
    .mk "attr,body" (.prim (.str "yo")) ] noCaps

/-- A three-level object exercising the widened round-trip class: integer
primary key, client id, plain and omitted-zero attributes, pointer
attributes (set and nil), by-value and pointer times, a nested object
attribute, an array attribute, a two-element to-many relation and an empty
to-one relation. -/
def wBlog : Model := .mk
  [ .mk "primary,blogs" (.prim (.intv .i64 5)),
    .mk "client-id" (.prim (.str "cid")),
    .mk "attr,title" (.prim (.str "T")),
    .mk "attr,views,omitempty" (.prim (.intv .i64 0)),
    .mk "attr,rating" (.primPtr (some (.uintv .u8 4))),
    .mk "attr,note" (.primPtr none),
    .mk "attr,created" (.timeVal ⟨100⟩),
    .mk "attr,updated" (.timePtr (some ⟨200⟩)),
    .mk "attr,removed,omitempty" (.timePtr none),
    .mk "attr,boss" (.ptr (some wEmployee)),
    .mk "attr,staff" (.slice [some wEmployee]),
    .mk "relation,comments" (.slice [some wChild, some wChild2]),
    .mk "relation,latest" (.ptr none) ] noCaps

/-- Two distinct children that carry the same resource type and id — and so
collide in the Included Set — under a root that references both. -/
def dA : Model := .mk
  [ .mk "primary,things" (.prim (.str "7")),
    .mk "attr,val" (.prim (.str "A")) ] noCaps

def dB : Model := .mk
  [ .mk "primary,things" (.prim (.str "7")),
    .mk "attr,val" (.prim (.str "B")) ] noCaps

def dRoot : Model := .mk
  [ .mk "primary,roots" (.prim (.str "1")),
    .mk "relation,x" (.ptr (some dA)),
    .mk "relation,y" (.ptr (some dB)) ] noCaps

/-- Observation: the value attribute of the model behind the third field's
to-one relationship. -/
def obsY (m : Model) : Option String :=
  match m.fields with
  | [_, _, .mk _ (.ptr (some c))] =>
      match c.fields with
      | [_, .mk _ (.prim (.str s))] => some s
      | _ => none
  | _ => none

/-- The node a successful marshal returns (a placeholder on failure). -/
def marshalNodeOf (fuel : Nat) (m : Model) : Node :=
  match marshalOne fuel true m with
  | .ok (n, _) => n
  | .error _ => emptyNode

/-- The Included Set a successful marshal returns. -/
def marshalIncOf (fuel : Nat) (m : Model) : List (String × Node) :=
  match marshalOne fuel true m with
  | .ok (_, inc) => inc
  | .error _ => []

/-- The model a successful unmarshal of the marshal output returns. -/
def unmarshalResOf (fuel : Nat) (m : Model) : Model :=
  match unmarshalModel fuel (marshalIncOf fuel m) (templateOf m)
      (marshalNodeOf fuel m) with
  | .ok m2 => m2
  | .error _ => m

/-- Marshal then unmarshal: the composition the round-trip claim is about
(`none` when either direction fails). -/
def rtAfter (fuel : Nat) (m : Model) : Option Model :=
  match marshalOne fuel true m with
  | .ok (n, inc) =>
      match unmarshalModel fuel inc (templateOf m) n with
      | .ok m2 => some m2
      | .error _ => none
  | .error _ => none

def NullableRelTriState {T : Type} [Inhabited T] (a : NullableRelationship T) : Prop :=
  (a.stUnspecified ∨ a.stNull ∨ ∃ v, a.stPresent v)
  ∧ ¬(a.stUnspecified ∧ a.stNull)
  ∧ ¬(a.stUnspecified ∧ ∃ v, a.stPresent v)
  ∧ ¬(a.stNull ∧ ∃ v, a.stPresent v)
  ∧ (∀ v, a.stPresent v →
      a.Get = .ok v ∧ a.IsNull = false ∧ a.IsSpecified = true)
  ∧ (a.stNull → a.Get = .error "value is null" ∧ a.IsNull = true)
  ∧ (a.stUnspecified →
      a.Get = .error "value is not specified" ∧ a.IsSpecified = false)

end Jsonapi

namespace Jsonapi

/-! ## Helper lemmas about association lists and the Included Set -/

theorem lookup_none_not_mem {α : Type} (l : List (String × α)) (k : String)
    (h : l.lookup k = none) : k ∉ l.map Prod.fst := by
  induction l with
  | nil => simp
  | cons p rest ih =>
      match p with
      | (k', v) =>
          cases hbeq : k == k' with
          | true => simp [List.lookup, hbeq] at h
          | false =>
              simp only [List.lookup, hbeq] at h
              simpa [beq_eq_false_iff_ne.mp hbeq] using ih h

theorem lookup_append_self {α : Type} (l : List (String × α)) (k : String) (x : α) :
    ((l ++ [(k, x)]).lookup k).isSome = true := by
  induction l with
  | nil => simp [List.lookup]
  | cons p rest ih =>
      match p with
      | (k', v) =>
          cases hbeq : k == k' with
          | true => simp [List.lookup, hbeq]
          | false => simpa [List.lookup, hbeq] using ih

/-- First-wins: appending a node whose key is already present changes
nothing. -/
theorem appendIncluded_hit (inc : List (String × Node)) (n : Node)
    (h : (inc.lookup (nodeKey n)).isSome) : appendIncluded inc n = inc := by
  simp [appendIncluded, h]

/-- A fresh key is appended at the end. -/
theorem appendIncluded_fresh (inc : List (String × Node)) (n : Node)
    (h : inc.lookup (nodeKey n) = none) :
    appendIncluded inc n = inc ++ [(nodeKey n, n)] := by
  simp [appendIncluded, h]

/-- Inserting two nodes with the same key keeps only the first. -/
theorem appendIncluded_same_key (inc : List (String × Node)) (n₁ n₂ : Node)
    (hk : nodeKey n₁ = nodeKey n₂) :
    appendIncluded (appendIncluded inc n₁) n₂ = appendIncluded inc n₁ := by
  cases h : inc.lookup (nodeKey n₁) with
  | some x =>
      rw [appendIncluded_hit inc n₁ (by simp [h])]
      exact appendIncluded_hit inc n₂ (by rw [← hk]; simp [h])
  | none =>
      rw [appendIncluded_fresh inc n₁ h]
      exact appendIncluded_hit _ n₂ (by rw [← hk]; exact lookup_append_self inc (nodeKey n₁) n₁)

/-- C7: Within a single side-load marshal call, the Included Set stores each
referenced resource at most once, keyed by its (type, id) identity: the
first insertion for a key wins and later insertions for the same key are
silently dropped, so side-loading the same related resource from two
different relationship paths produces exactly one entry in included. -/
theorem included_dedup_first_wins (inc : List (String × Node)) (n₁ n₂ : Node)
    (hk : nodeKey n₁ = nodeKey n₂) :
    (∀ n : Node, (inc.lookup (nodeKey n)).isSome → appendIncluded inc n = inc)
    ∧ (inc.lookup (nodeKey n₁) = none →
        appendIncluded inc n₁ = inc ++ [(nodeKey n₁, n₁)])
    ∧ appendIncluded (appendIncluded inc n₁) n₂ = appendIncluded inc n₁
    ∧ ((inc.map Prod.fst).Nodup →
        ((appendIncluded inc n₁).map Prod.fst).Nodup) := by
  refine ⟨appendIncluded_hit inc, appendIncluded_fresh inc n₁,
    appendIncluded_same_key inc n₁ n₂ hk, ?_⟩
  intro hnd
  cases h : inc.lookup (nodeKey n₁) with
  | some x =>
      rw [appendIncluded_hit inc n₁ (by simp [h])]
      exact hnd
  | none =>
      rw [appendIncluded_fresh inc n₁ h]
      have hmem := lookup_none_not_mem inc (nodeKey n₁) h
      simp [List.nodup_append, hnd, hmem]

/-- Witness for C7: the empty Included Set and two distinct nodes sharing
the key "posts,1"; the second insertion is dropped. -/
theorem included_dedup_first_wins_witness :
    nodeKey (Node.mk "posts" "1" "" none none none none)
      = nodeKey (Node.mk "posts" "1" "c" none none none none)
    ∧ ((∀ n : Node,
          (([] : List (String × Node)).lookup (nodeKey n)).isSome →
          appendIncluded [] n = [])
       ∧ (([] : List (String × Node)).lookup
            (nodeKey (Node.mk "posts" "1" "" none none none none)) = none →
          appendIncluded [] (Node.mk "posts" "1" "" none none none none)
            = [] ++ [(nodeKey (Node.mk "posts" "1" "" none none none none),
                      Node.mk "posts" "1" "" none none none none)])
       ∧ appendIncluded
           (appendIncluded [] (Node.mk "posts" "1" "" none none none none))
           (Node.mk "posts" "1" "c" none none none none)
         = appendIncluded [] (Node.mk "posts" "1" "" none none none none)
       ∧ ((([] : List (String × Node)).map Prod.fst).Nodup →
           ((appendIncluded [] (Node.mk "posts" "1" "" none none none none)).map
             Prod.fst).Nodup)) :=
  ⟨rfl, included_dedup_first_wins [] _ _ rfl⟩



/-- C10: The Included Set's dedup key is the string concatenation of the
resource type, a comma, and the id; consequently, for any two resources
whose (type, id) pairs are distinct but whose concatenated keys coincide,
the resource inserted second is treated as a duplicate and silently dropped
from included. -/
theorem included_key_concatenation (inc : List (String × Node)) (n₁ n₂ : Node)
    (hne : n₁.ty ≠ n₂.ty ∨ n₁.id ≠ n₂.id)
    (hk : n₁.ty ++ "," ++ n₁.id = n₂.ty ++ "," ++ n₂.id) :
    nodeKey n₁ = nodeKey n₂
    ∧ appendIncluded (appendIncluded inc n₁) n₂ = appendIncluded inc n₁ :=
  ⟨hk, appendIncluded_same_key inc n₁ n₂ hk⟩

/-- Witness for C10: type "a,b" with id "c" against type "a" with id "b,c"
both key to "a,b,c", and the second is dropped. -/
theorem included_key_concatenation_witness :
    (collisionNodeA.ty ≠ collisionNodeB.ty ∨ collisionNodeA.id ≠ collisionNodeB.id)
    ∧ collisionNodeA.ty ++ "," ++ collisionNodeA.id
        = collisionNodeB.ty ++ "," ++ collisionNodeB.id
    ∧ (nodeKey collisionNodeA = nodeKey collisionNodeB
       ∧ appendIncluded (appendIncluded [] collisionNodeA) collisionNodeB
           = appendIncluded [] collisionNodeA) :=
  ⟨Or.inl (by decide), rfl,
   included_key_concatenation [] collisionNodeA collisionNodeB
     (Or.inl (by decide)) rfl⟩

/-- C4 counterexample: a primary key holding the zero int marshals to a node
whose id is the non-empty string "0", which is present on the wire — the
claim's "id is omitted whenever the primary-key field holds a zero-valued
integer" is false.  (The empty-string half of the claim does hold, see the
amended theorem.) -/
theorem primary_zero_int_id_counterexample :
    (match marshalOne 4 true
        (Model.mk [.mk "primary,blogs" (.prim (.intv .i 0))] noCaps) with
     | .ok (n, _) => some (n.id, n.wireHasID)
     | .error _ => none) = some ("0", true) := rfl

/-- C4 amended: the id is omitted from the wire form exactly when the
rendered id string is empty, which happens for an empty-string primary key;
a zero-valued integer primary key of any signed or unsigned width renders
as the non-empty string "0" and the id is present; the type is always
present, set from the tag's type name. -/
theorem primary_id_wire_form (node : Node) (parts : List String) (s : String)
    (k : SKind) (ku : UKind) :
    (visitFieldTypePrimary node parts (.prim (.str s))
        = .ok ((node.withID s).withTy (tagAt parts 1))
     ∧ ((node.withID s).withTy (tagAt parts 1)).wireHasID = (s != "")
     ∧ ((node.withID s).withTy (tagAt parts 1)).ty = tagAt parts 1
     ∧ ((node.withID s).withTy (tagAt parts 1)).wireHasType = true)
    ∧ (visitFieldTypePrimary node parts (.prim (.intv k 0))
        = .ok ((node.withID "0").withTy (tagAt parts 1))
     ∧ ((node.withID "0").withTy (tagAt parts 1)).wireHasID = true)
    ∧ (visitFieldTypePrimary node parts (.prim (.uintv ku 0))
        = .ok ((node.withID "0").withTy (tagAt parts 1))
     ∧ ((node.withID "0").withTy (tagAt parts 1)).wireHasID = true) := by
  obtain ⟨t, i, c, a, r, l, m⟩ := node
  exact ⟨⟨rfl, rfl, rfl, rfl⟩, ⟨rfl, rfl⟩, ⟨rfl, rfl⟩⟩

/-- C3 counterexample: a non-nil pointer to the zero time in an attribute
field without omit-if-empty is rendered (as the epoch seconds of the zero
instant), not omitted — the claim's "a zero-valued date/time is always
omitted regardless of the field's modifiers, for both by-value and
pointed-to times" is false for pointed-to times. -/
theorem attr_zero_time_ptr_counterexample :
    (match marshalOne 4 true (Model.mk
        [ .mk "primary,t" (.prim (.str "1")),
          .mk "attr,created" (.timePtr (some goTimeZero)) ] noCaps) with
     | .ok (n, _) => attrOf n "created"
     | .error _ => none) = some (.epoch goTimeZeroUnix) := rfl

/-- C3 amended: a zero-valued by-value time is always omitted regardless of
modifiers; a nil reference-to-time renders as an explicit null unless
omit-if-empty is set, in which case it is omitted; a non-nil reference to a
zero time is omitted only when omit-if-empty is set, and otherwise rendered
under the field's time encoding like any other instant. -/
theorem attr_time_rendering (node : Node) (parts : List String) (t : GoTime) :
    (t.isZero = true →
        visitFieldTypeAttribute node parts (.timeVal t) = node.ensureAttrs)
    ∧ ((parseAttrMods parts).omitEmpty = false →
        visitFieldTypeAttribute node parts (.timePtr none)
          = node.ensureAttrs.setAttr (tagAt parts 1) .null)
    ∧ ((parseAttrMods parts).omitEmpty = true →
        visitFieldTypeAttribute node parts (.timePtr none) = node.ensureAttrs)
    ∧ (t.isZero = true → (parseAttrMods parts).omitEmpty = true →
        visitFieldTypeAttribute node parts (.timePtr (some t)) = node.ensureAttrs)
    ∧ ((parseAttrMods parts).omitEmpty = false →
        visitFieldTypeAttribute node parts (.timePtr (some t))
          = node.ensureAttrs.setAttr (tagAt parts 1)
              (timeJVal (parseAttrMods parts) t)) := by
  refine ⟨?_, ?_, ?_, ?_, ?_⟩
  · intro hz
    simp [visitFieldTypeAttribute, hz]
  · intro hoe
    simp [visitFieldTypeAttribute, hoe]
  · intro hoe
    simp [visitFieldTypeAttribute, hoe]
  · intro hz hoe
    simp [visitFieldTypeAttribute, hz, hoe]
  · intro hoe
    simp [visitFieldTypeAttribute, hoe]

/-- Witness for C3 (amended) at the tag "attr,created" (no modifiers), the
zero time, and the empty node. -/
theorem attr_time_rendering_witness :
    (goTimeZero.isZero = true
     ∧ (parseAttrMods (parseTag "attr,created")).omitEmpty = false)
    ∧ ((goTimeZero.isZero = true →
          visitFieldTypeAttribute emptyNode (parseTag "attr,created")
            (.timeVal goTimeZero) = emptyNode.ensureAttrs)
       ∧ ((parseAttrMods (parseTag "attr,created")).omitEmpty = false →
            visitFieldTypeAttribute emptyNode (parseTag "attr,created")
              (.timePtr none)
              = emptyNode.ensureAttrs.setAttr
                  (tagAt (parseTag "attr,created") 1) .null)
       ∧ ((parseAttrMods (parseTag "attr,created")).omitEmpty = true →
            visitFieldTypeAttribute emptyNode (parseTag "attr,created")
              (.timePtr none) = emptyNode.ensureAttrs)
       ∧ (goTimeZero.isZero = true →
            (parseAttrMods (parseTag "attr,created")).omitEmpty = true →
            visitFieldTypeAttribute emptyNode (parseTag "attr,created")
              (.timePtr (some goTimeZero)) = emptyNode.ensureAttrs)
       ∧ ((parseAttrMods (parseTag "attr,created")).omitEmpty = false →
            visitFieldTypeAttribute emptyNode (parseTag "attr,created")
              (.timePtr (some goTimeZero))
              = emptyNode.ensureAttrs.setAttr (tagAt (parseTag "attr,created") 1)
                  (timeJVal (parseAttrMods (parseTag "attr,created")) goTimeZero))) :=
  ⟨⟨rfl, rfl⟩, attr_time_rendering emptyNode (parseTag "attr,created") goTimeZero⟩



/-- C5: For every plain to-many relation field marshalled without
omit-if-empty: if any element of the list is a null reference, the whole
marshal call fails with UnexpectedNil; if the list has zero elements, the
relationship marshals to an empty, non-null array. -/
theorem to_many_nil_element_and_empty (fuel : Nat) (st : VState) (node : Node)
    (parts : List String) (pre rest : List (Option Model)) (r : List Node × VState)
    (hrel : tagType parts = annotationRelation)
    (homit : (decide (2 < parts.length)
      && (tagAt parts 2 == annotationOmitEmpty)) = false) :
    (visitModelNodeRelationships fuel st pre = .ok r →
      visitModelNodeRelationships fuel st (pre ++ none :: rest)
        = .error .unexpectedNil)
    ∧ (visitModelNodeRelationships fuel st pre = .ok r →
      visitFieldTypeRelation (fuel+1) st node parts (.slice (pre ++ none :: rest))
        = .error .unexpectedNil)
    ∧ (visitFieldTypeRelation (fuel+2) st node parts (.slice [])
        = .ok (node.setRel (tagAt parts 1)
            (.many [] (relCapLinks st.root (tagAt parts 1))
                      (relCapMeta st.root (tagAt parts 1))), st)) := by
  have hnp : (tagType parts == annotationPolyRelation) = false := by
    rw [hrel]; decide
  have hmain : ∀ fuel' st' pre' (r' : List Node × VState),
      visitModelNodeRelationships fuel' st' pre' = .ok r' →
      visitModelNodeRelationships fuel' st' (pre' ++ none :: rest)
        = .error .unexpectedNil := by
    intro fuel' st' pre' r'
    induction pre' generalizing fuel' st' r' with
    | nil =>
        intro h
        cases fuel' with
        | zero => simp [visitModelNodeRelationships] at h
        | succ g => simp [visitModelNodeRelationships]
    | cons x pre'' ih =>
        intro h
        cases fuel' with
        | zero => simp [visitModelNodeRelationships] at h
        | succ g =>
            cases x with
            | none => simp [visitModelNodeRelationships] at h
            | some m =>
                simp only [List.cons_append, visitModelNodeRelationships] at h ⊢
                cases hv : visit g st' m with
                | error e => simp [hv] at h
                | ok p =>
                    obtain ⟨n, st2⟩ := p
                    simp only [hv] at h ⊢
                    cases hr : visitModelNodeRelationships g st2 pre'' with
                    | error e => simp [hr] at h
                    | ok q => simp [ih g st2 q hr]
  refine ⟨hmain fuel st pre r, ?_, ?_⟩
  · intro h
    have herr := hmain fuel st pre r h
    simp [visitFieldTypeRelation, homit, hnp, herr]
  · cases st with
    | mk inc sl rt =>
        cases sl <;>
          simp [visitFieldTypeRelation, homit, hnp, visitModelNodeRelationships,
            emitToMany]

/-- Witness for C5: the singleton list holding one null reference under the
tag "relation,posts", starting from the empty prefix; also checks the empty
list case at the same tag. -/
theorem to_many_nil_element_and_empty_witness :
    tagType (parseTag "relation,posts") = annotationRelation
    ∧ ((visitModelNodeRelationships 4 initialState []
          = .ok ([], initialState) →
        visitModelNodeRelationships 4 initialState ([] ++ none :: [])
          = .error .unexpectedNil)
       ∧ (visitModelNodeRelationships 4 initialState []
            = .ok ([], initialState) →
          visitFieldTypeRelation 5 initialState emptyNode
            (parseTag "relation,posts") (.slice ([] ++ none :: []))
            = .error .unexpectedNil)
       ∧ (visitFieldTypeRelation 6 initialState emptyNode
            (parseTag "relation,posts") (.slice [])
            = .ok (emptyNode.setRel (tagAt (parseTag "relation,posts") 1)
                (.many []
                  (relCapLinks initialState.root (tagAt (parseTag "relation,posts") 1))
                  (relCapMeta initialState.root (tagAt (parseTag "relation,posts") 1))),
              initialState)))
    ∧ marshalOne 9 true (Model.mk
        [ .mk "primary,blogs" (.prim (.str "1")),
          .mk "relation,posts" (.slice [none, some sampleImage, none]) ] noCaps)
        = .error .unexpectedNil :=
  ⟨rfl,
   to_many_nil_element_and_empty 4 initialState emptyNode
     (parseTag "relation,posts") [] [] ([], initialState) rfl rfl,
   rfl⟩

/-- C6 counterexample: a to-many polymorphic relation whose only element is
a non-nil choice struct resolving to no slot marshals successfully to an
empty list — the element is silently dropped, the call does not fail with
UnexpectedNil as the claim states. -/
theorem poly_many_no_slot_counterexample :
    (match marshalOne 6 true (Model.mk
        [ .mk "primary,blogs" (.prim (.str "1")),
          .mk "polyrelation,media" (.slice [some sampleEmptyChoice]) ] noCaps) with
     | .ok (n, _) =>
        (match relOf n "media" with
         | some (.many ds _ _) => some ds.length
         | _ => none)
     | .error _ => none) = some 0 := rfl

/-- C6 amended: in a to-many polymorphic relation, a nil element fails the
whole call with UnexpectedNil; a non-nil element resolving to no variant
slot is silently dropped from the snooped collection (so the marshalled
list contains no hole but may be shorter than the field), and an element
resolving to a slot contributes that slot's model. -/
theorem poly_many_elements (fuel : Nat) (st : VState) (node : Node)
    (parts : List String) (pre rest : List (Option Model))
    (choiceEmpty choiceFull found : Model) (col : List Model)
    (hpoly : tagType parts = annotationPolyRelation)
    (homit : (decide (2 < parts.length)
      && (tagAt parts 2 == annotationOmitEmpty)) = false) :
    ((∀ x ∈ pre, x.isSome = true) →
      snoopPolyElems (pre ++ none :: rest) = .error .unexpectedNil)
    ∧ (selectChoiceTypeStructField choiceEmpty.fields = none →
        snoopPolyElems (some choiceEmpty :: rest) = snoopPolyElems rest)
    ∧ (selectChoiceTypeStructField choiceFull.fields = some found →
        snoopPolyElems rest = .ok col →
        snoopPolyElems (some choiceFull :: rest) = .ok (found :: col))
    ∧ ((∀ x ∈ pre, x.isSome = true) →
        visitFieldTypeRelation (fuel+1) st node parts (.slice (pre ++ none :: rest))
          = .error .unexpectedNil) := by
  have hsnoop : (∀ x ∈ pre, x.isSome = true) →
      snoopPolyElems (pre ++ none :: rest) = .error .unexpectedNil := by
    intro hall
    induction pre with
    | nil => simp [snoopPolyElems]
    | cons x pre' ih =>
        cases x with
        | none => exact absurd (hall none (by simp)) (by simp)
        | some c =>
            have ih2 := ih (fun y hy => hall y (by simp [hy]))
            simp only [List.cons_append, snoopPolyElems]
            cases hsel : selectChoiceTypeStructField c.fields with
            | none => simpa using ih2
            | some f => simp [ih2]
  have hp : (tagType parts == annotationPolyRelation) = true := by
    rw [hpoly]; decide
  refine ⟨hsnoop, ?_, ?_, ?_⟩
  · intro hsel
    simp [snoopPolyElems, hsel]
  · intro hsel hrest
    simp [snoopPolyElems, hsel, hrest]
  · intro hall
    have herr := hsnoop hall
    simp [visitFieldTypeRelation, homit, hp, herr]

/-- Witness for C6 (amended): tag "polyrelation,media", empty prefix, a
slotless choice struct, and a choice struct resolving to the sample image. -/
theorem poly_many_elements_witness :
    tagType (parseTag "polyrelation,media") = annotationPolyRelation
    ∧ selectChoiceTypeStructField sampleEmptyChoice.fields = none
    ∧ selectChoiceTypeStructField sampleChoice.fields = some sampleImage
    ∧ (((∀ x ∈ ([] : List (Option Model)), x.isSome = true) →
          snoopPolyElems ([] ++ none :: []) = .error .unexpectedNil)
       ∧ (selectChoiceTypeStructField sampleEmptyChoice.fields = none →
           snoopPolyElems (some sampleEmptyChoice :: []) = snoopPolyElems [])
       ∧ (selectChoiceTypeStructField sampleChoice.fields = some sampleImage →
           snoopPolyElems [] = .ok [] →
           snoopPolyElems (some sampleChoice :: []) = .ok (sampleImage :: []))
       ∧ ((∀ x ∈ ([] : List (Option Model)), x.isSome = true) →
           visitFieldTypeRelation 5 initialState emptyNode
             (parseTag "polyrelation,media") (.slice ([] ++ none :: []))
             = .error .unexpectedNil)) :=
  ⟨rfl, rfl, rfl,
   poly_many_elements 4 initialState emptyNode (parseTag "polyrelation,media")
     [] [] sampleEmptyChoice sampleChoice sampleImage [] rfl rfl⟩



theorem selectChoice_first (fs₁ fs₂ : List Field) (f : Field) (m : Model)
    (h₁ : ∀ f' ∈ fs₁, slotOf f' = none) (h₂ : slotOf f = some m) :
    selectChoiceTypeStructField (fs₁ ++ f :: fs₂) = some m := by
  induction fs₁ with
  | nil =>
      obtain ⟨tag, v⟩ := f
      cases v with
      | ptr o =>
          cases o with
          | none => simp [slotOf, Field.v] at h₂
          | some m' =>
              simp only [slotOf, Field.v] at h₂
              by_cases hj : (jsonapiTypeOfModel m').isSome
              · rw [if_pos hj] at h₂
                cases h₂
                simp [selectChoiceTypeStructField, Field.v, hj]
              · rw [if_neg hj] at h₂
                simp at h₂
      | prim p => simp [slotOf, Field.v] at h₂
      | primPtr p => simp [slotOf, Field.v] at h₂
      | timeVal t0 => simp [slotOf, Field.v] at h₂
      | timePtr t0 => simp [slotOf, Field.v] at h₂
      | slice ms => simp [slotOf, Field.v] at h₂
      | linksField => simp [slotOf, Field.v] at h₂
  | cons f' fs₁' ih =>
      have hf0 : slotOf f' = none := h₁ f' (by simp)
      have ihh := ih (fun g hg => h₁ g (by simp [hg]))
      obtain ⟨tag', v'⟩ := f'
      cases v' with
      | ptr o =>
          cases o with
          | none => simpa [selectChoiceTypeStructField, Field.v] using ihh
          | some m' =>
              simp only [slotOf, Field.v] at hf0
              by_cases hj : (jsonapiTypeOfModel m').isSome
              · rw [if_pos hj] at hf0
                simp at hf0
              · simpa [selectChoiceTypeStructField, Field.v, hj] using ihh
      | prim p => simpa [selectChoiceTypeStructField, Field.v] using ihh
      | primPtr p => simpa [selectChoiceTypeStructField, Field.v] using ihh
      | timeVal t0 => simpa [selectChoiceTypeStructField, Field.v] using ihh
      | timePtr t0 => simpa [selectChoiceTypeStructField, Field.v] using ihh
      | slice ms => simpa [selectChoiceTypeStructField, Field.v] using ihh
      | linksField => simpa [selectChoiceTypeStructField, Field.v] using ihh

theorem selectChoice_none (fs : List Field)
    (h : ∀ f' ∈ fs, slotOf f' = none) :
    selectChoiceTypeStructField fs = none := by
  induction fs with
  | nil => rfl
  | cons f' fs' ih =>
      have hf0 : slotOf f' = none := h f' (by simp)
      have ihh := ih (fun g hg => h g (by simp [hg]))
      obtain ⟨tag', v'⟩ := f'
      cases v' with
      | ptr o =>
          cases o with
          | none => simpa [selectChoiceTypeStructField, Field.v] using ihh
          | some m' =>
              simp only [slotOf, Field.v] at hf0
              by_cases hj : (jsonapiTypeOfModel m').isSome
              · rw [if_pos hj] at hf0
                simp at hf0
              · simpa [selectChoiceTypeStructField, Field.v, hj] using ihh
      | prim p => simpa [selectChoiceTypeStructField, Field.v] using ihh
      | primPtr p => simpa [selectChoiceTypeStructField, Field.v] using ihh
      | timeVal t0 => simpa [selectChoiceTypeStructField, Field.v] using ihh
      | timePtr t0 => simpa [selectChoiceTypeStructField, Field.v] using ihh
      | slice ms => simpa [selectChoiceTypeStructField, Field.v] using ihh
      | linksField => simpa [selectChoiceTypeStructField, Field.v] using ihh

/-- C2 counterexample: a to-one polymorphic relation holding a nil choice
pointer, without omit-if-empty, is omitted from the relationships map
entirely — not emitted with null data as the claim states (the
relationships map is not even created). -/
theorem poly_one_nil_omitted_counterexample :
    (match marshalOne 8 true (Model.mk
        [ .mk "primary,blogs" (.prim (.str "1")),
          .mk "polyrelation,hero" (.ptr none) ] noCaps) with
     | .ok (n, _) => some (relOf n "hero", n.relationships.isSome)
     | .error _ => none) = some (none, false) := rfl

/-- C2 amended: marshal scans the variant slots in declaration order and,
when some slot is populated, emits the relationship exactly as an ordinary
relation field of the first populated slot's value; when the variant-set
reference is nil the relationship is omitted entirely (with or without
omit-if-empty); when the reference is non-nil but every slot is empty the
unmodified choice value falls through and is marshalled like an ordinary
relation to the choice struct itself (a resource node with empty type), not
as null data. -/
theorem poly_to_one_selection (fuel : Nat) (st : VState) (node : Node)
    (t : List String) (fs₁ fs₂ : List Field) (f : Field) (choice m : Model)
    (h₁ : ∀ f' ∈ fs₁, slotOf f' = none) :
    (slotOf f = some m →
      selectChoiceTypeStructField (fs₁ ++ f :: fs₂) = some m)
    ∧ ((∀ f' ∈ choice.fields, slotOf f' = none) →
      selectChoiceTypeStructField choice.fields = none)
    ∧ (selectChoiceTypeStructField choice.fields = some m →
      visitFieldTypeRelation fuel st node ("polyrelation" :: t) (.ptr (some choice))
        = visitFieldTypeRelation fuel st node ("relation" :: t) (.ptr (some m)))
    ∧ (selectChoiceTypeStructField choice.fields = none →
      visitFieldTypeRelation fuel st node ("polyrelation" :: t) (.ptr (some choice))
        = visitFieldTypeRelation fuel st node ("relation" :: t) (.ptr (some choice)))
    ∧ visitFieldTypeRelation (fuel+1) st node ("polyrelation" :: t) (.ptr none)
        = .ok (node, st) := by
  refine ⟨selectChoice_first fs₁ fs₂ f m h₁, selectChoice_none choice.fields,
    ?_, ?_, ?_⟩
  · intro hsel
    cases fuel with
    | zero => rfl
    | succ g =>
        simp +decide [visitFieldTypeRelation, hsel, tagAt, fvalIsNil, tagType,
          annotationPolyRelation]
  · intro hsel
    cases fuel with
    | zero => rfl
    | succ g =>
        simp +decide [visitFieldTypeRelation, hsel, tagAt, fvalIsNil, tagType,
          annotationPolyRelation]
  · simp +decide [visitFieldTypeRelation, fvalIsNil, tagType,
      annotationPolyRelation]
    by_cases hc : 2 < t.length + 1
        ∧ tagAt ("polyrelation" :: t) 2 = annotationOmitEmpty
    · simp [hc]
    · simp [hc]

/-- Witness for C2 (amended): a nil slot followed by a populated image slot;
the choice struct `sampleChoice` resolves to `sampleImage`. -/
theorem poly_to_one_selection_witness :
    (∀ f' ∈ [Field.mk "" (FVal.ptr none)], slotOf f' = none)
    ∧ ((slotOf (Field.mk "" (.ptr (some sampleImage))) = some sampleImage →
          selectChoiceTypeStructField
            ([Field.mk "" (FVal.ptr none)]
              ++ Field.mk "" (.ptr (some sampleImage)) :: [])
            = some sampleImage)
       ∧ ((∀ f' ∈ sampleChoice.fields, slotOf f' = none) →
           selectChoiceTypeStructField sampleChoice.fields = none)
       ∧ (selectChoiceTypeStructField sampleChoice.fields = some sampleImage →
           visitFieldTypeRelation 6 initialState emptyNode
             ("polyrelation" :: ["hero"]) (.ptr (some sampleChoice))
             = visitFieldTypeRelation 6 initialState emptyNode
                 ("relation" :: ["hero"]) (.ptr (some sampleImage)))
       ∧ (selectChoiceTypeStructField sampleChoice.fields = none →
           visitFieldTypeRelation 6 initialState emptyNode
             ("polyrelation" :: ["hero"]) (.ptr (some sampleChoice))
             = visitFieldTypeRelation 6 initialState emptyNode
                 ("relation" :: ["hero"]) (.ptr (some sampleChoice)))
       ∧ visitFieldTypeRelation 7 initialState emptyNode
           ("polyrelation" :: ["hero"]) (.ptr none)
           = .ok (emptyNode, initialState)) := by
  have h1 : ∀ f' ∈ [Field.mk "" (FVal.ptr none)], slotOf f' = none := by
    intro g hg
    rw [List.mem_singleton] at hg
    subst hg
    rfl
  exact ⟨h1, poly_to_one_selection 6 initialState emptyNode ["hero"]
    [Field.mk "" (FVal.ptr none)] [] (Field.mk "" (.ptr (some sampleImage)))
    sampleChoice sampleImage h1⟩



/-- C9: During one top-level marshal call, the per-relationship Links and
Meta attached to every relationship encountered — including relationships of
nested objects reached by recursive visits — are obtained by probing the
root model (the state's `rootModel`) with the relation's resource-level
name; the nested model that owns the relationship is never probed.  The
first two conjuncts exhibit the probe target `st.root` for to-one and
to-many relationships of an arbitrary current model; the closed conjuncts
run a two-level marshal in which the nested relationship carries the root's
table entry even though the owning child's own table disagrees. -/
theorem relationship_links_from_root (fuel : Nat) (st : VState) (node : Node)
    (parts : List String) (c : Model) (child : Node) (st2 : VState)
    (ms : List (Option Model)) (nodes : List Node)
    (hrel : tagType parts = annotationRelation)
    (homit : (decide (2 < parts.length)
      && (tagAt parts 2 == annotationOmitEmpty)) = false) :
    (visit fuel st c = .ok (child, st2) →
      visitFieldTypeRelation (fuel+1) st node parts (.ptr (some c))
        = .ok (emitToOne st2 node (tagAt parts 1) child
            (relCapLinks st.root (tagAt parts 1))
            (relCapMeta st.root (tagAt parts 1))))
    ∧ (visitModelNodeRelationships fuel st ms = .ok (nodes, st2) →
      visitFieldTypeRelation (fuel+1) st node parts (.slice ms)
        = .ok (emitToMany st2 node (tagAt parts 1) nodes
            (relCapLinks st.root (tagAt parts 1))
            (relCapMeta st.root (tagAt parts 1))))
    ∧ (match marshalOne 20 false c9Root with
       | .ok (n, _) =>
          (match relOf n "post" with
           | some (.one (some childNode) _ _) => relOf childNode "comments"
           | _ => none)
       | .error _ => none)
       = some (.one (some (Node.mk "comments" "9" "" none none none none))
           (some c9RootLinks) (some c9RootMeta))
    ∧ c9RootLinks ≠ c9ChildLinks
    ∧ c9RootMeta ≠ c9ChildMeta := by
  have hnp : (tagType parts == annotationPolyRelation) = false := by
    rw [hrel]; decide
  refine ⟨?_, ?_, rfl, by decide, by decide⟩
  · intro hchild
    simp [visitFieldTypeRelation, homit, hnp, hchild]
  · intro hmany
    simp [visitFieldTypeRelation, homit, hnp, hmany]

/-- Witness for C9 at the tag "relation,comments" with the sample image as
the visited child. -/
theorem relationship_links_from_root_witness :
    tagType (parseTag "relation,comments") = annotationRelation
    ∧ visit 4 initialState sampleImage
        = .ok (Node.mk "images" "2" "" none none none none, initialState)
    ∧ ((visit 4 initialState sampleImage
          = .ok (Node.mk "images" "2" "" none none none none, initialState) →
        visitFieldTypeRelation 5 initialState emptyNode
          (parseTag "relation,comments") (.ptr (some sampleImage))
          = .ok (emitToOne initialState emptyNode
              (tagAt (parseTag "relation,comments") 1)
              (Node.mk "images" "2" "" none none none none)
              (relCapLinks initialState.root (tagAt (parseTag "relation,comments") 1))
              (relCapMeta initialState.root (tagAt (parseTag "relation,comments") 1))))
       ∧ (visitModelNodeRelationships 4 initialState []
            = .ok ([], initialState) →
          visitFieldTypeRelation 5 initialState emptyNode
            (parseTag "relation,comments") (.slice [])
            = .ok (emitToMany initialState emptyNode
                (tagAt (parseTag "relation,comments") 1) []
                (relCapLinks initialState.root (tagAt (parseTag "relation,comments") 1))
                (relCapMeta initialState.root (tagAt (parseTag "relation,comments") 1))))
       ∧ (match marshalOne 20 false c9Root with
          | .ok (n, _) =>
             (match relOf n "post" with
              | some (.one (some childNode) _ _) => relOf childNode "comments"
              | _ => none)
          | .error _ => none)
          = some (.one (some (Node.mk "comments" "9" "" none none none none))
              (some c9RootLinks) (some c9RootMeta))
       ∧ c9RootLinks ≠ c9ChildLinks
       ∧ c9RootMeta ≠ c9ChildMeta) :=
  ⟨rfl, rfl,
   relationship_links_from_root 4 initialState emptyNode
     (parseTag "relation,comments") sampleImage
     (Node.mk "images" "2" "" none none none none) initialState [] []
     rfl rfl⟩

/-- C8: For every NullableAttr/NullableRelationship value constructed by the
provided constructors and mutated only through Set, SetNull and
SetUnspecified, exactly one of the three states Unspecified, ExplicitNull,
Present(v) holds at any time; Get returns the stored value with no error
exactly in the Present state, returns the error "value is null" in the
ExplicitNull state (where IsNull() is true), and returns the error
"value is not specified" in the Unspecified state (where IsSpecified() is
false). -/
theorem nullable_tristate (T : Type) [Inhabited T]
    (a : NullableAttr T) (b : NullableRelationship T)
    (ha : a.Reachable) (hb : b.Reachable) :
    NullableTriState a ∧ NullableRelTriState b := by
  constructor
  · rcases ha with h | ⟨t0, v, h⟩ | ⟨t0, h⟩ | ⟨t0, h⟩ <;> subst h
    · exact ⟨Or.inl rfl,
        fun ⟨_, hn⟩ => by simpa [NullableAttr.stNull, NullableAttr.IsNull,
          nilMapAttr] using hn,
        fun ⟨_, v, hv, _⟩ => by simpa [nilMapAttr] using hv,
        fun ⟨hn, _⟩ => by simpa [NullableAttr.stNull, NullableAttr.IsNull,
          nilMapAttr] using hn,
        fun v ⟨hv, _⟩ => by simpa [nilMapAttr] using hv,
        fun hn => by simpa [NullableAttr.stNull, NullableAttr.IsNull,
          nilMapAttr] using hn,
        fun _ => by simp [NullableAttr.Get, NullableAttr.IsNull,
          NullableAttr.IsSpecified, nilMapAttr]⟩
    · refine ⟨Or.inr (Or.inr ⟨v, rfl, rfl⟩), ?_, ?_, ?_, ?_, ?_, ?_⟩
      · rintro ⟨hu, -⟩
        simp [NullableAttr.stUnspecified, NullableAttr.IsSpecified,
          NullableAttr.Set] at hu
      · rintro ⟨hu, -⟩
        simp [NullableAttr.stUnspecified, NullableAttr.IsSpecified,
          NullableAttr.Set] at hu
      · rintro ⟨hn, -⟩
        simp [NullableAttr.stNull, NullableAttr.IsNull,
          NullableAttr.Set] at hn
      · rintro w ⟨hw, -⟩
        simp only [NullableAttr.Set] at hw
        cases hw
        simp [NullableAttr.Get, NullableAttr.IsNull, NullableAttr.IsSpecified,
          NullableAttr.Set]
      · rintro hn
        simp [NullableAttr.stNull, NullableAttr.IsNull,
          NullableAttr.Set] at hn
      · rintro hu
        simp [NullableAttr.stUnspecified, NullableAttr.IsSpecified,
          NullableAttr.Set] at hu
    · refine ⟨Or.inr (Or.inl rfl), ?_, ?_, ?_, ?_, ?_, ?_⟩
      · rintro ⟨hu, -⟩
        simp [NullableAttr.stUnspecified, NullableAttr.IsSpecified,
          NullableAttr.SetNull] at hu
      · rintro ⟨hu, -⟩
        simp [NullableAttr.stUnspecified, NullableAttr.IsSpecified,
          NullableAttr.SetNull] at hu
      · rintro ⟨-, v, -, hv⟩
        simp [NullableAttr.SetNull] at hv
      · rintro w ⟨-, hw⟩
        simp [NullableAttr.SetNull] at hw
      · rintro -
        simp [NullableAttr.Get, NullableAttr.IsNull, NullableAttr.SetNull]
      · rintro hu
        simp [NullableAttr.stUnspecified, NullableAttr.IsSpecified,
          NullableAttr.SetNull] at hu
    · exact ⟨Or.inl rfl,
        fun ⟨_, hn⟩ => by simpa [NullableAttr.stNull, NullableAttr.IsNull,
          NullableAttr.SetUnspecified] using hn,
        fun ⟨_, v, hv, _⟩ => by simpa [NullableAttr.SetUnspecified] using hv,
        fun ⟨hn, _⟩ => by simpa [NullableAttr.stNull, NullableAttr.IsNull,
          NullableAttr.SetUnspecified] using hn,
        fun v ⟨hv, _⟩ => by simpa [NullableAttr.SetUnspecified] using hv,
        fun hn => by simpa [NullableAttr.stNull, NullableAttr.IsNull,
          NullableAttr.SetUnspecified] using hn,
        fun _ => by simp [NullableAttr.Get, NullableAttr.IsNull,
          NullableAttr.IsSpecified, NullableAttr.SetUnspecified]⟩
  · rcases hb with h | ⟨t0, v, h⟩ | ⟨t0, h⟩ | ⟨t0, h⟩ <;> subst h
    · exact ⟨Or.inl rfl,
        fun ⟨_, hn⟩ => by simpa [NullableRelationship.stNull,
          NullableRelationship.IsNull, nilMapRel] using hn,
        fun ⟨_, v, hv, _⟩ => by simpa [nilMapRel] using hv,
        fun ⟨hn, _⟩ => by simpa [NullableRelationship.stNull,
          NullableRelationship.IsNull, nilMapRel] using hn,
        fun v ⟨hv, _⟩ => by simpa [nilMapRel] using hv,
        fun hn => by simpa [NullableRelationship.stNull,
          NullableRelationship.IsNull, nilMapRel] using hn,
        fun _ => by simp [NullableRelationship.Get, NullableRelationship.IsNull,
          NullableRelationship.IsSpecified, nilMapRel]⟩
    · refine ⟨Or.inr (Or.inr ⟨v, rfl, rfl⟩), ?_, ?_, ?_, ?_, ?_, ?_⟩
      · rintro ⟨hu, -⟩
        simp [NullableRelationship.stUnspecified,
          NullableRelationship.IsSpecified, NullableRelationship.Set] at hu
      · rintro ⟨hu, -⟩
        simp [NullableRelationship.stUnspecified,
          NullableRelationship.IsSpecified, NullableRelationship.Set] at hu
      · rintro ⟨hn, -⟩
        simp [NullableRelationship.stNull, NullableRelationship.IsNull,
          NullableRelationship.Set] at hn
      · rintro w ⟨hw, -⟩
        simp only [NullableRelationship.Set] at hw
        cases hw
        simp [NullableRelationship.Get, NullableRelationship.IsNull,
          NullableRelationship.IsSpecified, NullableRelationship.Set]
      · rintro hn
        simp [NullableRelationship.stNull, NullableRelationship.IsNull,
          NullableRelationship.Set] at hn
      · rintro hu
        simp [NullableRelationship.stUnspecified,
          NullableRelationship.IsSpecified, NullableRelationship.Set] at hu
    · refine ⟨Or.inr (Or.inl rfl), ?_, ?_, ?_, ?_, ?_, ?_⟩
      · rintro ⟨hu, -⟩
        simp [NullableRelationship.stUnspecified,
          NullableRelationship.IsSpecified, NullableRelationship.SetNull] at hu
      · rintro ⟨hu, -⟩
        simp [NullableRelationship.stUnspecified,
          NullableRelationship.IsSpecified, NullableRelationship.SetNull] at hu
      · rintro ⟨-, v, -, hv⟩
        simp [NullableRelationship.SetNull] at hv
      · rintro w ⟨-, hw⟩
        simp [NullableRelationship.SetNull] at hw
      · rintro -
        simp [NullableRelationship.Get, NullableRelationship.IsNull,
          NullableRelationship.SetNull]
      · rintro hu
        simp [NullableRelationship.stUnspecified,
          NullableRelationship.IsSpecified, NullableRelationship.SetNull] at hu
    · exact ⟨Or.inl rfl,
        fun ⟨_, hn⟩ => by simpa [NullableRelationship.stNull,
          NullableRelationship.IsNull, NullableRelationship.SetUnspecified] using hn,
        fun ⟨_, v, hv, _⟩ => by
          simpa [NullableRelationship.SetUnspecified] using hv,
        fun ⟨hn, _⟩ => by simpa [NullableRelationship.stNull,
          NullableRelationship.IsNull, NullableRelationship.SetUnspecified] using hn,
        fun v ⟨hv, _⟩ => by simpa [NullableRelationship.SetUnspecified] using hv,
        fun hn => by simpa [NullableRelationship.stNull,
          NullableRelationship.IsNull, NullableRelationship.SetUnspecified] using hn,
        fun _ => by simp [NullableRelationship.Get, NullableRelationship.IsNull,
          NullableRelationship.IsSpecified, NullableRelationship.SetUnspecified]⟩

/-- Witness for C8 at `T = Nat`: a value freshly Set to 5 and an explicit
null, with the tri-state behaviour instantiated. -/
theorem nullable_tristate_witness :
    (NewNullableAttrWithValue 5).Reachable
    ∧ (NewNullNullableRelationship Nat).Reachable
    ∧ (NullableTriState (NewNullableAttrWithValue 5)
       ∧ NullableRelTriState (NewNullNullableRelationship Nat)) :=
  ⟨Or.inr (Or.inl ⟨nilMapAttr, 5, rfl⟩),
   Or.inr (Or.inr (Or.inl ⟨nilMapRel, rfl⟩)),
   nullable_tristate Nat (NewNullableAttrWithValue 5)
     (NewNullNullableRelationship Nat)
     (Or.inr (Or.inl ⟨nilMapAttr, 5, rfl⟩))
     (Or.inr (Or.inr (Or.inl ⟨nilMapRel, rfl⟩)))⟩

end Jsonapi

namespace Jsonapi

theorem specIncTops_eq (root : Option Model) (ms : List (Option Model)) :
    specIncTops root ms = specElems root true ms := by
  induction ms with
  | nil => rfl
  | cons x rest ih =>
      cases x with
      | none => simpa [specIncTops, specElems] using ih
      | some c => simp [specIncTops, specElems, ih]

theorem vstate_set_included_self (st : VState) :
    { st with included := st.included } = st := rfl

/-- The characterization of a successful side-load/embed visit of a
round-trippable model by the closed forms. -/
theorem visitChar : ∀ fuel : Nat,
    (∀ (st : VState) (m : Model) (n : Node) (st2 : VState),
      rtModel m = true → visit fuel st m = .ok (n, st2) →
      n = specNode (effRoot st m) st.sideload m
      ∧ st2 = { st with included := incAfter st (effRoot st m) m })
    ∧ (∀ (st : VState) (node : Node) (fs : List Field) (node2 : Node) (st2 : VState),
      st.root.isSome = true → rtFields fs = true →
      visitFields fuel st node fs = .ok (node2, st2) →
      node2 = specFields st.root st.sideload node fs
      ∧ st2 = { st with included :=
          if st.sideload then (specIncFields st.root fs).foldl appendIncluded st.included
          else st.included })
    ∧ (∀ (st : VState) (node : Node) (tag : String) (v : FVal) (node2 : Node) (st2 : VState),
      st.root.isSome = true → rtField (.mk tag v) = true →
      visitField fuel st node (parseTag tag) v = .ok (node2, st2) →
      node2 = specField st.root st.sideload node (.mk tag v)
      ∧ st2 = { st with included :=
          if st.sideload then (specIncField st.root (.mk tag v)).foldl appendIncluded st.included
          else st.included })
    ∧ (∀ (st : VState) (node : Node) (parts : List String) (v : FVal) (node2 : Node) (st2 : VState),
      st.root.isSome = true → tagType parts = annotationRelation → rtRelVal v = true →
      visitFieldTypeRelation fuel st node parts v = .ok (node2, st2) →
      node2 = specRelField st.root st.sideload node parts v
      ∧ st2 = { st with included :=
          if st.sideload then (specIncVal st.root v).foldl appendIncluded st.included
          else st.included })
    ∧ (∀ (st : VState) (ms : List (Option Model)) (nodes : List Node) (st2 : VState),
      st.root.isSome = true → rtElems ms = true →
      visitModelNodeRelationships fuel st ms = .ok (nodes, st2) →
      nodes = specElems st.root st.sideload ms
      ∧ st2 = { st with included :=
          if st.sideload then (specIncElems st.root ms).foldl appendIncluded st.included
          else st.included }) := by
  intro fuel
  induction fuel with
  | zero =>
      refine ⟨?_, ?_, ?_, ?_, ?_⟩ <;> intros <;>
        simp_all [visit, visitFields, visitField, visitFieldTypeRelation,
          visitModelNodeRelationships]
  | succ g ih =>
      obtain ⟨ihV, ihFS, ihF, ihR, ihM⟩ := ih
      refine ⟨?_, ?_, ?_, ?_, ?_⟩
      -- visit
      · intro st m n st2 hrt hok
        obtain ⟨fs, caps⟩ := m
        obtain ⟨inc, sl, rt⟩ := st
        have hrt' := hrt
        simp only [rtModel, Bool.and_eq_true] at hrt'
        obtain ⟨⟨hcaps, hlocal⟩, hrtf⟩ := hrt'
        cases rt with
        | none =>
            simp only [visit, Option.isNone_none, if_true, Model.fields] at hok
            cases hfs : visitFields g ⟨inc, sl, some (Model.mk fs caps)⟩ emptyNode fs with
            | error e => simp [hfs] at hok
            | ok p =>
                obtain ⟨node1, st2'⟩ := p
                obtain ⟨hn1, hst1⟩ := ihFS ⟨inc, sl, some (Model.mk fs caps)⟩
                  emptyNode fs node1 st2' rfl hrtf hfs
                subst hst1
                simp only [hfs] at hok
                cases hcl : caps.links with
                | some jl =>
                    have hval : linksValidate jl = true := by
                      simpa [rtCaps, hcl] using hcaps
                    simp only [Model.caps, hcl, hval, if_true,
                      Except.ok.injEq, Prod.mk.injEq] at hok
                    obtain ⟨hn, hst⟩ := hok
                    constructor
                    · rw [← hn, hn1]
                      simp [specNode, applyMetaCap, effRoot, Model.caps, hcl]
                    · rw [← hst]
                      simp [incAfter, specIncNodes, effRoot]
                | none =>
                    simp only [Model.caps, hcl,
                      Except.ok.injEq, Prod.mk.injEq] at hok
                    obtain ⟨hn, hst⟩ := hok
                    constructor
                    · rw [← hn, hn1]
                      simp [specNode, applyMetaCap, effRoot, Model.caps, hcl]
                    · rw [← hst]
                      simp [incAfter, specIncNodes, effRoot]
        | some r =>
            simp only [visit, Option.isNone_some, Bool.false_eq_true, if_false,
              Model.fields] at hok
            cases hfs : visitFields g ⟨inc, sl, some r⟩ emptyNode fs with
            | error e => simp [hfs] at hok
            | ok p =>
                obtain ⟨node1, st2'⟩ := p
                obtain ⟨hn1, hst1⟩ := ihFS ⟨inc, sl, some r⟩
                  emptyNode fs node1 st2' rfl hrtf hfs
                subst hst1
                simp only [hfs] at hok
                cases hcl : caps.links with
                | some jl =>
                    have hval : linksValidate jl = true := by
                      simpa [rtCaps, hcl] using hcaps
                    simp only [Model.caps, hcl, hval, if_true,
                      Except.ok.injEq, Prod.mk.injEq] at hok
                    obtain ⟨hn, hst⟩ := hok
                    constructor
                    · rw [← hn, hn1]
                      simp [specNode, applyMetaCap, effRoot, Model.caps, hcl]
                    · rw [← hst]
                      simp [incAfter, specIncNodes, effRoot]
                | none =>
                    simp only [Model.caps, hcl,
                      Except.ok.injEq, Prod.mk.injEq] at hok
                    obtain ⟨hn, hst⟩ := hok
                    constructor
                    · rw [← hn, hn1]
                      simp [specNode, applyMetaCap, effRoot, Model.caps, hcl]
                    · rw [← hst]
                      simp [incAfter, specIncNodes, effRoot]
      -- visitFields
      · intro st node fs node2 st2 hroot hrtf hok
        cases fs with
        | nil =>
            simp only [visitFields, Except.ok.injEq, Prod.mk.injEq] at hok
            obtain ⟨hn, hst⟩ := hok
            refine ⟨by rw [← hn]; rfl, ?_⟩
            rw [← hst]
            simp [specIncFields]
        | cons f rest =>
            obtain ⟨tag, v⟩ := f
            simp only [rtFields, Bool.and_eq_true] at hrtf
            obtain ⟨hrtF, hrtRest⟩ := hrtf
            have hhv : (hasTag (parseTag tag) = true)
                ∧ (validTag (parseTag tag) = true) := by
              have h0 := hrtF
              simp only [rtField, Bool.and_eq_true] at h0
              exact ⟨h0.1.1, h0.1.2⟩
            simp only [visitFields, Field.tag, Field.v, hhv.1, hhv.2,
              Bool.not_true] at hok
            cases hvf : visitField g st node (parseTag tag) v with
            | error e => simp [hvf] at hok
            | ok p =>
                obtain ⟨node1, st1⟩ := p
                obtain ⟨hn1, hst1⟩ := ihF st node tag v node1 st1 hroot hrtF hvf
                subst hst1
                simp only [hvf] at hok
                have hroot1 : (VState.mk (if st.sideload then
                    (specIncField st.root (Field.mk tag v)).foldl appendIncluded st.included
                    else st.included) st.sideload st.root).root.isSome = true := hroot
                obtain ⟨hn2, hst2⟩ := ihFS _ node1 rest node2 st2 hroot1 hrtRest hok
                constructor
                · rw [hn2, hn1]
                  rfl
                · rw [hst2]
                  cases hsl : st.sideload <;>
                    simp [specIncFields, hsl, List.foldl_append]
      -- visitField
      · intro st node tag v node2 st2 hroot hrtF hok
        have h0 := hrtF
        simp only [rtField, Field.tag, Field.v, Bool.and_eq_true] at h0
        obtain ⟨⟨hht, hvt⟩, hbr⟩ := h0
        by_cases hp : (tagType (parseTag tag) == annotationPrimary) = true
        · simp only [visitField, hp, if_true] at hok
          have hpe : tagType (parseTag tag) = annotationPrimary := by simpa using hp
          cases hpr : visitFieldTypePrimary node (parseTag tag) v with
          | error e => simp [hpr] at hok
          | ok n1 =>
              simp only [hpr, Except.ok.injEq, Prod.mk.injEq] at hok
              obtain ⟨hn, hst⟩ := hok
              constructor
              · rw [← hn]
                simp [specField, Field.tag, Field.v, hht, hp, hpr]
              · rw [← hst]
                simp +decide [specIncField, Field.tag, hpe, annotationPrimary,
                  annotationRelation]
        · have hpf : (tagType (parseTag tag) == annotationPrimary) = false := by
            simpa using hp
          by_cases hc : (tagType (parseTag tag) == annotationClientID) = true
          · have hce : tagType (parseTag tag) = annotationClientID := by simpa using hc
            simp only [visitField, hpf, hc, Bool.false_eq_true, if_false, if_true,
              Except.ok.injEq, Prod.mk.injEq] at hok
            obtain ⟨hn, hst⟩ := hok
            constructor
            · rw [← hn]
              simp [specField, Field.tag, Field.v, hht, hpf, hc]
            · rw [← hst]
              simp +decide [specIncField, Field.tag, hce, annotationClientID,
                annotationRelation]
          · have hcf : (tagType (parseTag tag) == annotationClientID) = false := by
              simpa using hc
            by_cases ha : (tagType (parseTag tag) == annotationAttribute) = true
            · have hae : tagType (parseTag tag) = annotationAttribute := by
                simpa using ha
              simp only [visitField, hpf, hcf, ha, Bool.false_eq_true, if_false,
                if_true, Except.ok.injEq, Prod.mk.injEq] at hok
              obtain ⟨hn, hst⟩ := hok
              constructor
              · rw [← hn]
                simp [specField, Field.tag, Field.v, hht, hpf, hcf, ha]
              · rw [← hst]
                simp +decide [specIncField, Field.tag, hae, annotationAttribute,
                  annotationRelation]
            · have haf : (tagType (parseTag tag) == annotationAttribute) = false := by
                simpa using ha
              by_cases hr : (tagType (parseTag tag) == annotationRelation) = true
              · have hre : tagType (parseTag tag) = annotationRelation := by
                  simpa using hr
                rw [if_neg (by simp [hpf]), if_neg (by simp [hcf]),
                  if_neg (by simp [haf]), if_pos (by simp [hre])] at hbr
                simp only [visitField, hpf, hcf, haf, hr, Bool.false_eq_true,
                  if_false, Bool.true_or, if_true] at hok
                obtain ⟨hn2, hst2⟩ := ihR st node (parseTag tag) v node2 st2
                  hroot hre hbr hok
                constructor
                · rw [hn2]
                  simp [specField, Field.tag, Field.v, hht, hpf, hcf, haf, hr]
                · rw [hst2]
                  simp [specIncField, Field.tag, hre, annotationRelation]
              · have hrf : (tagType (parseTag tag) == annotationRelation) = false := by
                  simpa using hr
                rw [if_neg (by simp [hpf]), if_neg (by simp [hcf]),
                  if_neg (by simp [haf]), if_neg (by simp [hrf])] at hbr
                simp at hbr
      -- visitFieldTypeRelation
      · intro st node parts v node2 st2 hroot hrel hrtv hok
        have hnp : (tagType parts == annotationPolyRelation) = false := by
          rw [hrel]; decide
        cases v with
        | ptr o =>
            cases o with
            | none =>
                by_cases hoe : (decide (2 < parts.length)
                    && (tagAt parts 2 == annotationOmitEmpty)) = true
                · simp only [visitFieldTypeRelation, hoe, fvalIsNil, if_true,
                    Option.isNone_none] at hok
                  cases hok
                  constructor
                  · simp [specRelField, omitEmptyOf, hoe]
                  · simp [specIncVal]
                · have hoef : (decide (2 < parts.length)
                      && (tagAt parts 2 == annotationOmitEmpty)) = false := by
                    simpa using hoe
                  simp only [visitFieldTypeRelation, hoef, hnp, fvalIsNil,
                    Bool.false_eq_true, if_false] at hok
                  cases hok
                  constructor
                  · simp [specRelField, omitEmptyOf, hoef]
                  · simp [specIncVal]
            | some c =>
                simp only [rtRelVal] at hrtv
                simp only [visitFieldTypeRelation, hnp, fvalIsNil,
                  Option.isNone_some, ite_self, Bool.false_eq_true,
                  if_false] at hok
                cases hv : visit g st c with
                | error e => simp [hv] at hok
                | ok p =>
                    obtain ⟨child, st1⟩ := p
                    obtain ⟨hn1, hst1⟩ := ihV st c child st1 hrtv hv
                    subst hst1
                    cases hsr : st.root with
                    | none => rw [hsr] at hroot; simp at hroot
                    | some r =>
                    have heff : effRoot st c = st.root := by
                      simp [effRoot, hsr]
                    rw [heff] at hn1
                    cases hsl : st.sideload with
                    | true =>
                        simp only [hv, hsl, emitToOne, if_true] at hok
                        cases hok
                        constructor
                        · rw [hn1]
                          simp [specRelField, hsl, hsr]
                        · rw [hn1]
                          simp [specIncVal, incAfter, heff, hsl, hsr,
                            List.foldl_append]
                    | false =>
                        simp only [hv, hsl, emitToOne, Bool.false_eq_true,
                          if_false] at hok
                        cases hok
                        constructor
                        · rw [hn1]
                          simp [specRelField, hsl, hsr]
                        · simp [specIncVal, incAfter, hsl, hsr]
        | slice ms =>
            simp only [rtRelVal, Bool.and_eq_true] at hrtv
            cases hms : ms with
            | nil =>
                subst hms
                by_cases hoe : (decide (2 < parts.length)
                    && (tagAt parts 2 == annotationOmitEmpty)) = true
                · have hlen0 : (decide (sliceLen
                      (FVal.slice ([] : List (Option Model))) < 1)) = true := rfl
                  simp only [visitFieldTypeRelation, hoe, hlen0, if_true] at hok
                  cases hok
                  constructor
                  · simp [specRelField, omitEmptyOf, hoe]
                  · simp [specIncVal, specIncElems, specIncTops]
                · have hoef : (decide (2 < parts.length)
                      && (tagAt parts 2 == annotationOmitEmpty)) = false := by
                    simpa using hoe
                  have homit : omitEmptyOf parts = false := hoef
                  simp only [visitFieldTypeRelation, hoef, hnp,
                    Bool.false_eq_true, if_false, if_true] at hok
                  cases hv : visitModelNodeRelationships g st ([] : List (Option Model)) with
                  | error e => simp [hv] at hok
                  | ok p =>
                      obtain ⟨nodes, st1⟩ := p
                      obtain ⟨hn1, hst1⟩ := ihM st ([] : List (Option Model)) nodes st1 hroot hrtv.1 hv
                      subst hst1
                      cases hsl : st.sideload with
                      | true =>
                          simp only [hv, hsl, emitToMany, if_true] at hok
                          cases hok
                          constructor
                          · rw [hn1]
                            simp [specRelField, homit, hsl, specIncTops_eq]
                          · rw [hn1]
                            simp [specIncVal, hsl, List.foldl_append,
                              specIncTops_eq]
                      | false =>
                          simp only [hv, hsl, emitToMany, Bool.false_eq_true,
                            if_false] at hok
                          cases hok
                          constructor
                          · rw [hn1]
                            simp [specRelField, homit, hsl]
                          · simp [specIncVal, hsl]
              | cons x ms0 =>
                subst hms
                have hlen : (decide (sliceLen (FVal.slice (x :: ms0)) < 1))
                    = false := by simp [sliceLen]
                have hoemsf : (omitEmptyOf parts
                    && decide ((x :: ms0).length < 1)) = false := by
                  simp [omitEmptyOf]
                by_cases hoe : (decide (2 < parts.length)
                    && (tagAt parts 2 == annotationOmitEmpty)) = true
                · simp only [visitFieldTypeRelation, hoe, hnp, hlen,
                    if_true, Bool.false_eq_true, if_false] at hok
                  cases hv : visitModelNodeRelationships g st (x :: ms0) with
                  | error e => simp [hv] at hok
                  | ok p =>
                      obtain ⟨nodes, st1⟩ := p
                      obtain ⟨hn1, hst1⟩ := ihM st (x :: ms0) nodes st1 hroot hrtv.1 hv
                      subst hst1
                      cases hsl : st.sideload with
                      | true =>
                          simp only [hv, hsl, emitToMany, if_true] at hok
                          cases hok
                          constructor
                          · rw [hn1]
                            simp [specRelField, hoemsf, hsl, specIncTops_eq]
                          · rw [hn1]
                            simp [specIncVal, hsl, List.foldl_append,
                              specIncTops_eq]
                      | false =>
                          simp only [hv, hsl, emitToMany, Bool.false_eq_true,
                            if_false] at hok
                          cases hok
                          constructor
                          · rw [hn1]
                            simp [specRelField, hoemsf, hsl]
                          · simp [specIncVal, hsl]
                · have hoef : (decide (2 < parts.length)
                      && (tagAt parts 2 == annotationOmitEmpty)) = false := by
                    simpa using hoe
                  simp only [visitFieldTypeRelation, hoef, hnp,
                    Bool.false_eq_true, if_false, if_true] at hok
                  cases hv : visitModelNodeRelationships g st (x :: ms0) with
                  | error e => simp [hv] at hok
                  | ok p =>
                      obtain ⟨nodes, st1⟩ := p
                      obtain ⟨hn1, hst1⟩ := ihM st (x :: ms0) nodes st1 hroot hrtv.1 hv
                      subst hst1
                      cases hsl : st.sideload with
                      | true =>
                          simp only [hv, hsl, emitToMany, if_true] at hok
                          cases hok
                          constructor
                          · rw [hn1]
                            simp [specRelField, hoemsf, hsl, specIncTops_eq]
                          · rw [hn1]
                            simp [specIncVal, hsl, List.foldl_append,
                              specIncTops_eq]
                      | false =>
                          simp only [hv, hsl, emitToMany, Bool.false_eq_true,
                            if_false] at hok
                          cases hok
                          constructor
                          · rw [hn1]
                            simp [specRelField, hoemsf, hsl]
                          · simp [specIncVal, hsl]
          | prim p => simp [rtRelVal] at hrtv
          | primPtr p => simp [rtRelVal] at hrtv
          | timeVal t0 => simp [rtRelVal] at hrtv
          | timePtr t0 => simp [rtRelVal] at hrtv
          | linksField => simp [rtRelVal] at hrtv
      -- visitModelNodeRelationships
      · intro st ms nodes st2 hroot hrtv hok
        cases ms with
        | nil =>
            simp only [visitModelNodeRelationships] at hok
            cases hok
            constructor
            · simp [specElems]
            · simp [specIncElems]
        | cons x rest =>
            cases x with
            | none => simp [rtElems] at hrtv
            | some m =>
                simp only [rtElems, Bool.and_eq_true] at hrtv
                obtain ⟨hm, hrest⟩ := hrtv
                simp only [visitModelNodeRelationships] at hok
                cases hv : visit g st m with
                | error e => simp [hv] at hok
                | ok p =>
                    obtain ⟨n, st1⟩ := p
                    obtain ⟨hn1, hst1⟩ := ihV st m n st1 hm hv
                    subst hst1
                    cases hsr : st.root with
                    | none => rw [hsr] at hroot; simp at hroot
                    | some r =>
                    have heff : effRoot st m = st.root := by
                      simp [effRoot, hsr]
                    rw [heff] at hn1
                    simp only [hv, heff] at hok
                    cases hrec : visitModelNodeRelationships g
                        { included := incAfter st st.root m,
                          sideload := st.sideload, root := st.root } rest with
                    | error e => simp [hrec] at hok
                    | ok q =>
                        obtain ⟨ns, st3⟩ := q
                        obtain ⟨hn2, hst2⟩ :=
                          ihM _ rest ns st3 (by simpa using hroot) hrest hrec
                        subst hst2
                        simp only [hrec] at hok
                        cases hok
                        constructor
                        · rw [hn1, hn2]
                          simp [specElems, hsr]
                        · cases hsl : st.sideload with
                          | true =>
                              simp [specIncElems, incAfter, hsl, hsr,
                                List.foldl_append]
                          | false =>
                              simp [specIncElems, incAfter, hsl, hsr]

end Jsonapi

namespace Jsonapi

/-! ## Round-trip development, part 1: node observations and map lemmas -/

@[simp] theorem id_withID (n : Node) (s : String) : (n.withID s).id = s := by
  cases n <;> rfl

@[simp] theorem ty_withID (n : Node) (s : String) : (n.withID s).ty = n.ty := by
  cases n <;> rfl

@[simp] theorem clientID_withID (n : Node) (s : String) :
    (n.withID s).clientID = n.clientID := by cases n <;> rfl

@[simp] theorem aLook_withID (n : Node) (s a : String) :
    aLook (n.withID s) a = aLook n a := by cases n <;> rfl

@[simp] theorem rLook_withID (n : Node) (s a : String) :
    rLook (n.withID s) a = rLook n a := by cases n <;> rfl

@[simp] theorem ty_withTy (n : Node) (s : String) : (n.withTy s).ty = s := by
  cases n <;> rfl

@[simp] theorem id_withTy (n : Node) (s : String) : (n.withTy s).id = n.id := by
  cases n <;> rfl

@[simp] theorem clientID_withTy (n : Node) (s : String) :
    (n.withTy s).clientID = n.clientID := by cases n <;> rfl

@[simp] theorem aLook_withTy (n : Node) (s a : String) :
    aLook (n.withTy s) a = aLook n a := by cases n <;> rfl

@[simp] theorem rLook_withTy (n : Node) (s a : String) :
    rLook (n.withTy s) a = rLook n a := by cases n <;> rfl

@[simp] theorem clientID_withClientID (n : Node) (s : String) :
    (n.withClientID s).clientID = s := by cases n <;> rfl

@[simp] theorem id_withClientID (n : Node) (s : String) :
    (n.withClientID s).id = n.id := by cases n <;> rfl

@[simp] theorem ty_withClientID (n : Node) (s : String) :
    (n.withClientID s).ty = n.ty := by cases n <;> rfl

@[simp] theorem aLook_withClientID (n : Node) (s a : String) :
    aLook (n.withClientID s) a = aLook n a := by cases n <;> rfl

@[simp] theorem rLook_withClientID (n : Node) (s a : String) :
    rLook (n.withClientID s) a = rLook n a := by cases n <;> rfl

@[simp] theorem id_ensureAttrs (n : Node) : n.ensureAttrs.id = n.id := by
  cases n with | mk t i c a r l m => cases a <;> rfl

@[simp] theorem ty_ensureAttrs (n : Node) : n.ensureAttrs.ty = n.ty := by
  cases n with | mk t i c a r l m => cases a <;> rfl

@[simp] theorem clientID_ensureAttrs (n : Node) :
    n.ensureAttrs.clientID = n.clientID := by
  cases n with | mk t i c a r l m => cases a <;> rfl

@[simp] theorem aLook_ensureAttrs (n : Node) (x : String) :
    aLook n.ensureAttrs x = aLook n x := by
  cases n with | mk t i c a r l m => cases a <;> rfl

@[simp] theorem rLook_ensureAttrs (n : Node) (x : String) :
    rLook n.ensureAttrs x = rLook n x := by
  cases n with | mk t i c a r l m => cases a <;> rfl

@[simp] theorem id_setAttr (n : Node) (k : String) (v : JVal) :
    (n.setAttr k v).id = n.id := by cases n <;> rfl

@[simp] theorem ty_setAttr (n : Node) (k : String) (v : JVal) :
    (n.setAttr k v).ty = n.ty := by cases n <;> rfl

@[simp] theorem clientID_setAttr (n : Node) (k : String) (v : JVal) :
    (n.setAttr k v).clientID = n.clientID := by cases n <;> rfl

@[simp] theorem rLook_setAttr (n : Node) (k : String) (v : JVal) (x : String) :
    rLook (n.setAttr k v) x = rLook n x := by cases n <;> rfl

@[simp] theorem id_setRel (n : Node) (k : String) (v : RelData) :
    (n.setRel k v).id = n.id := by cases n <;> rfl

@[simp] theorem ty_setRel (n : Node) (k : String) (v : RelData) :
    (n.setRel k v).ty = n.ty := by cases n <;> rfl

@[simp] theorem clientID_setRel (n : Node) (k : String) (v : RelData) :
    (n.setRel k v).clientID = n.clientID := by cases n <;> rfl

@[simp] theorem aLook_setRel (n : Node) (k : String) (v : RelData) (x : String) :
    aLook (n.setRel k v) x = aLook n x := by cases n <;> rfl

@[simp] theorem id_withLinks (n : Node) (l : Option LinksVal) :
    (n.withLinks l).id = n.id := by cases n <;> rfl

@[simp] theorem ty_withLinks (n : Node) (l : Option LinksVal) :
    (n.withLinks l).ty = n.ty := by cases n <;> rfl

@[simp] theorem clientID_withLinks (n : Node) (l : Option LinksVal) :
    (n.withLinks l).clientID = n.clientID := by cases n <;> rfl

@[simp] theorem aLook_withLinks (n : Node) (l : Option LinksVal) (x : String) :
    aLook (n.withLinks l) x = aLook n x := by cases n <;> rfl

@[simp] theorem rLook_withLinks (n : Node) (l : Option LinksVal) (x : String) :
    rLook (n.withLinks l) x = rLook n x := by cases n <;> rfl

@[simp] theorem id_withMeta (n : Node) (m : Option MetaVal) :
    (n.withMeta m).id = n.id := by cases n <;> rfl

@[simp] theorem ty_withMeta (n : Node) (m : Option MetaVal) :
    (n.withMeta m).ty = n.ty := by cases n <;> rfl

@[simp] theorem clientID_withMeta (n : Node) (m : Option MetaVal) :
    (n.withMeta m).clientID = n.clientID := by cases n <;> rfl

@[simp] theorem aLook_withMeta (n : Node) (m : Option MetaVal) (x : String) :
    aLook (n.withMeta m) x = aLook n x := by cases n <;> rfl

@[simp] theorem rLook_withMeta (n : Node) (m : Option MetaVal) (x : String) :
    rLook (n.withMeta m) x = rLook n x := by cases n <;> rfl

@[simp] theorem id_applyMetaCap (m : Model) (n : Node) :
    (applyMetaCap m n).id = n.id := by
  unfold applyMetaCap; cases m.caps.meta <;> simp

@[simp] theorem ty_applyMetaCap (m : Model) (n : Node) :
    (applyMetaCap m n).ty = n.ty := by
  unfold applyMetaCap; cases m.caps.meta <;> simp

@[simp] theorem clientID_applyMetaCap (m : Model) (n : Node) :
    (applyMetaCap m n).clientID = n.clientID := by
  unfold applyMetaCap; cases m.caps.meta <;> simp

@[simp] theorem aLook_applyMetaCap (m : Model) (n : Node) (x : String) :
    aLook (applyMetaCap m n) x = aLook n x := by
  unfold applyMetaCap; cases m.caps.meta <;> simp

@[simp] theorem rLook_applyMetaCap (m : Model) (n : Node) (x : String) :
    rLook (applyMetaCap m n) x = rLook n x := by
  unfold applyMetaCap; cases m.caps.meta <;> simp

theorem mapSet_lookup_self {α : Type} (m : List (String × α)) (k : String) (v : α) :
    (mapSet m k v).lookup k = some v := by
  induction m with
  | nil => simp [mapSet, List.lookup]
  | cons p rest ih =>
      obtain ⟨k2, v2⟩ := p
      by_cases h : (k2 == k) = true
      · simp [mapSet, h, List.lookup]
      · have hne : k ≠ k2 := fun he => h (by simp [he])
        simp [mapSet, h, List.lookup, beq_eq_false_iff_ne.mpr hne, ih]

theorem mapSet_lookup_ne {α : Type} (m : List (String × α)) (k a : String) (v : α)
    (hne : a ≠ k) : (mapSet m k v).lookup a = m.lookup a := by
  induction m with
  | nil => simp [mapSet, List.lookup, beq_eq_false_iff_ne.mpr hne]
  | cons p rest ih =>
      obtain ⟨k2, v2⟩ := p
      by_cases h : (k2 == k) = true
      · have hkk : k2 = k := eq_of_beq h
        subst hkk
        simp [mapSet, List.lookup, beq_eq_false_iff_ne.mpr hne]
      · cases hbeq : a == k2 with
        | true => simp [mapSet, h, List.lookup, hbeq]
        | false => simp [mapSet, h, List.lookup, hbeq, ih]

theorem aLook_setAttr_self (n : Node) (k : String) (v : JVal) :
    aLook (n.setAttr k v) k = some v := by
  cases n with
  | mk t i c a r l m => simp [Node.setAttr, aLook, Node.attributes, mapSet_lookup_self]

theorem aLook_setAttr_ne (n : Node) (k : String) (v : JVal) (x : String)
    (h : x ≠ k) : aLook (n.setAttr k v) x = aLook n x := by
  cases n with
  | mk t i c a r l m =>
      simp [Node.setAttr, aLook, Node.attributes, mapSet_lookup_ne _ _ _ _ h]

theorem rLook_setRel_self (n : Node) (k : String) (v : RelData) :
    rLook (n.setRel k v) k = some v := by
  cases n with
  | mk t i c a r l m =>
      simp [Node.setRel, rLook, Node.relationships, mapSet_lookup_self]

theorem rLook_setRel_ne (n : Node) (k : String) (v : RelData) (x : String)
    (h : x ≠ k) : rLook (n.setRel k v) x = rLook n x := by
  cases n with
  | mk t i c a r l m =>
      simp [Node.setRel, rLook, Node.relationships, mapSet_lookup_ne _ _ _ _ h]

theorem lookup_append_of_none {α : Type} (l1 l2 : List (String × α)) (k : String)
    (h : l1.lookup k = none) : (l1 ++ l2).lookup k = l2.lookup k := by
  induction l1 with
  | nil => simp
  | cons p rest ih =>
      obtain ⟨k2, v2⟩ := p
      cases hbeq : k == k2 with
      | true => simp [List.lookup, hbeq] at h
      | false =>
          simp only [List.lookup, hbeq] at h
          simpa [List.cons_append, List.lookup, hbeq] using ih h

theorem zeroPrim_idem (p : PrimVal) : zeroPrim (zeroPrim p) = zeroPrim p := by
  cases p <;> rfl

theorem goTime_eq_zero {t : GoTime} (h : t.isZero = true) : t = goTimeZero := by
  cases t with
  | mk u =>
      have hu : u = goTimeZeroUnix := by simpa [GoTime.isZero] using h
      simp [goTimeZero, hu]

theorem toShallowNode_of_id_ne (n : Node) (h : n.id ≠ "") :
    toShallowNode n = .mk n.ty n.id "" none none none none := by
  simp [toShallowNode, h]

end Jsonapi

namespace Jsonapi

/-! ## Round-trip development, part 2: the closed forms of one field step -/

/-! ## Decimal rendering and parsing

The formatters are `toString`; the parser is the spec-modelled base-10
parse.  `decDigits` is the digit list both sides agree on. -/

theorem digitChar_isDigit {d : Nat} (h : d < 10) :
    (Nat.digitChar d).isDigit = true := by
  interval_cases d <;> decide

theorem digitChar_toNat {d : Nat} (h : d < 10) :
    (Nat.digitChar d).toNat - 48 = d := by
  interval_cases d <;> decide

theorem decDigits_ne_nil (n : Nat) : decDigits n ≠ [] := by
  rw [decDigits]
  by_cases h : n < 10 <;> simp [h]

theorem decDigits_all_digit (n : Nat) :
    ∀ c ∈ decDigits n, c.isDigit = true := by
  induction n using Nat.strong_induction_on with
  | _ n ih =>
      rw [decDigits]
      by_cases h : n < 10
      · simp only [h, if_true]
        intro c hc
        simp at hc
        subst hc
        exact digitChar_isDigit h
      · simp only [h, if_false]
        intro c hc
        rcases List.mem_append.mp hc with h1 | h2
        · exact ih (n / 10) (Nat.div_lt_self (by omega) (by omega)) c h1
        · simp at h2
          subst h2
          exact digitChar_isDigit (Nat.mod_lt _ (by omega))

theorem decDigits_foldl (n : Nat) : ∀ a : Nat,
    (decDigits n).foldl (fun a c => a * 10 + (c.toNat - 48)) a
      = a * 10 ^ (decDigits n).length + n := by
  induction n using Nat.strong_induction_on with
  | _ n ih =>
      intro a
      rw [decDigits]
      by_cases h : n < 10
      · simp [h, digitChar_toNat h]
      · have hlt : n / 10 < n := Nat.div_lt_self (by omega) (by omega)
        simp only [h, if_false, List.foldl_append, List.foldl_cons,
          List.foldl_nil, List.length_append, List.length_cons,
          List.length_nil, Nat.zero_add]
        rw [ih (n / 10) hlt a, digitChar_toNat (Nat.mod_lt _ (by omega)),
          pow_succ, ← mul_assoc]
        generalize a * 10 ^ (decDigits (n / 10)).length = Q
        omega

theorem decDigits_value (n : Nat) : strDigitsToNat (decDigits n) = n := by
  have := decDigits_foldl n 0
  simpa [strDigitsToNat] using this

theorem parseUintChars_decDigits (n : Nat) :
    parseUintChars (decDigits n) = some n := by
  have hne : decDigits n ≠ [] := decDigits_ne_nil n
  have hall : (decDigits n).all Char.isDigit = true := by
    rw [List.all_eq_true]
    exact decDigits_all_digit n
  simp [parseUintChars, hne, hall, decDigits_value]

theorem toDigitsCore_eq_decDigits :
    ∀ (fuel n : Nat) (acc : List Char), n < fuel →
      Nat.toDigitsCore 10 fuel n acc = decDigits n ++ acc := by
  intro fuel
  induction fuel with
  | zero => intro n acc h; omega
  | succ f ih =>
      intro n acc h
      rw [Nat.toDigitsCore]
      by_cases h0 : n / 10 = 0
      · have h10 : n < 10 := by omega
        simp only [h0, if_true]
        rw [decDigits]
        simp [h10, Nat.mod_eq_of_lt h10]
      · have h10 : ¬ n < 10 := by omega
        simp only [h0, if_false]
        rw [ih (n / 10) _ (by omega)]
        conv_rhs => rw [decDigits]
        simp [h10]

theorem repr_data (n : Nat) : (Nat.repr n).data = decDigits n := by
  show Nat.toDigitsCore 10 (n + 1) n [] = decDigits n
  rw [toDigitsCore_eq_decDigits (n + 1) n [] (by omega)]
  simp

theorem formatUint_data (n : Nat) : (formatUint n).data = decDigits n :=
  repr_data n

theorem parse_formatUint (n : Nat) :
    parseUintChars (formatUint n).data = some n := by
  rw [formatUint_data]
  exact parseUintChars_decDigits n

theorem formatInt_data_ofNat (m : Nat) :
    (formatInt (Int.ofNat m)).data = decDigits m :=
  repr_data m

theorem formatInt_data_negSucc (m : Nat) :
    (formatInt (Int.negSucc m)).data = '-' :: decDigits (m + 1) := by
  show ('-' :: (Nat.repr (m + 1)).data) = _
  rw [repr_data]

theorem parse_formatInt (i : Int) :
    parseIntChars (formatInt i).data = some i := by
  cases i with
  | ofNat m =>
      rw [formatInt_data_ofNat m]
      rcases hd : decDigits m with _ | ⟨c, rest⟩
      · exact absurd hd (decDigits_ne_nil m)
      · have hdig : c.isDigit = true :=
          decDigits_all_digit m c (by rw [hd]; simp)
        have hc : ¬ c = '-' := by
          intro he
          subst he
          exact absurd hdig (by decide)
        rw [show parseIntChars (c :: rest)
              = (if c = '-' then (parseUintChars rest).map (fun v => -(v : Int))
                 else (parseUintChars (c :: rest)).map Int.ofNat) from rfl,
          if_neg hc, ← hd, parseUintChars_decDigits]
        rfl
  | negSucc m =>
      rw [formatInt_data_negSucc m]
      rw [show parseIntChars ('-' :: decDigits (m + 1))
            = (parseUintChars (decDigits (m + 1))).map (fun v => -(v : Int))
          from rfl, parseUintChars_decDigits]
      simp [Int.negSucc_eq]

theorem data_eq_nil_iff (s : String) : s.data = [] ↔ s = "" := by
  constructor
  · intro h
    cases s
    cases h
    rfl
  · intro h
    subst h
    rfl

theorem formatUint_ne_empty (n : Nat) : formatUint n ≠ "" := by
  intro h
  exact decDigits_ne_nil n (by rw [← formatUint_data, (data_eq_nil_iff _).mpr h])

theorem formatInt_ne_empty (i : Int) : formatInt i ≠ "" := by
  intro h
  cases i with
  | ofNat m =>
      exact decDigits_ne_nil m
        (by rw [← formatInt_data_ofNat, (data_eq_nil_iff _).mpr h])
  | negSucc m =>
      have := (data_eq_nil_iff (formatInt (Int.negSucc m))).mpr h
      rw [formatInt_data_negSucc] at this
      simp at this

theorem primIdStr_ne {v : FVal} (hv : rtPrimaryVal v = true) :
    primIdStr v ≠ "" := by
  cases v with
  | prim p =>
      cases p with
      | str s => simpa [rtPrimaryVal, primIdStr] using hv
      | intv k n => exact formatInt_ne_empty n
      | uintv k n => exact formatUint_ne_empty n
      | boolean b => simp [rtPrimaryVal] at hv
  | primPtr p =>
      cases p with
      | none => simp [rtPrimaryVal] at hv
      | some q =>
          cases q with
          | str s => simpa [rtPrimaryVal, primIdStr] using hv
          | intv k n => exact formatInt_ne_empty n
          | uintv k n => exact formatUint_ne_empty n
          | boolean b => simp [rtPrimaryVal] at hv
  | timeVal t => simp [rtPrimaryVal] at hv
  | timePtr t => simp [rtPrimaryVal] at hv
  | ptr o => simp [rtPrimaryVal] at hv
  | slice ms => simp [rtPrimaryVal] at hv
  | linksField => simp [rtPrimaryVal] at hv

theorem parsePrimary_int (k : SKind) (z n : Int) :
    parsePrimaryID (.intv k z) (formatInt n) = .ok (.intv k n) := by
  simp [parsePrimaryID, parse_formatInt]

theorem parsePrimary_uint (k : UKind) (z : Nat) (n : Nat) :
    parsePrimaryID (.uintv k z) (formatUint n) = .ok (.uintv k n) := by
  simp [parsePrimaryID, parse_formatUint]

/-! ## Structural equality: reflexivity and soundness -/

theorem beq_sound : ∀ fuel : Nat,
    (∀ m m2, beqM fuel m m2 = true → m = m2)
    ∧ (∀ fs fs2, beqFs fuel fs fs2 = true → fs = fs2)
    ∧ (∀ f f2, beqF fuel f f2 = true → f = f2)
    ∧ (∀ v v2, beqV fuel v v2 = true → v = v2)
    ∧ (∀ ms ms2, beqElems fuel ms ms2 = true → ms = ms2) := by
  intro fuel
  induction fuel with
  | zero =>
      refine ⟨?_, ?_, ?_, ?_, ?_⟩ <;> intro a b h <;>
        simp [beqM, beqFs, beqF, beqV, beqElems] at h
  | succ fuel ih =>
      obtain ⟨ihM, ihFS, ihF, ihV, ihE⟩ := ih
      refine ⟨?_, ?_, ?_, ?_, ?_⟩
      · intro m m2 h
        cases m with | mk fs c =>
        cases m2 with | mk fs2 c2 =>
        simp only [beqM, Bool.and_eq_true, beq_iff_eq] at h
        rw [ihFS fs fs2 h.1, h.2]
      · intro fs fs2 h
        cases fs with
        | nil =>
            cases fs2 with
            | nil => rfl
            | cons g t => simp [beqFs] at h
        | cons f r =>
            cases fs2 with
            | nil => simp [beqFs] at h
            | cons g t =>
                simp only [beqFs, Bool.and_eq_true] at h
                rw [ihF f g h.1, ihFS r t h.2]
      · intro f f2 h
        cases f with | mk t1 v1 =>
        cases f2 with | mk t2 v2 =>
        simp only [beqF, Bool.and_eq_true, beq_iff_eq] at h
        rw [h.1, ihV v1 v2 h.2]
      · intro v v2 h
        cases v with
        | prim p =>
            cases v2 with
            | prim q => simp only [beqV, beq_iff_eq] at h; rw [h]
            | primPtr q => simp [beqV] at h
            | timeVal b => simp [beqV] at h
            | timePtr b => simp [beqV] at h
            | ptr o => cases o <;> simp [beqV] at h
            | slice bs => simp [beqV] at h
            | linksField => simp [beqV] at h
        | primPtr p =>
            cases v2 with
            | prim q => simp [beqV] at h
            | primPtr q => simp only [beqV, beq_iff_eq] at h; rw [h]
            | timeVal b => simp [beqV] at h
            | timePtr b => simp [beqV] at h
            | ptr o => cases o <;> simp [beqV] at h
            | slice bs => simp [beqV] at h
            | linksField => simp [beqV] at h
        | timeVal a =>
            cases v2 with
            | prim q => simp [beqV] at h
            | primPtr q => simp [beqV] at h
            | timeVal b => simp only [beqV, beq_iff_eq] at h; rw [h]
            | timePtr b => simp [beqV] at h
            | ptr o => cases o <;> simp [beqV] at h
            | slice bs => simp [beqV] at h
            | linksField => simp [beqV] at h
        | timePtr a =>
            cases v2 with
            | prim q => simp [beqV] at h
            | primPtr q => simp [beqV] at h
            | timeVal b => simp [beqV] at h
            | timePtr b => simp only [beqV, beq_iff_eq] at h; rw [h]
            | ptr o => cases o <;> simp [beqV] at h
            | slice bs => simp [beqV] at h
            | linksField => simp [beqV] at h
        | ptr o =>
            cases o with
            | none =>
                cases v2 with
                | prim q => simp [beqV] at h
                | primPtr q => simp [beqV] at h
                | timeVal b => simp [beqV] at h
                | timePtr b => simp [beqV] at h
                | ptr o2 =>
                    cases o2 with
                    | none => rfl
                    | some b => simp [beqV] at h
                | slice bs => simp [beqV] at h
                | linksField => simp [beqV] at h
            | some a =>
                cases v2 with
                | prim q => simp [beqV] at h
                | primPtr q => simp [beqV] at h
                | timeVal b => simp [beqV] at h
                | timePtr b => simp [beqV] at h
                | ptr o2 =>
                    cases o2 with
                    | none => simp [beqV] at h
                    | some b =>
                        simp only [beqV] at h
                        rw [ihM a b h]
                | slice bs => simp [beqV] at h
                | linksField => simp [beqV] at h
        | slice as1 =>
            cases v2 with
            | prim q => simp [beqV] at h
            | primPtr q => simp [beqV] at h
            | timeVal b => simp [beqV] at h
            | timePtr b => simp [beqV] at h
            | ptr o => cases o <;> simp [beqV] at h
            | slice bs =>
                simp only [beqV] at h
                rw [ihE as1 bs h]
            | linksField => simp [beqV] at h
        | linksField =>
            cases v2 with
            | prim q => simp [beqV] at h
            | primPtr q => simp [beqV] at h
            | timeVal b => simp [beqV] at h
            | timePtr b => simp [beqV] at h
            | ptr o => cases o <;> simp [beqV] at h
            | slice bs => simp [beqV] at h
            | linksField => rfl
      · intro ms ms2 h
        cases ms with
        | nil =>
            cases ms2 with
            | nil => rfl
            | cons y t => simp [beqElems] at h
        | cons x r =>
            cases ms2 with
            | nil => cases x <;> simp [beqElems] at h
            | cons y t =>
                cases x with
                | none =>
                    cases y with
                    | none =>
                        simp only [beqElems] at h
                        rw [ihE r t h]
                    | some b => simp [beqElems] at h
                | some a =>
                    cases y with
                    | none => simp [beqElems] at h
                    | some b =>
                        simp only [beqElems, Bool.and_eq_true] at h
                        rw [ihM a b h.1, ihE r t h.2]

theorem beq_refl : ∀ fuel : Nat,
    (∀ m, sizeM m < fuel → beqM fuel m m = true)
    ∧ (∀ fs, sizeFs fs < fuel → beqFs fuel fs fs = true)
    ∧ (∀ f, sizeF f < fuel → beqF fuel f f = true)
    ∧ (∀ v, sizeV v < fuel → beqV fuel v v = true)
    ∧ (∀ ms, sizeElems ms < fuel → beqElems fuel ms ms = true) := by
  intro fuel
  induction fuel with
  | zero => refine ⟨?_, ?_, ?_, ?_, ?_⟩ <;> intro a h <;> omega
  | succ fuel ih =>
      obtain ⟨ihM, ihFS, ihF, ihV, ihE⟩ := ih
      refine ⟨?_, ?_, ?_, ?_, ?_⟩
      · intro m hm
        cases m with | mk fs c =>
        simp only [sizeM] at hm
        simp [beqM, ihFS fs (by omega)]
      · intro fs hfs
        cases fs with
        | nil => simp [beqFs]
        | cons f r =>
            simp only [sizeFs] at hfs
            simp [beqFs, ihF f (by omega), ihFS r (by omega)]
      · intro f hf
        cases f with | mk t v =>
        simp only [sizeF] at hf
        simp [beqF, ihV v (by omega)]
      · intro v hv
        cases v with
        | prim p => simp [beqV]
        | primPtr p => simp [beqV]
        | timeVal t => simp [beqV]
        | timePtr t => simp [beqV]
        | ptr o =>
            cases o with
            | none => simp [beqV]
            | some c =>
                simp only [sizeV] at hv
                simp [beqV, ihM c (by omega)]
        | slice ms =>
            simp only [sizeV] at hv
            simp [beqV, ihE ms (by omega)]
        | linksField => simp [beqV]
      · intro ms hms
        cases ms with
        | nil => simp [beqElems]
        | cons x r =>
            cases x with
            | none =>
                simp only [sizeElems] at hms
                simp [beqElems, ihE r (by omega)]
            | some c =>
                simp only [sizeElems] at hms
                simp [beqElems, ihM c (by omega), ihE r (by omega)]

theorem modelEq_refl (m : Model) : modelEq m m = true := by
  unfold modelEq
  exact (beq_refl (sizeM m + 1)).1 m (Nat.lt_succ_self _)

theorem modelEq_sound {a b : Model} (h : modelEq a b = true) : a = b := by
  unfold modelEq at h
  exact (beq_sound (sizeM a + 1)).1 a b h

theorem tmplsEq_sound {t : Model} {ms : List (Option Model)}
    (h : tmplsEq t ms = true) :
    ∀ d, some d ∈ ms → templateOf d = t := by
  induction ms with
  | nil => intro d hd; simp at hd
  | cons x rest ih =>
      intro d hd
      cases x with
      | none =>
          simp only [tmplsEq] at h
          rcases List.mem_cons.mp hd with h1 | h2
          · cases h1
          · exact ih h d h2
      | some c =>
          simp only [tmplsEq, Bool.and_eq_true] at h
          rcases List.mem_cons.mp hd with h1 | h2
          · obtain rfl : c = d := by
              injection h1 with h2
              exact h2.symm
            exact modelEq_sound h.1
          · exact ih h.2 d h2


theorem specField_primary (root : Option Model) (sl : Bool) (node : Node)
    (tag : String) (v : FVal)
    (ht : hasTag (parseTag tag) = true)
    (hp : tagType (parseTag tag) = annotationPrimary)
    (hv : rtPrimaryVal v = true) :
    specField root sl node (.mk tag v) =
      (node.withID (primIdStr v)).withTy (tagAt (parseTag tag) 1) := by
  match v, hv with
  | .prim (.str s), hv =>
      simp [specField, ht, hp, visitFieldTypePrimary, Node.withPrimary,
        primIdStr]
  | .prim (.intv k n), hv =>
      simp [specField, ht, hp, visitFieldTypePrimary, Node.withPrimary,
        primIdStr]
  | .prim (.uintv k n), hv =>
      simp [specField, ht, hp, visitFieldTypePrimary, Node.withPrimary,
        primIdStr]
  | .primPtr (some (.str s)), hv =>
      simp [specField, ht, hp, visitFieldTypePrimary, Node.withPrimary,
        primIdStr]
  | .primPtr (some (.intv k n)), hv =>
      simp [specField, ht, hp, visitFieldTypePrimary, Node.withPrimary,
        primIdStr]
  | .primPtr (some (.uintv k n)), hv =>
      simp [specField, ht, hp, visitFieldTypePrimary, Node.withPrimary,
        primIdStr]
  | .prim (.boolean b), hv => simp [rtPrimaryVal] at hv
  | .primPtr (some (.boolean b)), hv => simp [rtPrimaryVal] at hv
  | .primPtr none, hv => simp [rtPrimaryVal] at hv
  | .timeVal t, hv => simp [rtPrimaryVal] at hv
  | .timePtr t, hv => simp [rtPrimaryVal] at hv
  | .ptr o, hv => simp [rtPrimaryVal] at hv
  | .slice ms, hv => simp [rtPrimaryVal] at hv
  | .linksField, hv => simp [rtPrimaryVal] at hv

theorem specField_clientID (root : Option Model) (sl : Bool) (node : Node)
    (tag s : String)
    (ht : hasTag (parseTag tag) = true)
    (hc : tagType (parseTag tag) = annotationClientID) :
    specField root sl node (.mk tag (.prim (.str s))) =
      (if (s != "") = true then node.withClientID s else node) := by
  simp +decide [specField, ht, hc, visitFieldTypeClientID, fieldValueString,
    annotationPrimary, annotationClientID]

theorem specField_attr (root : Option Model) (sl : Bool) (node : Node)
    (tag : String) (v : FVal)
    (ht : hasTag (parseTag tag) = true)
    (ha : tagType (parseTag tag) = annotationAttribute) :
    specField root sl node (.mk tag v) =
      (match specAttrVal (parseTag tag) v with
       | some jv => (node.ensureAttrs).setAttr (tagAt (parseTag tag) 1) jv
       | none => node.ensureAttrs) := by
  have hstep : specField root sl node (.mk tag v) =
      visitFieldTypeAttribute node (parseTag tag) v := by
    simp +decide [specField, ht, ha,
      annotationPrimary, annotationClientID, annotationAttribute]
  rw [hstep]
  cases v with
  | prim p =>
      by_cases hz : ((parseAttrMods (parseTag tag)).omitEmpty
          && isZeroFVal (.prim p)) = true
      · simp [visitFieldTypeAttribute, specAttrVal, hz]
      · simp [visitFieldTypeAttribute, specAttrVal, hz]
  | timeVal t =>
      by_cases hz : t.isZero = true
      · simp [visitFieldTypeAttribute, specAttrVal, hz]
      · simp [visitFieldTypeAttribute, specAttrVal, hz]
  | primPtr p =>
      by_cases hz : ((parseAttrMods (parseTag tag)).omitEmpty
          && isZeroFVal (.primPtr p)) = true
      · simp [visitFieldTypeAttribute, specAttrVal, hz]
      · simp [visitFieldTypeAttribute, specAttrVal, hz]
  | timePtr o =>
      cases o with
      | none =>
          by_cases hz : (parseAttrMods (parseTag tag)).omitEmpty = true
          · simp [visitFieldTypeAttribute, specAttrVal, hz]
          · simp [visitFieldTypeAttribute, specAttrVal, hz]
      | some t =>
          by_cases hz : (t.isZero
              && (parseAttrMods (parseTag tag)).omitEmpty) = true
          · simp [visitFieldTypeAttribute, specAttrVal, hz]
          · simp [visitFieldTypeAttribute, specAttrVal, hz]
  | ptr o =>
      by_cases hz : ((parseAttrMods (parseTag tag)).omitEmpty
          && isZeroFVal (.ptr o)) = true
      · simp [visitFieldTypeAttribute, specAttrVal, hz]
      · simp [visitFieldTypeAttribute, specAttrVal, hz]
  | slice ms =>
      by_cases hz : ((parseAttrMods (parseTag tag)).omitEmpty
          && isZeroFVal (.slice ms)) = true
      · simp [visitFieldTypeAttribute, specAttrVal, hz]
      · simp [visitFieldTypeAttribute, specAttrVal, hz]
  | linksField =>
      by_cases hz : ((parseAttrMods (parseTag tag)).omitEmpty
          && isZeroFVal .linksField) = true
      · simp [visitFieldTypeAttribute, specAttrVal, hz]
      · simp [visitFieldTypeAttribute, specAttrVal, hz]

theorem specField_rel (root : Option Model) (node : Node)
    (tag : String) (v : FVal)
    (ht : hasTag (parseTag tag) = true)
    (hr : tagType (parseTag tag) = annotationRelation)
    (hv : rtRelVal v = true) :
    specField root true node (.mk tag v) =
      (match specRelOpt root (parseTag tag) v with
       | some rd => node.setRel (tagAt (parseTag tag) 1) rd
       | none => node) := by
  have hstep : specField root true node (.mk tag v) =
      specRelField root true node (parseTag tag) v := by
    simp +decide [specField, ht, hr,
      annotationPrimary, annotationClientID, annotationAttribute,
      annotationRelation]
  rw [hstep]
  cases v with
  | ptr o =>
      cases o with
      | none =>
          by_cases hoe : omitEmptyOf (parseTag tag) = true
          · simp [specRelField, specRelOpt, hoe]
          · simp [specRelField, specRelOpt, hoe]
      | some c => simp [specRelField, specRelOpt]
  | slice ms =>
      by_cases hoe : (omitEmptyOf (parseTag tag) && decide (ms.length < 1)) = true
      · simp [specRelField, specRelOpt, hoe]
      · simp [specRelField, specRelOpt, hoe]
  | prim p => simp [rtRelVal] at hv
  | primPtr p => simp [rtRelVal] at hv
  | timeVal t => simp [rtRelVal] at hv
  | timePtr t => simp [rtRelVal] at hv
  | linksField => simp [rtRelVal] at hv

end Jsonapi

namespace Jsonapi

/-! ## Round-trip development, part 3: what the field fold leaves intact -/

theorem attrNames_cons (tag : String) (v : FVal) (rest : List Field) :
    attrNames (.mk tag v :: rest) =
      (if (tagType (parseTag tag) == annotationAttribute) = true
       then tagAt (parseTag tag) 1 :: attrNames rest
       else attrNames rest) := by
  by_cases h : (tagType (parseTag tag) == annotationAttribute) = true
  · have h2 : tagType (parseTag tag) = annotationAttribute := eq_of_beq h
    simp [attrNames, List.filterMap_cons, Field.tag, h, h2]
  · have h2 : ¬ tagType (parseTag tag) = annotationAttribute := by
      intro he; exact h (by rw [he]; simp)
    simp [attrNames, List.filterMap_cons, Field.tag, h, h2]

theorem relNames_cons (tag : String) (v : FVal) (rest : List Field) :
    relNames (.mk tag v :: rest) =
      (if (tagType (parseTag tag) == annotationRelation) = true
       then tagAt (parseTag tag) 1 :: relNames rest
       else relNames rest) := by
  by_cases h : (tagType (parseTag tag) == annotationRelation) = true
  · have h2 : tagType (parseTag tag) = annotationRelation := eq_of_beq h
    simp [relNames, List.filterMap_cons, Field.tag, h, h2]
  · have h2 : ¬ tagType (parseTag tag) = annotationRelation := by
      intro he; exact h (by rw [he]; simp)
    simp [relNames, List.filterMap_cons, Field.tag, h, h2]

theorem countPrimary_cons (tag : String) (v : FVal) (rest : List Field) :
    (Field.mk tag v :: rest).countP (fun f => isPrimaryField f = true) =
      rest.countP (fun f => isPrimaryField f = true)
      + (if (tagType (parseTag tag) == annotationPrimary) = true then 1 else 0) := by
  by_cases h : (tagType (parseTag tag) == annotationPrimary) = true
  · have h2 : tagType (parseTag tag) = annotationPrimary := eq_of_beq h
    simp [List.countP_cons, isPrimaryField, Field.tag, h, h2]
  · have h2 : ¬ tagType (parseTag tag) = annotationPrimary := by
      intro he; exact h (by rw [he]; simp)
    simp [List.countP_cons, isPrimaryField, Field.tag, h, h2]

theorem countClientID_cons (tag : String) (v : FVal) (rest : List Field) :
    (Field.mk tag v :: rest).countP (fun f => isClientIDField f = true) =
      rest.countP (fun f => isClientIDField f = true)
      + (if (tagType (parseTag tag) == annotationClientID) = true then 1 else 0) := by
  by_cases h : (tagType (parseTag tag) == annotationClientID) = true
  · have h2 : tagType (parseTag tag) = annotationClientID := eq_of_beq h
    simp [List.countP_cons, isClientIDField, Field.tag, h, h2]
  · have h2 : ¬ tagType (parseTag tag) = annotationClientID := by
      intro he; exact h (by rw [he]; simp)
    simp [List.countP_cons, isClientIDField, Field.tag, h, h2]

theorem specFields_cons (root : Option Model) (sl : Bool) (node0 : Node)
    (f : Field) (rest : List Field) :
    specFields root sl node0 (f :: rest) =
      specFields root sl (specField root sl node0 f) rest := rfl

theorem specFields_frame (root : Option Model) :
    ∀ (fs : List Field) (node0 : Node), rtFields fs = true →
    ((∀ a, a ∉ attrNames fs →
        aLook (specFields root true node0 fs) a = aLook node0 a)
    ∧ (∀ x, x ∉ relNames fs →
        rLook (specFields root true node0 fs) x = rLook node0 x)
    ∧ (fs.countP (fun f => isPrimaryField f = true) = 0 →
        (specFields root true node0 fs).id = node0.id
        ∧ (specFields root true node0 fs).ty = node0.ty)
    ∧ (fs.countP (fun f => isClientIDField f = true) = 0 →
        (specFields root true node0 fs).clientID = node0.clientID)) := by
  intro fs
  induction fs with
  | nil =>
      intro node0 h
      simp [specFields, attrNames, relNames]
  | cons f rest ih =>
      intro node0 hrt
      obtain ⟨tag, v⟩ := f
      simp only [rtFields, Bool.and_eq_true] at hrt
      obtain ⟨hf, hrest⟩ := hrt
      simp only [rtField, Bool.and_eq_true] at hf
      obtain ⟨⟨ht, hvt⟩, hcond⟩ := hf
      by_cases hp : (tagType (parseTag tag) == annotationPrimary) = true
      · -- primary field: sets id and ty, touches nothing else
        have htp : tagType (parseTag tag) = annotationPrimary := eq_of_beq hp
        rw [if_pos hp] at hcond
        have hna : (tagType (parseTag tag) == annotationAttribute) = false := by
          rw [htp]; decide
        have hnr : (tagType (parseTag tag) == annotationRelation) = false := by
          rw [htp]; decide
        have hnc : (tagType (parseTag tag) == annotationClientID) = false := by
          rw [htp]; decide
        have hstep := specField_primary root true node0 tag v ht htp hcond
        refine ⟨?_, ?_, ?_, ?_⟩
        · intro a ha
          rw [attrNames_cons, hna] at ha
          simp only [Bool.false_eq_true, if_false] at ha
          rw [specFields_cons, hstep, (ih _ hrest).1 a ha]
          simp
        · intro x hx
          rw [relNames_cons, hnr] at hx
          simp only [Bool.false_eq_true, if_false] at hx
          rw [specFields_cons, hstep, (ih _ hrest).2.1 x hx]
          simp
        · intro h0
          rw [countPrimary_cons, hp] at h0
          simp at h0
        · intro h0
          rw [countClientID_cons, hnc] at h0
          simp only [Bool.false_eq_true, if_false, Nat.add_zero] at h0
          rw [specFields_cons, hstep, (ih _ hrest).2.2.2 h0]
          simp
      · rw [if_neg hp] at hcond
        have hpf : (tagType (parseTag tag) == annotationPrimary) = false := by
          simpa using hp
        by_cases hc : (tagType (parseTag tag) == annotationClientID) = true
        · -- client-id field: possibly sets the client id
          have htc : tagType (parseTag tag) = annotationClientID := eq_of_beq hc
          rw [if_pos hc] at hcond
          have hna : (tagType (parseTag tag) == annotationAttribute) = false := by
            rw [htc]; decide
          have hnr : (tagType (parseTag tag) == annotationRelation) = false := by
            rw [htc]; decide
          match v, hcond with
          | .prim (.str s), hcond =>
          have hstep := specField_clientID root true node0 tag s ht htc
          refine ⟨?_, ?_, ?_, ?_⟩
          · intro a ha
            rw [attrNames_cons, hna] at ha
            simp only [Bool.false_eq_true, if_false] at ha
            rw [specFields_cons, hstep]
            by_cases hs : (s != "") = true <;>
              simp [hs, (ih _ hrest).1 a ha]
          · intro x hx
            rw [relNames_cons, hnr] at hx
            simp only [Bool.false_eq_true, if_false] at hx
            rw [specFields_cons, hstep]
            by_cases hs : (s != "") = true <;>
              simp [hs, (ih _ hrest).2.1 x hx]
          · intro h0
            rw [countPrimary_cons, hpf] at h0
            simp only [Bool.false_eq_true, if_false, Nat.add_zero] at h0
            rw [specFields_cons, hstep]
            by_cases hs : (s != "") = true <;>
              simp [hs, (ih _ hrest).2.2.1 h0]
          · intro h0
            rw [countClientID_cons, hc] at h0
            simp at h0
        · rw [if_neg hc] at hcond
          have hcf : (tagType (parseTag tag) == annotationClientID) = false := by
            simpa using hc
          by_cases ha : (tagType (parseTag tag) == annotationAttribute) = true
          · -- attribute field: writes at most its own attribute key
            have hta : tagType (parseTag tag) = annotationAttribute := eq_of_beq ha
            rw [if_pos ha] at hcond
            have hnr : (tagType (parseTag tag) == annotationRelation) = false := by
              rw [hta]; decide
            have hstep := specField_attr root true node0 tag v ht hta
            refine ⟨?_, ?_, ?_, ?_⟩
            · intro a hax
              rw [attrNames_cons, ha] at hax
              simp only [if_true, List.mem_cons, not_or] at hax
              rw [specFields_cons, hstep, (ih _ hrest).1 a hax.2]
              cases hsv : specAttrVal (parseTag tag) v with
              | none => simp
              | some jv => simp [aLook_setAttr_ne _ _ _ _ hax.1]
            · intro x hx
              rw [relNames_cons, hnr] at hx
              simp only [Bool.false_eq_true, if_false] at hx
              rw [specFields_cons, hstep, (ih _ hrest).2.1 x hx]
              cases hsv : specAttrVal (parseTag tag) v with
              | none => simp
              | some jv => simp
            · intro h0
              rw [countPrimary_cons, hpf] at h0
              simp only [Bool.false_eq_true, if_false, Nat.add_zero] at h0
              have hih := (ih (specField root true node0 (.mk tag v)) hrest).2.2.1 h0
              rw [specFields_cons]
              refine ⟨?_, ?_⟩
              · rw [hih.1, hstep]
                cases hsv : specAttrVal (parseTag tag) v <;> simp
              · rw [hih.2, hstep]
                cases hsv : specAttrVal (parseTag tag) v <;> simp
            · intro h0
              rw [countClientID_cons, hcf] at h0
              simp only [Bool.false_eq_true, if_false, Nat.add_zero] at h0
              have hih := (ih (specField root true node0 (.mk tag v)) hrest).2.2.2 h0
              rw [specFields_cons, hih, hstep]
              cases hsv : specAttrVal (parseTag tag) v <;> simp
          · rw [if_neg ha] at hcond
            have haf : (tagType (parseTag tag) == annotationAttribute) = false := by
              simpa using ha
            by_cases hr : (tagType (parseTag tag) == annotationRelation) = true
            · -- relation field: writes at most its own relationship key
              have htr : tagType (parseTag tag) = annotationRelation := eq_of_beq hr
              rw [if_pos hr] at hcond
              have hstep := specField_rel root node0 tag v ht htr hcond
              refine ⟨?_, ?_, ?_, ?_⟩
              · intro a hax
                rw [attrNames_cons, haf] at hax
                simp only [Bool.false_eq_true, if_false] at hax
                rw [specFields_cons, hstep, (ih _ hrest).1 a hax]
                cases hsv : specRelOpt root (parseTag tag) v with
                | none => simp
                | some rd => simp
              · intro x hx
                rw [relNames_cons, hr] at hx
                simp only [if_true, List.mem_cons, not_or] at hx
                rw [specFields_cons, hstep, (ih _ hrest).2.1 x hx.2]
                cases hsv : specRelOpt root (parseTag tag) v with
                | none => simp
                | some rd => simp [rLook_setRel_ne _ _ _ _ hx.1]
              · intro h0
                rw [countPrimary_cons, hpf] at h0
                simp only [Bool.false_eq_true, if_false, Nat.add_zero] at h0
                have hih := (ih (specField root true node0 (.mk tag v)) hrest).2.2.1 h0
                rw [specFields_cons]
                refine ⟨?_, ?_⟩
                · rw [hih.1, hstep]
                  cases hsv : specRelOpt root (parseTag tag) v <;> simp
                · rw [hih.2, hstep]
                  cases hsv : specRelOpt root (parseTag tag) v <;> simp
              · intro h0
                rw [countClientID_cons, hcf] at h0
                simp only [Bool.false_eq_true, if_false, Nat.add_zero] at h0
                have hih := (ih (specField root true node0 (.mk tag v)) hrest).2.2.2 h0
                rw [specFields_cons, hih, hstep]
                cases hsv : specRelOpt root (parseTag tag) v <;> simp
            · rw [if_neg hr] at hcond
              simp at hcond

end Jsonapi

namespace Jsonapi

/-! ## Round-trip development, part 4: what the finished node holds -/

theorem not_mem_of_contains_false {l : List String} {s : String}
    (h : l.contains s = false) : s ∉ l := by
  simpa using h

theorem specFields_primary_read (root : Option Model) :
    ∀ (fs : List Field) (node0 : Node), rtFields fs = true →
    fs.countP (fun f => isPrimaryField f = true) = 1 →
    ∃ ty s, primaryOfFields fs = some (ty, s) ∧ s ≠ "" ∧
      (specFields root true node0 fs).id = s ∧
      (specFields root true node0 fs).ty = ty := by
  intro fs
  induction fs with
  | nil =>
      intro node0 h h1
      simp at h1
  | cons f rest ih =>
      intro node0 hrt h1
      obtain ⟨tag, v⟩ := f
      simp only [rtFields, Bool.and_eq_true] at hrt
      obtain ⟨hf, hrest⟩ := hrt
      simp only [rtField, Bool.and_eq_true] at hf
      obtain ⟨⟨ht, hvt⟩, hcond⟩ := hf
      by_cases hp : (tagType (parseTag tag) == annotationPrimary) = true
      · have htp : tagType (parseTag tag) = annotationPrimary := eq_of_beq hp
        rw [if_pos hp] at hcond
        have hsne : primIdStr v ≠ "" := primIdStr_ne hcond
        rw [countPrimary_cons, hp] at h1
        simp only [if_true] at h1
        have h0 : rest.countP (fun f => isPrimaryField f = true) = 0 := by omega
        have hstep := specField_primary root true node0 tag v ht htp hcond
        have hfr := (specFields_frame root rest
          ((node0.withID (primIdStr v)).withTy (tagAt (parseTag tag) 1))
          hrest).2.2.1 h0
        refine ⟨tagAt (parseTag tag) 1, primIdStr v, ?_, hsne, ?_, ?_⟩
        · simp [primaryOfFields, Field.tag, Field.v, hp, hcond]
        · rw [specFields_cons, hstep, hfr.1]
          simp
        · rw [specFields_cons, hstep, hfr.2]
          simp
      · have hpf : (tagType (parseTag tag) == annotationPrimary) = false := by
          simpa using hp
        rw [countPrimary_cons, hpf] at h1
        simp only [Bool.false_eq_true, if_false, Nat.add_zero] at h1
        obtain ⟨ty, s, hpo, hsne, hid, hty⟩ :=
          ih (specField root true node0 (.mk tag v)) hrest h1
        refine ⟨ty, s, ?_, hsne, ?_, ?_⟩
        · simp [primaryOfFields, Field.tag, hpf, hpo]
        · rw [specFields_cons]
          exact hid
        · rw [specFields_cons]
          exact hty

theorem specFields_read (root : Option Model) :
    ∀ (fs : List Field) (node0 : Node), rtFields fs = true →
    distinctStrs (attrNames fs) = true →
    distinctStrs (relNames fs) = true →
    fs.countP (fun f => isPrimaryField f = true) ≤ 1 →
    fs.countP (fun f => isClientIDField f = true) ≤ 1 →
    (∀ a ∈ attrNames fs, aLook node0 a = none) →
    (∀ x ∈ relNames fs, rLook node0 x = none) →
    (0 < fs.countP (fun f => isClientIDField f = true) → node0.clientID = "") →
    readsOK root (specFields root true node0 fs) fs := by
  intro fs
  induction fs with
  | nil =>
      intro node0 _ _ _ _ _ _ _ _
      simp [readsOK]
  | cons f rest ih =>
      intro node0 hrt hda hdr hcp hcc hA hR hcid
      obtain ⟨tag, v⟩ := f
      simp only [rtFields, Bool.and_eq_true] at hrt
      obtain ⟨hf, hrest⟩ := hrt
      simp only [rtField, Bool.and_eq_true] at hf
      obtain ⟨⟨ht, hvt⟩, hcond⟩ := hf
      simp only [readsOK]
      by_cases hp : (tagType (parseTag tag) == annotationPrimary) = true
      · -- primary head
        have htp : tagType (parseTag tag) = annotationPrimary := eq_of_beq hp
        rw [if_pos hp] at hcond
        have hna : (tagType (parseTag tag) == annotationAttribute) = false := by
          rw [htp]; decide
        have hnr : (tagType (parseTag tag) == annotationRelation) = false := by
          rw [htp]; decide
        have hnc : (tagType (parseTag tag) == annotationClientID) = false := by
          rw [htp]; decide
        rw [countPrimary_cons, hp] at hcp
        simp only [if_true] at hcp
        have h0 : rest.countP (fun f => isPrimaryField f = true) = 0 := by omega
        have hstep := specField_primary root true node0 tag v ht htp hcond
        have hfr := (specFields_frame root rest
          ((node0.withID (primIdStr v)).withTy (tagAt (parseTag tag) 1))
          hrest).2.2.1 h0
        rw [attrNames_cons, hna] at hda hA
        rw [relNames_cons, hnr] at hdr hR
        rw [countClientID_cons, hnc] at hcc hcid
        simp only [Bool.false_eq_true, if_false, Nat.add_zero] at hda hdr hA hR hcc hcid
        constructor
        · -- head condition: the finished id renders the primary value
          simp only [readOK1, Field.tag, Field.v, hp, if_true]
          intro _
          rw [specFields_cons, hstep, hfr.1]
          simp
        · rw [specFields_cons, hstep]
          exact ih _ hrest hda hdr (by omega) hcc
            (by intro a hax; simpa using hA a hax)
            (by intro x hx; simpa using hR x hx)
            (by intro hpos; simpa using hcid hpos)
      · have hpf : (tagType (parseTag tag) == annotationPrimary) = false := by
          simpa using hp
        rw [if_neg hp] at hcond
        by_cases hc : (tagType (parseTag tag) == annotationClientID) = true
        · -- client-id head
          have htc : tagType (parseTag tag) = annotationClientID := eq_of_beq hc
          rw [if_pos hc] at hcond
          have hna : (tagType (parseTag tag) == annotationAttribute) = false := by
            rw [htc]; decide
          have hnr : (tagType (parseTag tag) == annotationRelation) = false := by
            rw [htc]; decide
          match v, hcond with
          | .prim (.str s), hcond =>
          rw [countClientID_cons, hc] at hcc hcid
          simp only [if_true] at hcc hcid
          have h0 : rest.countP (fun f => isClientIDField f = true) = 0 := by omega
          have hstep := specField_clientID root true node0 tag s ht htc
          have hzero : node0.clientID = "" := hcid (by omega)
          rw [attrNames_cons, hna] at hda hA
          rw [relNames_cons, hnr] at hdr hR
          rw [countPrimary_cons, hpf] at hcp
          simp only [Bool.false_eq_true, if_false, Nat.add_zero] at hda hdr hA hR hcp
          have hcli : (if (s != "") = true then node0.withClientID s
              else node0).clientID = s := by
            by_cases hs : (s != "") = true
            · simp [hs]
            · have : s = "" := by simpa using hs
              simp [hs, hzero, this]
          constructor
          · simp only [readOK1, Field.tag, Field.v, hpf, Bool.false_eq_true,
              if_false, hc, if_true]
            have hfr := (specFields_frame root rest
              (if (s != "") = true then node0.withClientID s else node0)
              hrest).2.2.2 h0
            rw [specFields_cons, hstep, hfr, hcli]
          · rw [specFields_cons, hstep]
            refine ih _ hrest hda hdr hcp (by omega) ?_ ?_ (by omega)
            · intro a hax
              by_cases hs : (s != "") = true <;> simpa [hs] using hA a hax
            · intro x hx
              by_cases hs : (s != "") = true <;> simpa [hs] using hR x hx
        · have hcf : (tagType (parseTag tag) == annotationClientID) = false := by
            simpa using hc
          rw [if_neg hc] at hcond
          by_cases ha : (tagType (parseTag tag) == annotationAttribute) = true
          · -- attribute head
            have hta : tagType (parseTag tag) = annotationAttribute := eq_of_beq ha
            rw [if_pos ha] at hcond
            have hnr : (tagType (parseTag tag) == annotationRelation) = false := by
              rw [hta]; decide
            have hstep := specField_attr root true node0 tag v ht hta
            rw [attrNames_cons, ha] at hda hA
            simp only [if_true] at hda hA
            rw [relNames_cons, hnr] at hdr hR
            rw [countPrimary_cons, hpf] at hcp
            rw [countClientID_cons, hcf] at hcc hcid
            simp only [Bool.false_eq_true, if_false, Nat.add_zero]
              at hdr hR hcp hcc hcid
            simp only [distinctStrs, Bool.and_eq_true] at hda
            obtain ⟨hnm, hda2⟩ := hda
            have hnotmem : tagAt (parseTag tag) 1 ∉ attrNames rest :=
              not_mem_of_contains_false (by simpa using hnm)
            have hself : aLook (specField root true node0 (.mk tag v))
                (tagAt (parseTag tag) 1) = specAttrVal (parseTag tag) v := by
              rw [hstep]
              cases hsv : specAttrVal (parseTag tag) v with
              | none =>
                  simp only []
                  rw [aLook_ensureAttrs]
                  exact hA _ (by simp)
              | some jv => simp [aLook_setAttr_self]
            constructor
            · simp only [readOK1, Field.tag, Field.v, hpf, hcf,
                Bool.false_eq_true, if_false, ha, if_true]
              have hfr := (specFields_frame root rest
                (specField root true node0 (.mk tag v)) hrest).1
                (tagAt (parseTag tag) 1) hnotmem
              rw [specFields_cons, hfr, hself]
            · rw [specFields_cons]
              have hcli1 : (specField root true node0 (.mk tag v)).clientID
                  = node0.clientID := by
                rw [hstep]
                cases hsv : specAttrVal (parseTag tag) v <;> simp
              refine ih _ hrest hda2 hdr hcp hcc ?_ ?_
                (by intro hpos; rw [hcli1]; exact hcid hpos)
              · intro a hax
                have hane : a ≠ tagAt (parseTag tag) 1 := by
                  intro he
                  rw [he] at hax
                  exact hnotmem hax
                rw [hstep]
                cases hsv : specAttrVal (parseTag tag) v with
                | none =>
                    simp only []
                    rw [aLook_ensureAttrs]
                    exact hA a (List.mem_cons_of_mem _ hax)
                | some jv =>
                    simp only []
                    rw [aLook_setAttr_ne _ _ _ _ hane, aLook_ensureAttrs]
                    exact hA a (List.mem_cons_of_mem _ hax)
              · intro x hx
                rw [hstep]
                cases hsv : specAttrVal (parseTag tag) v with
                | none =>
                    simp only []
                    rw [rLook_ensureAttrs]
                    exact hR x hx
                | some jv =>
                    simp only []
                    rw [rLook_setAttr, rLook_ensureAttrs]
                    exact hR x hx
          · have haf : (tagType (parseTag tag) == annotationAttribute) = false := by
              simpa using ha
            rw [if_neg ha] at hcond
            by_cases hr : (tagType (parseTag tag) == annotationRelation) = true
            · -- relation head
              have htr : tagType (parseTag tag) = annotationRelation := eq_of_beq hr
              rw [if_pos hr] at hcond
              have hstep := specField_rel root node0 tag v ht htr hcond
              rw [attrNames_cons, haf] at hda hA
              rw [relNames_cons, hr] at hdr hR
              simp only [if_true] at hdr hR
              rw [countPrimary_cons, hpf] at hcp
              rw [countClientID_cons, hcf] at hcc hcid
              simp only [Bool.false_eq_true, if_false, Nat.add_zero]
                at hda hA hcp hcc hcid
              simp only [distinctStrs, Bool.and_eq_true] at hdr
              obtain ⟨hnm, hdr2⟩ := hdr
              have hnotmem : tagAt (parseTag tag) 1 ∉ relNames rest :=
                not_mem_of_contains_false (by simpa using hnm)
              have hself : rLook (specField root true node0 (.mk tag v))
                  (tagAt (parseTag tag) 1) = specRelOpt root (parseTag tag) v := by
                rw [hstep]
                cases hsv : specRelOpt root (parseTag tag) v with
                | none =>
                    simp only []
                    exact hR _ (by simp)
                | some rd => simp [rLook_setRel_self]
              constructor
              · simp only [readOK1, Field.tag, Field.v, hpf, hcf, haf,
                  Bool.false_eq_true, if_false, hr, if_true]
                have hfr := (specFields_frame root rest
                  (specField root true node0 (.mk tag v)) hrest).2.1
                  (tagAt (parseTag tag) 1) hnotmem
                rw [specFields_cons, hfr, hself]
              · rw [specFields_cons]
                have hcli1 : (specField root true node0 (.mk tag v)).clientID
                    = node0.clientID := by
                  rw [hstep]
                  cases hsv : specRelOpt root (parseTag tag) v <;> simp
                refine ih _ hrest hda hdr2 hcp hcc ?_ ?_
                  (by intro hpos; rw [hcli1]; exact hcid hpos)
                · intro a hax
                  rw [hstep]
                  cases hsv : specRelOpt root (parseTag tag) v with
                  | none =>
                      simp only []
                      exact hA a hax
                  | some rd =>
                      simp only []
                      rw [aLook_setRel]
                      exact hA a hax
                · intro x hx
                  have hxne : x ≠ tagAt (parseTag tag) 1 := by
                    intro he
                    rw [he] at hx
                    exact hnotmem hx
                  rw [hstep]
                  cases hsv : specRelOpt root (parseTag tag) v with
                  | none =>
                      simp only []
                      exact hR x (List.mem_cons_of_mem _ hx)
                  | some rd =>
                      simp only []
                      rw [rLook_setRel_ne _ _ _ _ hxne]
                      exact hR x (List.mem_cons_of_mem _ hx)
            · rw [if_neg hr] at hcond
              simp at hcond

end Jsonapi

namespace Jsonapi

/-! ## Round-trip development, part 5: descendants of a round-trippable
model -/

theorem specInc_desc (root : Option Model) : ∀ k : Nat,
    (∀ m, sizeM m ≤ k →
        specIncNodes root m = (descM m).map (specNode root true))
    ∧ (∀ fs, sizeFs fs ≤ k →
        specIncFields root fs = (descFields fs).map (specNode root true))
    ∧ (∀ f, sizeF f ≤ k →
        specIncField root f = (descField f).map (specNode root true))
    ∧ (∀ v, sizeV v ≤ k →
        specIncVal root v = (descVal v).map (specNode root true))
    ∧ (∀ ms, sizeElems ms ≤ k →
        specIncElems root ms = (descElems ms).map (specNode root true)
        ∧ specIncTops root ms = (topElems ms).map (specNode root true)) := by
  intro k
  induction k with
  | zero =>
      refine ⟨?_, ?_, ?_, ?_, ?_⟩
      · intro m hm
        obtain ⟨fs, caps⟩ := m
        simp [sizeM] at hm
      · intro fs hfs
        cases fs with
        | nil => simp [specIncFields, descFields]
        | cons f rest => simp [sizeFs] at hfs
      · intro f hf
        obtain ⟨tag, v⟩ := f
        simp [sizeF] at hf
      · intro v hv
        cases v with
        | ptr o => cases o <;> simp [sizeV] at hv
        | slice ms => simp [sizeV] at hv
        | prim p => simp [sizeV] at hv
        | primPtr p => simp [sizeV] at hv
        | timeVal t => simp [sizeV] at hv
        | timePtr t => simp [sizeV] at hv
        | linksField => simp [sizeV] at hv
      · intro ms hms
        cases ms with
        | nil => simp [specIncElems, specIncTops, descElems, topElems]
        | cons x rest => cases x <;> simp [sizeElems] at hms
  | succ k ih =>
      obtain ⟨ihM, ihFS, ihF, ihV, ihE⟩ := ih
      refine ⟨?_, ?_, ?_, ?_, ?_⟩
      · intro m hm
        obtain ⟨fs, caps⟩ := m
        simp only [sizeM] at hm
        rw [show specIncNodes root (.mk fs caps) = specIncFields root fs from rfl,
            show descM (.mk fs caps) = descFields fs from rfl]
        exact ihFS fs (by omega)
      · intro fs hfs
        cases fs with
        | nil => simp [specIncFields, descFields]
        | cons f rest =>
            simp only [sizeFs] at hfs
            rw [show specIncFields root (f :: rest)
                  = specIncField root f ++ specIncFields root rest from rfl,
                show descFields (f :: rest) = descField f ++ descFields rest
                  from rfl, List.map_append,
                ihF f (by omega), ihFS rest (by omega)]
      · intro f hf
        obtain ⟨tag, v⟩ := f
        simp only [sizeF] at hf
        by_cases hr : (tagType (parseTag tag) == annotationRelation) = true
        · rw [show specIncField root (.mk tag v)
                = if tagType (parseTag tag) == annotationRelation
                  then specIncVal root v else [] from rfl,
              show descField (.mk tag v)
                = if tagType (parseTag tag) == annotationRelation
                  then descVal v else [] from rfl, if_pos hr, if_pos hr]
          exact ihV v (by omega)
        · rw [show specIncField root (.mk tag v)
                = if tagType (parseTag tag) == annotationRelation
                  then specIncVal root v else [] from rfl,
              show descField (.mk tag v)
                = if tagType (parseTag tag) == annotationRelation
                  then descVal v else [] from rfl, if_neg hr, if_neg hr]
          simp
      · intro v hv
        cases v with
        | ptr o =>
            cases o with
            | none => simp [specIncVal, descVal]
            | some c =>
                simp only [sizeV] at hv
                rw [show specIncVal root (.ptr (some c))
                      = specIncNodes root c ++ [specNode root true c] from rfl,
                    show descVal (.ptr (some c)) = descM c ++ [c] from rfl,
                    List.map_append, ihM c (by omega)]
                rfl
        | slice ms =>
            simp only [sizeV] at hv
            have := ihE ms (by omega)
            rw [show specIncVal root (.slice ms)
                  = specIncElems root ms ++ specIncTops root ms from rfl,
                show descVal (.slice ms) = descElems ms ++ topElems ms from rfl,
                List.map_append, this.1, this.2]
        | prim p => simp [specIncVal, descVal]
        | primPtr p => simp [specIncVal, descVal]
        | timeVal t => simp [specIncVal, descVal]
        | timePtr t => simp [specIncVal, descVal]
        | linksField => simp [specIncVal, descVal]
      · intro ms hms
        cases ms with
        | nil => simp [specIncElems, specIncTops, descElems, topElems]
        | cons x rest =>
            cases x with
            | none =>
                simp only [sizeElems] at hms
                have := ihE rest (by omega)
                rw [show specIncElems root (none :: rest)
                      = specIncElems root rest from rfl,
                    show specIncTops root (none :: rest)
                      = specIncTops root rest from rfl,
                    show descElems (none :: rest) = descElems rest from rfl,
                    show topElems (none :: rest) = topElems rest from rfl]
                exact this
            | some c =>
                simp only [sizeElems] at hms
                have hE := ihE rest (by omega)
                constructor
                · rw [show specIncElems root (some c :: rest)
                        = specIncNodes root c ++ specIncElems root rest from rfl,
                      show descElems (some c :: rest) = descM c ++ descElems rest
                        from rfl,
                      List.map_append, ihM c (by omega), hE.1]
                · rw [show specIncTops root (some c :: rest)
                        = specNode root true c :: specIncTops root rest from rfl,
                      show topElems (some c :: rest) = c :: topElems rest from rfl,
                      List.map_cons, hE.2]

theorem desc_rt : ∀ k : Nat,
    (∀ m, sizeM m ≤ k → rtModel m = true → ∀ c ∈ descM m, rtModel c = true)
    ∧ (∀ fs, sizeFs fs ≤ k → rtFields fs = true →
        ∀ c ∈ descFields fs, rtModel c = true)
    ∧ (∀ f, sizeF f ≤ k → rtField f = true →
        ∀ c ∈ descField f, rtModel c = true)
    ∧ (∀ v, sizeV v ≤ k → rtRelVal v = true → ∀ c ∈ descVal v, rtModel c = true)
    ∧ (∀ ms, sizeElems ms ≤ k → rtElems ms = true →
        ∀ c ∈ descElems ms ++ topElems ms, rtModel c = true) := by
  intro k
  induction k with
  | zero =>
      refine ⟨?_, ?_, ?_, ?_, ?_⟩
      · intro m hm
        obtain ⟨fs, caps⟩ := m
        simp [sizeM] at hm
      · intro fs hfs
        cases fs with
        | nil => simp [descFields]
        | cons f rest => simp [sizeFs] at hfs
      · intro f hf
        obtain ⟨tag, v⟩ := f
        simp [sizeF] at hf
      · intro v hv
        cases v with
        | ptr o => cases o <;> simp [sizeV] at hv
        | slice ms => simp [sizeV] at hv
        | prim p => simp [sizeV] at hv
        | primPtr p => simp [sizeV] at hv
        | timeVal t => simp [sizeV] at hv
        | timePtr t => simp [sizeV] at hv
        | linksField => simp [sizeV] at hv
      · intro ms hms
        cases ms with
        | nil => simp [descElems, topElems]
        | cons x rest => cases x <;> simp [sizeElems] at hms
  | succ k ih =>
      obtain ⟨ihM, ihFS, ihF, ihV, ihE⟩ := ih
      refine ⟨?_, ?_, ?_, ?_, ?_⟩
      · intro m hm hrt c hc
        obtain ⟨fs, caps⟩ := m
        simp only [sizeM] at hm
        simp only [rtModel, Bool.and_eq_true] at hrt
        exact ihFS fs (by omega) hrt.2 c hc
      · intro fs hfs hrt c hc
        cases fs with
        | nil => simp [descFields] at hc
        | cons f rest =>
            simp only [sizeFs] at hfs
            simp only [rtFields, Bool.and_eq_true] at hrt
            rw [show descFields (f :: rest) = descField f ++ descFields rest
                  from rfl] at hc
            rcases List.mem_append.mp hc with h1 | h2
            · exact ihF f (by omega) hrt.1 c h1
            · exact ihFS rest (by omega) hrt.2 c h2
      · intro f hf hrt c hc
        obtain ⟨tag, v⟩ := f
        simp only [sizeF] at hf
        by_cases hr : (tagType (parseTag tag) == annotationRelation) = true
        · have htr : tagType (parseTag tag) = annotationRelation := eq_of_beq hr
          have hpf : (tagType (parseTag tag) == annotationPrimary) = false := by
            rw [htr]; decide
          have hcf : (tagType (parseTag tag) == annotationClientID) = false := by
            rw [htr]; decide
          have haf : (tagType (parseTag tag) == annotationAttribute) = false := by
            rw [htr]; decide
          simp only [rtField, Bool.and_eq_true, hpf, hcf, haf, hr,
            Bool.false_eq_true, if_false, if_true] at hrt
          rw [show descField (.mk tag v)
                = if tagType (parseTag tag) == annotationRelation
                  then descVal v else [] from rfl, if_pos hr] at hc
          exact ihV v (by omega) hrt.2 c hc
        · rw [show descField (.mk tag v)
                = if tagType (parseTag tag) == annotationRelation
                  then descVal v else [] from rfl, if_neg hr] at hc
          simp at hc
      · intro v hv hrt c hc
        cases v with
        | ptr o =>
            cases o with
            | none => simp [descVal] at hc
            | some c2 =>
                simp only [sizeV] at hv
                simp only [rtRelVal] at hrt
                rw [show descVal (.ptr (some c2)) = descM c2 ++ [c2] from rfl] at hc
                rcases List.mem_append.mp hc with h1 | h2
                · exact ihM c2 (by omega) hrt c h1
                · rw [List.mem_singleton.mp h2]
                  exact hrt
        | slice ms =>
            simp only [sizeV] at hv
            simp only [rtRelVal, Bool.and_eq_true] at hrt
            rw [show descVal (.slice ms) = descElems ms ++ topElems ms
                  from rfl] at hc
            exact ihE ms (by omega) hrt.1 c hc
        | prim p => simp [rtRelVal] at hrt
        | primPtr p => simp [rtRelVal] at hrt
        | timeVal t => simp [rtRelVal] at hrt
        | timePtr t => simp [rtRelVal] at hrt
        | linksField => simp [rtRelVal] at hrt
      · intro ms hms hrt c hc
        cases ms with
        | nil => simp [descElems, topElems] at hc
        | cons x rest =>
            cases x with
            | none => simp [rtElems] at hrt
            | some c2 =>
                simp only [sizeElems] at hms
                simp only [rtElems, Bool.and_eq_true] at hrt
                rw [show descElems (some c2 :: rest)
                      = descM c2 ++ descElems rest from rfl,
                    show topElems (some c2 :: rest) = c2 :: topElems rest
                      from rfl] at hc
                rcases List.mem_append.mp hc with h1 | h2
                · rcases List.mem_append.mp h1 with h3 | h4
                  · exact ihM c2 (by omega) hrt.1 c h3
                  · exact ihE rest (by omega) hrt.2 c
                      (List.mem_append.mpr (Or.inl h4))
                · rcases List.mem_cons.mp h2 with h5 | h6
                  · rw [h5]
                    exact hrt.1
                  · exact ihE rest (by omega) hrt.2 c
                      (List.mem_append.mpr (Or.inr h6))

end Jsonapi

namespace Jsonapi

/-! ## Round-trip development, part 6: the finished node of a
round-trippable model -/

theorem specNode_core (root : Option Model) (fs : List Field) (caps : Caps) :
    (specNode root true (.mk fs caps)).id
        = (specFields root true emptyNode fs).id
    ∧ (specNode root true (.mk fs caps)).ty
        = (specFields root true emptyNode fs).ty
    ∧ (specNode root true (.mk fs caps)).clientID
        = (specFields root true emptyNode fs).clientID
    ∧ (∀ a, aLook (specNode root true (.mk fs caps)) a
        = aLook (specFields root true emptyNode fs) a)
    ∧ (∀ x, rLook (specNode root true (.mk fs caps)) x
        = rLook (specFields root true emptyNode fs) x) := by
  simp only [specNode]
  cases caps.links <;> cases caps.meta <;>
    exact ⟨by simp, by simp, by simp, by intro a; simp, by intro x; simp⟩

theorem specNode_key (root : Option Model) (m : Model) (hrt : rtModel m = true) :
    (specNode root true m).id ≠ "" ∧
    nodeKey (specNode root true m) = keyOf m := by
  obtain ⟨fs, caps⟩ := m
  simp only [rtModel, Bool.and_eq_true] at hrt
  obtain ⟨⟨hcaps, hlocal⟩, hfields⟩ := hrt
  simp only [localFieldsOK, Bool.and_eq_true] at hlocal
  obtain ⟨⟨⟨hc1, hc2⟩, hda⟩, hdr⟩ := hlocal
  have hcp : fs.countP (fun f => isPrimaryField f = true) = 1 := by
    simpa using hc1
  obtain ⟨ty, s, hpo, hsne, hid, hty⟩ :=
    specFields_primary_read root fs emptyNode hfields hcp
  obtain ⟨hid2, hty2, _, _, _⟩ := specNode_core root fs caps
  constructor
  · rw [hid2, hid]
    exact hsne
  · rw [show nodeKey (specNode root true (.mk fs caps))
          = (specNode root true (.mk fs caps)).ty ++ ","
            ++ (specNode root true (.mk fs caps)).id from rfl,
        hid2, hty2, hid, hty,
        show keyOf (.mk fs caps)
          = (match primaryOfFields fs with
             | some (t2, i2) => t2 ++ "," ++ i2
             | none => ",") from rfl, hpo]

theorem readOK1_ext (root : Option Model) (n n2 : Node)
    (hid : n2.id = n.id) (hcl : n2.clientID = n.clientID)
    (hal : ∀ a, aLook n2 a = aLook n a) (hrl : ∀ x, rLook n2 x = rLook n x)
    (f : Field) (h : readOK1 root n f) : readOK1 root n2 f := by
  obtain ⟨tag, v⟩ := f
  simp only [readOK1, Field.tag, Field.v] at h ⊢
  by_cases hp : (tagType (parseTag tag) == annotationPrimary) = true
  · rw [if_pos hp] at h ⊢
    intro hpv
    rw [hid]
    exact h hpv
  · rw [if_neg hp] at h ⊢
    by_cases hc : (tagType (parseTag tag) == annotationClientID) = true
    · rw [if_pos hc] at h ⊢
      cases v with
      | prim p =>
          cases p with
          | str s => exact hcl.trans h
          | intv k x => trivial
          | uintv k x => trivial
          | boolean b => trivial
      | primPtr p => trivial
      | timeVal t => trivial
      | timePtr t => trivial
      | ptr o => trivial
      | slice ms => trivial
      | linksField => trivial
    · rw [if_neg hc] at h ⊢
      by_cases ha : (tagType (parseTag tag) == annotationAttribute) = true
      · rw [if_pos ha] at h ⊢
        exact (hal _).trans h
      · rw [if_neg ha] at h ⊢
        by_cases hr : (tagType (parseTag tag) == annotationRelation) = true
        · rw [if_pos hr] at h ⊢
          exact (hrl _).trans h
        · rw [if_neg hr] at h ⊢
          trivial

theorem readsOK_ext (root : Option Model) (n n2 : Node)
    (hid : n2.id = n.id) (hcl : n2.clientID = n.clientID)
    (hal : ∀ a, aLook n2 a = aLook n a) (hrl : ∀ x, rLook n2 x = rLook n x) :
    ∀ fs, readsOK root n fs → readsOK root n2 fs := by
  intro fs
  induction fs with
  | nil => intro h; trivial
  | cons f rest ih =>
      intro h
      exact ⟨readOK1_ext root n n2 hid hcl hal hrl f h.1, ih h.2⟩

theorem specNode_reads (root : Option Model) (fs : List Field) (caps : Caps)
    (hrt : rtModel (.mk fs caps) = true) :
    readsOK root (specNode root true (.mk fs caps)) fs := by
  have hrt2 := hrt
  simp only [rtModel, Bool.and_eq_true] at hrt2
  obtain ⟨⟨hcaps, hlocal⟩, hfields⟩ := hrt2
  simp only [localFieldsOK, Bool.and_eq_true] at hlocal
  obtain ⟨⟨⟨hc1, hc2⟩, hda⟩, hdr⟩ := hlocal
  have hbase := specFields_read root fs emptyNode hfields hda hdr
    (by have : fs.countP (fun f => isPrimaryField f = true) = 1 := by
          simpa using hc1
        omega)
    (by simpa using hc2)
    (by intro a ha; rfl)
    (by intro x hx; rfl)
    (by intro hpos; rfl)
  obtain ⟨h1, h2, h3, h4, h5⟩ := specNode_core root fs caps
  exact readsOK_ext root _ _ h1 h3 h4 h5 fs hbase

end Jsonapi

namespace Jsonapi

/-! ## Round-trip development, part 7: the unmarshaller restores a
round-trippable model from its own wire node -/

theorem coercePrim_roundtrip (p : PrimVal) :
    coercePrim (zeroPrim p) (.raw (.prim p)) = .ok p := by
  cases p <;> rfl

theorem coerceTime_roundtrip (mods : AttrMods) (t : GoTime) :
    coerceTime mods (timeJVal mods t) = .ok t := by
  obtain ⟨oe, iso, rfc⟩ := mods
  cases iso <;> cases rfc <;> simp [coerceTime, timeJVal]

theorem resolves_mono {inc : List (String × Node)} {root : Option Model}
    {L1 L2 : List Model} (hsub : ∀ c, c ∈ L1 → c ∈ L2)
    (h : resolves inc root L2) : resolves inc root L1 :=
  fun c hc => h c (hsub c hc)

theorem unmarshalChar (inc : List (String × Node)) (root : Option Model) :
    ∀ fuel : Nat,
    (∀ m m2, rtModel m = true → resolves inc root (descM m) →
        unmarshalModel fuel inc (templateOf m) (specNode root true m)
          = .ok m2 → m2 = m)
    ∧ (∀ fs node fs2, rtFields fs = true → readsOK root node fs →
        resolves inc root (descFields fs) →
        unmarshalFields fuel inc (templateFields fs) node = .ok fs2 → fs2 = fs)
    ∧ (∀ f node f2, rtField f = true → readOK1 root node f →
        resolves inc root (descField f) →
        unmarshalField fuel inc (templateField f) node = .ok f2 → f2 = f)
    ∧ (∀ ct ms ms2, rtElems ms = true → tmplsEq ct ms = true →
        resolves inc root (descElems ms ++ topElems ms) →
        unmarshalMany fuel inc ct
          ((specElems root true ms).map toShallowNode) = .ok ms2 → ms2 = ms) := by
  intro fuel
  induction fuel with
  | zero =>
      refine ⟨?_, ?_, ?_, ?_⟩
      · intro m m2 h1 h2 h3
        simp [unmarshalModel] at h3
      · intro fs node fs2 h1 h2 h3 h4
        simp [unmarshalFields] at h4
      · intro f node f2 h1 h2 h3 h4
        simp [unmarshalField] at h4
      · intro ct ms ms2 h1 h1b h2 h3
        simp [unmarshalMany] at h3
  | succ g ih =>
      obtain ⟨ihM, ihFS, ihF, ihE⟩ := ih
      refine ⟨?_, ?_, ?_, ?_⟩
      · -- a whole model
        intro m m2 hrt hres hok
        obtain ⟨fs, caps⟩ := m
        have hrt2 := hrt
        simp only [rtModel, Bool.and_eq_true] at hrt2
        obtain ⟨⟨hcaps, hlocal⟩, hfields⟩ := hrt2
        have hreads := specNode_reads root fs caps hrt
        rw [show templateOf (.mk fs caps) = .mk (templateFields fs) caps
              from rfl] at hok
        simp only [unmarshalModel] at hok
        cases hfs : unmarshalFields g inc (templateFields fs)
            (specNode root true (.mk fs caps)) with
        | error e => simp [hfs] at hok
        | ok fs2 =>
            have := ihFS fs (specNode root true (.mk fs caps)) fs2
              hfields hreads (resolves_mono (fun c hc => hc) hres) hfs
            simp only [hfs] at hok
            cases hok
            rw [this]
      · -- a field list
        intro fs node fs2 hrt hreads hres hok
        cases fs with
        | nil =>
            simp only [templateFields, unmarshalFields] at hok
            cases hok
            rfl
        | cons f rest =>
            simp only [rtFields, Bool.and_eq_true] at hrt
            rw [show templateFields (f :: rest)
                  = templateField f :: templateFields rest from rfl] at hok
            simp only [unmarshalFields] at hok
            cases hf1 : unmarshalField g inc (templateField f) node with
            | error e => simp [hf1] at hok
            | ok f2 =>
                have he1 := ihF f node f2 hrt.1 hreads.1
                  (resolves_mono (fun c hc =>
                    List.mem_append.mpr (Or.inl hc)) hres) hf1
                simp only [hf1] at hok
                cases hf2 : unmarshalFields g inc (templateFields rest) node with
                | error e => simp [hf2] at hok
                | ok fs3 =>
                    have he2 := ihFS rest node fs3 hrt.2 hreads.2
                      (resolves_mono (fun c hc =>
                        List.mem_append.mpr (Or.inr hc)) hres) hf2
                    simp only [hf2] at hok
                    cases hok
                    rw [he1, he2]
      · -- one field
        intro f node f2 hrt hread hres hok
        obtain ⟨tag, v⟩ := f
        simp only [rtField, Bool.and_eq_true] at hrt
        obtain ⟨⟨ht, hvt⟩, hcond⟩ := hrt
        simp only [readOK1, Field.tag, Field.v] at hread
        by_cases hp : (tagType (parseTag tag) == annotationPrimary) = true
        · -- primary: all six round-trippable destination shapes
          rw [if_pos hp] at hcond hread
          have hid := hread hcond
          match v, hcond, hid with
          | .prim (.str s), hcond, hid =>
              simp only [primIdStr] at hid
              rw [show templateField (.mk tag (.prim (.str s)))
                    = .mk tag (.prim (.str "")) from rfl] at hok
              simp only [unmarshalField, ht, Bool.not_true, Bool.false_eq_true,
                if_false, hp, if_true, parsePrimaryID] at hok
              cases hok
              rw [hid]
          | .prim (.intv k n), hcond, hid =>
              simp only [primIdStr] at hid
              rw [show templateField (.mk tag (.prim (.intv k n)))
                    = .mk tag (.prim (.intv k 0)) from rfl] at hok
              simp only [unmarshalField, ht, Bool.not_true, Bool.false_eq_true,
                if_false, hp, if_true] at hok
              rw [hid] at hok
              simp only [parsePrimary_int] at hok
              cases hok
              rfl
          | .prim (.uintv k n), hcond, hid =>
              simp only [primIdStr] at hid
              rw [show templateField (.mk tag (.prim (.uintv k n)))
                    = .mk tag (.prim (.uintv k 0)) from rfl] at hok
              simp only [unmarshalField, ht, Bool.not_true, Bool.false_eq_true,
                if_false, hp, if_true] at hok
              rw [hid] at hok
              simp only [parsePrimary_uint] at hok
              cases hok
              rfl
          | .primPtr (some (.str s)), hcond, hid =>
              simp only [primIdStr] at hid
              rw [show templateField (.mk tag (.primPtr (some (.str s))))
                    = .mk tag (.primPtr (some (.str ""))) from rfl] at hok
              simp only [unmarshalField, ht, Bool.not_true, Bool.false_eq_true,
                if_false, hp, if_true, parsePrimaryID] at hok
              cases hok
              rw [hid]
          | .primPtr (some (.intv k n)), hcond, hid =>
              simp only [primIdStr] at hid
              rw [show templateField (.mk tag (.primPtr (some (.intv k n))))
                    = .mk tag (.primPtr (some (.intv k 0))) from rfl] at hok
              simp only [unmarshalField, ht, Bool.not_true, Bool.false_eq_true,
                if_false, hp, if_true] at hok
              rw [hid] at hok
              simp only [parsePrimary_int] at hok
              cases hok
              rfl
          | .primPtr (some (.uintv k n)), hcond, hid =>
              simp only [primIdStr] at hid
              rw [show templateField (.mk tag (.primPtr (some (.uintv k n))))
                    = .mk tag (.primPtr (some (.uintv k 0))) from rfl] at hok
              simp only [unmarshalField, ht, Bool.not_true, Bool.false_eq_true,
                if_false, hp, if_true] at hok
              rw [hid] at hok
              simp only [parsePrimary_uint] at hok
              cases hok
              rfl
          | .prim (.boolean b), hcond, hid => simp [rtPrimaryVal] at hcond
          | .primPtr (some (.boolean b)), hcond, hid =>
              simp [rtPrimaryVal] at hcond
          | .primPtr none, hcond, hid => simp [rtPrimaryVal] at hcond
          | .timeVal t0, hcond, hid => simp [rtPrimaryVal] at hcond
          | .timePtr t0, hcond, hid => simp [rtPrimaryVal] at hcond
          | .ptr o, hcond, hid => simp [rtPrimaryVal] at hcond
          | .slice ms0, hcond, hid => simp [rtPrimaryVal] at hcond
          | .linksField, hcond, hid => simp [rtPrimaryVal] at hcond
        · have hpf : (tagType (parseTag tag) == annotationPrimary) = false := by
            simpa using hp
          rw [if_neg hp] at hcond hread
          by_cases hc : (tagType (parseTag tag) == annotationClientID) = true
          · -- client id
            rw [if_pos hc] at hcond hread
            match v, hcond, hread with
            | .prim (.str s), hcond, hread =>
            rw [show templateField (.mk tag (.prim (.str s)))
                  = .mk tag (.prim (.str "")) from rfl] at hok
            simp only [unmarshalField, ht, Bool.not_true, Bool.false_eq_true,
              if_false, hpf, hc, if_true] at hok
            cases hok
            rw [hread]
          · have hcf : (tagType (parseTag tag) == annotationClientID)
                = false := by simpa using hc
            rw [if_neg hc] at hcond hread
            by_cases ha : (tagType (parseTag tag) == annotationAttribute) = true
            · -- an attribute
              rw [if_pos ha] at hcond hread
              cases v with
              | prim p =>
                  rw [show templateField (.mk tag (.prim p))
                        = .mk tag (.prim (zeroPrim p)) from rfl] at hok
                  simp only [unmarshalField, ht, Bool.not_true,
                    Bool.false_eq_true, if_false, hpf, hcf, ha, if_true] at hok
                  rw [show (node.attributes.getD []).lookup
                        (tagAt (parseTag tag) 1)
                      = aLook node (tagAt (parseTag tag) 1) from rfl,
                    hread] at hok
                  by_cases hz : ((parseAttrMods (parseTag tag)).omitEmpty
                      && isZeroFVal (.prim p)) = true
                  · have hzp : p = zeroPrim p := by
                      have := (Bool.and_eq_true _ _).mp hz
                      exact eq_of_beq (by simpa [isZeroFVal] using this.2)
                    simp only [specAttrVal, hz, if_true, zeroFVal,
                      zeroPrim_idem] at hok
                    cases hok
                    rw [← hzp]
                  · simp only [specAttrVal, hz, Bool.false_eq_true, if_false,
                      coercePrim_roundtrip] at hok
                    cases hok
                    rfl
              | timeVal t =>
                  rw [show templateField (.mk tag (.timeVal t))
                        = .mk tag (.timeVal goTimeZero) from rfl] at hok
                  simp only [unmarshalField, ht, Bool.not_true,
                    Bool.false_eq_true, if_false, hpf, hcf, ha, if_true] at hok
                  rw [show (node.attributes.getD []).lookup
                        (tagAt (parseTag tag) 1)
                      = aLook node (tagAt (parseTag tag) 1) from rfl,
                    hread] at hok
                  by_cases hz : t.isZero = true
                  · have hzt : t = goTimeZero := goTime_eq_zero hz
                    simp only [specAttrVal, hz, if_true, zeroFVal] at hok
                    cases hok
                    rw [hzt]
                  · simp only [specAttrVal, hz, Bool.false_eq_true, if_false,
                      coerceTime_roundtrip] at hok
                    cases hok
                    rfl
              | primPtr p =>
                  rw [show templateField (.mk tag (.primPtr p))
                        = .mk tag (.primPtr (p.map zeroPrim)) from rfl] at hok
                  simp only [unmarshalField, ht, Bool.not_true,
                    Bool.false_eq_true, if_false, hpf, hcf, ha, if_true] at hok
                  rw [show (node.attributes.getD []).lookup
                        (tagAt (parseTag tag) 1)
                      = aLook node (tagAt (parseTag tag) 1) from rfl,
                    hread] at hok
                  by_cases hz : ((parseAttrMods (parseTag tag)).omitEmpty
                      && isZeroFVal (.primPtr p)) = true
                  · have hpn : p = none := by
                      have := (Bool.and_eq_true _ _).mp hz
                      simpa [isZeroFVal, Option.isNone_iff_eq_none]
                        using this.2
                    subst hpn
                    simp only [specAttrVal, hz, if_true, Option.map_none',
                      zeroFVal] at hok
                    cases hok
                    rfl
                  · simp only [specAttrVal, hz, Bool.false_eq_true,
                      if_false] at hok
                    cases p with
                    | none =>
                        simp only [Option.map_none'] at hok
                        cases hok
                        rfl
                    | some q =>
                        simp only [Option.map_some',
                          coercePrim_roundtrip] at hok
                        cases hok
                        rfl
              | timePtr o =>
                  rw [show templateField (.mk tag (.timePtr o))
                        = .mk tag (.timePtr none) from rfl] at hok
                  simp only [unmarshalField, ht, Bool.not_true,
                    Bool.false_eq_true, if_false, hpf, hcf, ha, if_true] at hok
                  rw [show (node.attributes.getD []).lookup
                        (tagAt (parseTag tag) 1)
                      = aLook node (tagAt (parseTag tag) 1) from rfl,
                    hread] at hok
                  cases o with
                  | none =>
                      by_cases hoe : (parseAttrMods (parseTag tag)).omitEmpty
                          = true
                      · simp only [specAttrVal, hoe, if_true, zeroFVal] at hok
                        cases hok
                        rfl
                      · simp only [specAttrVal, hoe, Bool.false_eq_true,
                          if_false] at hok
                        cases hok
                        rfl
                  | some t =>
                      have hz : (t.isZero
                          && (parseAttrMods (parseTag tag)).omitEmpty)
                          = false := by
                        cases hb : (t.isZero
                            && (parseAttrMods (parseTag tag)).omitEmpty) with
                        | false => rfl
                        | true => simp [rtAttrVal, hb] at hcond
                      simp only [specAttrVal, hz, Bool.false_eq_true,
                        if_false] at hok
                      obtain ⟨u⟩ := t
                      revert hok
                      generalize parseAttrMods (parseTag tag) = mods
                      obtain ⟨oe, iso, rfc⟩ := mods
                      intro hok
                      cases iso with
                      | true =>
                          simp only [show timeJVal ⟨oe, true, rfc⟩ ⟨u⟩
                                = .fmtISO8601 u from rfl,
                            show coerceTime ⟨oe, true, rfc⟩ (.fmtISO8601 u)
                                = .ok ⟨u⟩ from rfl] at hok
                          cases hok
                          rfl
                      | false =>
                          cases rfc with
                          | true =>
                              simp only [show timeJVal ⟨oe, false, true⟩ ⟨u⟩
                                    = .fmtRFC3339 u from rfl,
                                show coerceTime ⟨oe, false, true⟩
                                      (.fmtRFC3339 u)
                                    = .ok ⟨u⟩ from rfl] at hok
                              cases hok
                              rfl
                          | false =>
                              simp only [show timeJVal ⟨oe, false, false⟩ ⟨u⟩
                                    = .epoch u from rfl,
                                show coerceTime ⟨oe, false, false⟩ (.epoch u)
                                    = .ok ⟨u⟩ from rfl] at hok
                              cases hok
                              rfl
              | ptr o =>
                  cases o with
                  | none =>
                      rw [show templateField (.mk tag (.ptr none))
                            = .mk tag (.ptr none) from rfl] at hok
                      simp only [unmarshalField, ht, Bool.not_true,
                        Bool.false_eq_true, if_false, hpf, hcf, ha,
                        if_true] at hok
                      rw [show (node.attributes.getD []).lookup
                            (tagAt (parseTag tag) 1)
                          = aLook node (tagAt (parseTag tag) 1) from rfl,
                        hread] at hok
                      by_cases hz : ((parseAttrMods (parseTag tag)).omitEmpty
                          && isZeroFVal (.ptr none)) = true
                      · simp only [specAttrVal, hz, if_true, zeroFVal] at hok
                        cases hok
                        rfl
                      · simp only [specAttrVal, hz, Bool.false_eq_true,
                          if_false] at hok
                        cases hok
                        rfl
                  | some c =>
                      rw [show templateField (.mk tag (.ptr (some c)))
                            = .mk tag (.ptr (some (templateOf c))) from rfl]
                        at hok
                      simp only [unmarshalField, ht, Bool.not_true,
                        Bool.false_eq_true, if_false, hpf, hcf, ha,
                        if_true] at hok
                      rw [show (node.attributes.getD []).lookup
                            (tagAt (parseTag tag) 1)
                          = aLook node (tagAt (parseTag tag) 1) from rfl,
                        hread] at hok
                      have hz : ((parseAttrMods (parseTag tag)).omitEmpty
                          && isZeroFVal (.ptr (some c))) = false := by
                        simp [isZeroFVal]
                      simp only [specAttrVal, hz, Bool.false_eq_true,
                        if_false] at hok
                      cases hok
                      rfl
              | slice ms =>
                  rw [show templateField (.mk tag (.slice ms))
                        = .mk tag (.slice (templateElems ms)) from rfl] at hok
                  simp only [unmarshalField, ht, Bool.not_true,
                    Bool.false_eq_true, if_false, hpf, hcf, ha, if_true] at hok
                  rw [show (node.attributes.getD []).lookup
                        (tagAt (parseTag tag) 1)
                      = aLook node (tagAt (parseTag tag) 1) from rfl,
                    hread] at hok
                  by_cases hz : ((parseAttrMods (parseTag tag)).omitEmpty
                      && isZeroFVal (.slice ms)) = true
                  · have hnil : ms = [] := by
                      have := (Bool.and_eq_true _ _).mp hz
                      simpa [isZeroFVal, List.isEmpty_iff] using this.2
                    subst hnil
                    simp only [specAttrVal, hz, if_true, zeroFVal] at hok
                    cases hok
                    rfl
                  · simp only [specAttrVal, hz, Bool.false_eq_true,
                      if_false] at hok
                    cases hok
                    rfl
              | linksField => simp [rtAttrVal] at hcond
            · have haf : (tagType (parseTag tag) == annotationAttribute)
                  = false := by simpa using ha
              rw [if_neg ha] at hcond hread
              by_cases hr : (tagType (parseTag tag) == annotationRelation) = true
              · -- a relationship
                rw [if_pos hr] at hcond hread
                have hresV : resolves inc root (descVal v) := by
                  refine resolves_mono (fun c hc => ?_) hres
                  rw [show descField (.mk tag v)
                        = if tagType (parseTag tag) == annotationRelation
                          then descVal v else [] from rfl, if_pos hr]
                  exact hc
                cases v with
                | ptr o =>
                    cases o with
                    | none =>
                        rw [show templateField (.mk tag (.ptr none))
                              = .mk tag (.ptr none) from rfl] at hok
                        simp only [unmarshalField, ht, Bool.not_true,
                          Bool.false_eq_true, if_false, hpf, hcf, haf, hr,
                          if_true] at hok
                        rw [show (node.relationships.getD []).lookup
                              (tagAt (parseTag tag) 1)
                            = rLook node (tagAt (parseTag tag) 1) from rfl,
                          hread] at hok
                        by_cases hoe : omitEmptyOf (parseTag tag) = true
                        · simp only [specRelOpt, hoe, if_true, zeroFVal] at hok
                          cases hok
                          rfl
                        · simp only [specRelOpt, hoe, Bool.false_eq_true,
                            if_false] at hok
                          cases hok
                          rfl
                    | some c2 =>
                        simp only [rtRelVal] at hcond
                        have hkey := specNode_key root c2 hcond
                        have hsh := toShallowNode_of_id_ne
                          (specNode root true c2) hkey.1
                        have hres2 : inc.lookup (keyOf c2)
                            = some (specNode root true c2) :=
                          hresV c2 (by
                            rw [show descVal (.ptr (some c2))
                                  = descM c2 ++ [c2] from rfl]
                            exact List.mem_append.mpr (Or.inr (by simp)))
                        rw [show templateField (.mk tag (.ptr (some c2)))
                              = .mk tag (.ptr (some (templateOf c2))) from rfl]
                          at hok
                        simp only [unmarshalField, ht, Bool.not_true,
                          Bool.false_eq_true, if_false, hpf, hcf, haf, hr,
                          if_true] at hok
                        rw [show (node.relationships.getD []).lookup
                              (tagAt (parseTag tag) 1)
                            = rLook node (tagAt (parseTag tag) 1) from rfl,
                          hread] at hok
                        simp only [specRelOpt, hsh] at hok
                        rw [show (Node.mk (specNode root true c2).ty
                              (specNode root true c2).id "" none none none
                              none).attributes = none from rfl] at hok
                        simp only [Option.isSome_none, Bool.false_eq_true,
                          if_false] at hok
                        rw [show nodeKey (Node.mk (specNode root true c2).ty
                              (specNode root true c2).id "" none none none none)
                            = nodeKey (specNode root true c2) from rfl,
                          hkey.2, hres2] at hok
                        cases hrec : unmarshalModel g inc (templateOf c2)
                            (specNode root true c2) with
                        | error e => simp [hrec] at hok
                        | ok c3 =>
                            have := ihM c2 c3 hcond
                              (resolves_mono (fun c hc => by
                                rw [show descVal (.ptr (some c2))
                                      = descM c2 ++ [c2] from rfl]
                                exact List.mem_append.mpr (Or.inl hc)) hresV)
                              hrec
                            simp only [hrec] at hok
                            cases hok
                            rw [this]
                | slice ms =>
                    simp only [rtRelVal, Bool.and_eq_true] at hcond
                    obtain ⟨hrte, hhom⟩ := hcond
                    rw [show templateField (.mk tag (.slice ms))
                          = .mk tag (.slice (templateElems ms)) from rfl] at hok
                    simp only [unmarshalField, ht, Bool.not_true,
                      Bool.false_eq_true, if_false, hpf, hcf, haf, hr,
                      if_true] at hok
                    rw [show (node.relationships.getD []).lookup
                          (tagAt (parseTag tag) 1)
                        = rLook node (tagAt (parseTag tag) 1) from rfl,
                      hread] at hok
                    by_cases hoe : (omitEmptyOf (parseTag tag)
                        && decide (ms.length < 1)) = true
                    · have hnil : ms = [] := by
                        have := (Bool.and_eq_true _ _).mp hoe
                        have hlen : ms.length = 0 := by
                          have := of_decide_eq_true this.2
                          omega
                        exact List.eq_nil_of_length_eq_zero hlen
                      subst hnil
                      simp only [specRelOpt, hoe, if_true, zeroFVal,
                        templateElems] at hok
                      cases hok
                      rfl
                    · simp only [specRelOpt, hoe, Bool.false_eq_true,
                        if_false] at hok
                      cases ms with
                      | nil =>
                          simp only [templateElems, specElems,
                            List.map_nil] at hok
                          cases hok
                          rfl
                      | cons x r =>
                          cases x with
                          | none => simp [rtElems] at hrte
                          | some c =>
                              rw [show templateElems (some c :: r)
                                    = some (templateOf c) :: templateElems r
                                    from rfl] at hok
                              cases hml : unmarshalMany g inc (templateOf c)
                                  ((specElems root true (some c :: r)).map
                                    toShallowNode) with
                              | error e => simp [hml] at hok
                              | ok cs =>
                                  have htm : tmplsEq (templateOf c)
                                      (some c :: r) = true := by
                                    simp only [tmplsEq, Bool.and_eq_true]
                                    refine ⟨modelEq_refl _, ?_⟩
                                    simpa [homogElems] using hhom
                                  have hrec := ihE (templateOf c)
                                    (some c :: r) cs hrte htm
                                    (resolves_mono (fun d hd => by
                                      rw [show descVal (.slice (some c :: r))
                                            = descElems (some c :: r)
                                              ++ topElems (some c :: r)
                                            from rfl]
                                      exact hd) hresV) hml
                                  simp only [hml] at hok
                                  cases hok
                                  rw [hrec]
                | prim p => simp [rtRelVal] at hcond
                | primPtr p => simp [rtRelVal] at hcond
                | timeVal t => simp [rtRelVal] at hcond
                | timePtr t => simp [rtRelVal] at hcond
                | linksField => simp [rtRelVal] at hcond
              · rw [if_neg hr] at hcond
                simp at hcond
      · -- a to-many element list, decoded against one element template
        intro ct ms ms2 hrt htm hres hok
        cases ms with
        | nil =>
            simp only [specElems, List.map_nil, unmarshalMany] at hok
            cases hok
            rfl
        | cons x rest =>
            cases x with
            | none => simp [rtElems] at hrt
            | some c2 =>
                simp only [rtElems, Bool.and_eq_true] at hrt
                have hct : templateOf c2 = ct :=
                  tmplsEq_sound htm c2 (by simp)
                have htm2 : tmplsEq ct rest = true := by
                  simp only [tmplsEq, Bool.and_eq_true] at htm
                  exact htm.2
                have hkey := specNode_key root c2 hrt.1
                have hsh := toShallowNode_of_id_ne
                  (specNode root true c2) hkey.1
                have hres2 : inc.lookup (keyOf c2)
                    = some (specNode root true c2) :=
                  hres c2 (by
                    rw [show descElems (some c2 :: rest)
                          = descM c2 ++ descElems rest from rfl,
                        show topElems (some c2 :: rest) = c2 :: topElems rest
                          from rfl]
                    exact List.mem_append.mpr (Or.inr (by simp)))
                rw [show specElems root true (some c2 :: rest)
                      = specNode root true c2 :: specElems root true rest
                      from rfl, List.map_cons] at hok
                simp only [unmarshalMany, hsh] at hok
                rw [show (Node.mk (specNode root true c2).ty
                      (specNode root true c2).id "" none none none
                      none).attributes = none from rfl] at hok
                simp only [Option.isSome_none, Bool.false_eq_true,
                  if_false] at hok
                rw [show nodeKey (Node.mk (specNode root true c2).ty
                      (specNode root true c2).id "" none none none none)
                    = nodeKey (specNode root true c2) from rfl,
                  hkey.2, hres2] at hok
                rw [← hct] at hok
                cases hrec : unmarshalModel g inc (templateOf c2)
                    (specNode root true c2) with
                | error e => simp [hrec] at hok
                | ok c3 =>
                    have he1 := ihM c2 c3 hrt.1
                      (resolves_mono (fun c hc => by
                        rw [show descElems (some c2 :: rest)
                              = descM c2 ++ descElems rest from rfl]
                        exact List.mem_append.mpr
                          (Or.inl (List.mem_append.mpr (Or.inl hc)))) hres)
                      hrec
                    simp only [hrec] at hok
                    cases hml : unmarshalMany g inc (templateOf c2)
                        ((specElems root true rest).map toShallowNode) with
                    | error e => simp [hml] at hok
                    | ok cs =>
                        have he2 := ihE (templateOf c2) rest cs hrt.2
                          (by rw [hct]; exact htm2)
                          (resolves_mono (fun c hc => by
                            rcases List.mem_append.mp hc with h1 | h2
                            · rw [show descElems (some c2 :: rest)
                                    = descM c2 ++ descElems rest from rfl]
                              exact List.mem_append.mpr
                                (Or.inl (List.mem_append.mpr (Or.inr h1)))
                            · rw [show topElems (some c2 :: rest)
                                    = c2 :: topElems rest from rfl]
                              exact List.mem_append.mpr
                                (Or.inr (List.mem_cons_of_mem _ h2))) hres)
                          hml
                        simp only [hml] at hok
                        cases hok
                        rw [he1, he2]

end Jsonapi

namespace Jsonapi

/-! ## Round-trip development, part 8: the Included Set resolves every
descendant -/

theorem foldl_appendIncluded_fresh :
    ∀ (ns : List Node) (inc0 : List (String × Node)),
    (∀ n ∈ ns, inc0.lookup (nodeKey n) = none) →
    distinctStrs (ns.map nodeKey) = true →
    List.foldl appendIncluded inc0 ns
      = inc0 ++ ns.map (fun n => (nodeKey n, n)) := by
  intro ns
  induction ns with
  | nil => intro inc0 _ _; simp
  | cons n rest ih =>
      intro inc0 hfresh hd
      simp only [List.map_cons, distinctStrs, Bool.and_eq_true] at hd
      have hn0 : inc0.lookup (nodeKey n) = none := hfresh n (by simp)
      rw [List.foldl_cons, appendIncluded_fresh inc0 n hn0]
      rw [ih (inc0 ++ [(nodeKey n, n)]) ?_ hd.2]
      · simp
      · intro n2 hn2
        have hne : nodeKey n2 ≠ nodeKey n := by
          intro he
          have : nodeKey n ∈ rest.map nodeKey := by
            rw [← he]
            exact List.mem_map_of_mem _ hn2
          exact (not_mem_of_contains_false (by simpa using hd.1)) this
        rw [lookup_append_of_none _ _ _ (hfresh n2 (List.mem_cons_of_mem _ hn2))]
        simp [List.lookup, beq_eq_false_iff_ne.mpr hne]

theorem lookup_pairs :
    ∀ (ns : List Node), distinctStrs (ns.map nodeKey) = true →
    ∀ n ∈ ns,
      (ns.map (fun n2 => (nodeKey n2, n2))).lookup (nodeKey n) = some n := by
  intro ns
  induction ns with
  | nil => intro _ n hn; simp at hn
  | cons n0 rest ih =>
      intro hd n hn
      simp only [List.map_cons, distinctStrs, Bool.and_eq_true] at hd
      rcases List.mem_cons.mp hn with h1 | h2
      · subst h1
        simp [List.lookup]
      · have hne : nodeKey n ≠ nodeKey n0 := by
          intro he
          have : nodeKey n0 ∈ rest.map nodeKey := by
            rw [← he]
            exact List.mem_map_of_mem _ h2
          exact (not_mem_of_contains_false (by simpa using hd.1)) this
        simp only [List.map_cons, List.lookup,
          beq_eq_false_iff_ne.mpr hne]
        exact ih hd.2 n h2

theorem marshal_keys (m : Model) (hrt : rtModel m = true) :
    ((descM m).map (specNode (some m) true)).map nodeKey
      = (descM m).map keyOf := by
  rw [List.map_map]
  refine List.map_congr_left ?_
  intro c hc
  exact (specNode_key (some m) c
    ((desc_rt (sizeM m)).1 m (Nat.le_refl _) hrt c hc)).2

theorem marshal_resolves (m : Model) (hrt : rtModel m = true)
    (hd : distinctStrs ((descM m).map keyOf) = true) :
    resolves (List.foldl appendIncluded [] (specIncNodes (some m) m))
      (some m) (descM m) := by
  have hkeys := marshal_keys m hrt
  have hinc : specIncNodes (some m) m
      = (descM m).map (specNode (some m) true) :=
    ((specInc_desc (some m) (sizeM m)).1 m (Nat.le_refl _))
  have hdist : (((descM m).map (specNode (some m) true)).map nodeKey)
      = (descM m).map keyOf := hkeys
  have hfold := foldl_appendIncluded_fresh
    ((descM m).map (specNode (some m) true)) []
    (by intro n _; rfl)
    (by rw [hdist]; exact hd)
  intro c hc
  have hrtc : rtModel c = true :=
    (desc_rt (sizeM m)).1 m (Nat.le_refl _) hrt c hc
  have hkey := (specNode_key (some m) c hrtc).2
  rw [hinc, hfold]
  simp only [List.nil_append]
  rw [← hkey]
  exact lookup_pairs _ (by rw [hdist]; exact hd)
    (specNode (some m) true c) (List.mem_map_of_mem _ hc)

end Jsonapi

namespace Jsonapi

/-- C1: For a round-trippable model — every field tagged and well-formed, a
single primary key of string or integer kind (by value or behind a non-nil
pointer) rendering a non-empty id, attribute and relation names pairwise
distinct, attributes of any rendered kind (excluding only a `links` value
and a pointed-to zero time under omit-empty, which marshalling drops),
relations plain to-one pointers or to-many slices of one static element
type without nil elements, valid links — and whose relation descendants
carry pairwise-distinct Included Set keys, unmarshalling the document
produced by a side-loading marshal restores the model exactly (at every
fuel at which both runs complete).  The claim as frozen omits the
key-distinctness premise; without it the round-trip fails (see the
collision counterexample). -/
theorem marshal_unmarshal_roundtrip (m : Model)
    (h1 : rtModel m = true)
    (h2 : distinctStrs ((descM m).map keyOf) = true)
    (f1 f2 : Nat) (n : Node) (inc : List (String × Node)) (m2 : Model)
    (hmar : marshalOne f1 true m = .ok (n, inc))
    (hunm : unmarshalModel f2 inc (templateOf m) n = .ok m2) :
    m2 = m := by
  unfold marshalOne at hmar
  cases hv : visit f1 ⟨[], true, none⟩ m with
  | error e => simp [hv] at hmar
  | ok p =>
      obtain ⟨n1, st1⟩ := p
      have hmar2 : Except.ok (n1, st1.included)
          = (Except.ok (n, inc) : Except MErr (Node × List (String × Node))) := by
        rw [hv] at hmar
        exact hmar
      injection hmar2 with hpair
      injection hpair with hmn hminc
      obtain ⟨hn, hst⟩ := (visitChar f1).1 ⟨[], true, none⟩ m n1 st1 h1 hv
      have hn2 : n = specNode (some m) true m := by
        rw [← hmn]
        exact hn.trans (by rfl)
      have hinc2 : inc = List.foldl appendIncluded []
          (specIncNodes (some m) m) := by
        rw [← hminc, hst]
        rfl
      rw [hn2, hinc2] at hunm
      exact (unmarshalChar _ (some m) f2).1 m m2 h1
        (marshal_resolves m h1 h2) hunm

/-- C1 witness: a concrete three-level model with an integer primary key, a
client id, plain and omitted-zero attributes, pointer primitives (set and
nil), by-value and pointer times, nested object and array attributes, a
two-element to-many and an empty to-one relationship round-trips exactly at
fuel 30. -/
theorem marshal_unmarshal_roundtrip_witness :
    unmarshalModel 30 (marshalIncOf 30 wBlog) (templateOf wBlog)
      (marshalNodeOf 30 wBlog) = .ok wBlog := by
  have hu : unmarshalModel 30 (marshalIncOf 30 wBlog) (templateOf wBlog)
      (marshalNodeOf 30 wBlog) = .ok (unmarshalResOf 30 wBlog) := by rfl
  have he := marshal_unmarshal_roundtrip wBlog (by rfl) (by rfl) 30 30
    (marshalNodeOf 30 wBlog) (marshalIncOf 30 wBlog)
    (unmarshalResOf 30 wBlog) (by rfl) hu
  rw [hu, he]

/-- C1 counterexample to the claim as frozen: `dRoot` is acyclic and
round-trippable field-by-field, yet marshalling and unmarshalling it does
not restore it: its two distinct children share the Included Set key
"things,7", the first-wins dedup drops the second child's node, and both
references resolve to the first child. -/
theorem roundtrip_collision_counterexample :
    rtModel dRoot = true ∧
    marshalOne 30 true dRoot
      = .ok (marshalNodeOf 30 dRoot, marshalIncOf 30 dRoot) ∧
    unmarshalModel 30 (marshalIncOf 30 dRoot) (templateOf dRoot)
      (marshalNodeOf 30 dRoot) = .ok (unmarshalResOf 30 dRoot) ∧
    unmarshalResOf 30 dRoot ≠ dRoot := by
  refine ⟨by rfl, by rfl, by rfl, ?_⟩
  intro h
  exact absurd (congrArg obsY h) (by decide)

end Jsonapi
